import Mathlib

/-!
# Instruction.cpp: flags, equivalence predicates, cloning and list membership

A shallow embedding of `llvm/lib/IR/Instruction.cpp`.  An instruction is a
record holding its opcode, result type, operand list, the 7-bit flag word
`SubclassOptionalData` and the opcode-specific state the comparison
predicates read.  Functions that can fail an assertion return `Option`.
Declarations that live in headers outside `Instruction.cpp` are marked
`Modelled from the spec:`.

The list-membership engine and the order oracle work on a second, smaller
record, `Node`, inside a `BasicBlock`: a node of a container is designated by
its index in the sequence, a position cursor by an index and its head bit, and
the parent pointer is where the node lives.
-/

namespace llvm

/-- The opcodes named by `Instruction::getOpcodeName`. -/
inductive Opcode where
  | Ret | Br | Switch | IndirectBr | Invoke | Resume | Unreachable
  | CleanupRet | CatchRet | CatchPad | CatchSwitch | CallBr
  | FNeg
  | Add | FAdd | Sub | FSub | Mul | FMul | UDiv | SDiv | FDiv
  | URem | SRem | FRem
  | And | Or | Xor
  | Alloca | Load | Store | AtomicCmpXchg | AtomicRMW | Fence | GetElementPtr
  | Trunc | ZExt | SExt | FPTrunc | FPExt | FPToUI | FPToSI | UIToFP | SIToFP
  | IntToPtr | PtrToInt | BitCast | AddrSpaceCast
  | ICmp | FCmp | PHI | Select | Call | Shl | LShr | AShr | VAArg
  | ExtractElement | InsertElement | ShuffleVector | ExtractValue | InsertValue
  | LandingPad | CleanupPad | Freeze
  deriving DecidableEq, Repr

/-- Modelled from the spec: the type system is an external collaborator; only
type identity, the scalar element type of a vector and the floating-point
classification are used by `Instruction.cpp`.  `named` stands for any other
type (struct, function, ...) by identity. -/
inductive Ty where
  | voidTy
  | labelTy
  | tokenTy
  | integer (bits : Nat)
  | half
  | float
  | double
  | pointer (addrSpace : Nat)
  | vector (elem : Ty) (count : Nat)
  | array (elem : Ty) (count : Nat)
  | named (id : Nat)
  deriving DecidableEq, Repr

namespace Ty

/-- Modelled from the spec: `Type::isFloatingPointTy`. -/
def isFloatingPointTy : Ty → Bool
  | half => true
  | float => true
  | double => true
  | _ => false

/-- Modelled from the spec: `Type::getScalarType`, the element type of a
vector and the type itself otherwise. -/
def getScalarType : Ty → Ty
  | vector e _ => e
  | t => t

/-- Modelled from the spec: `Type::isFPOrFPVectorTy`. -/
def isFPOrFPVectorTy (t : Ty) : Bool :=
  t.getScalarType.isFloatingPointTy

/-- Modelled from the spec: the loop of `FPMathOperator::classof` that peels
array types off a result type. -/
def stripArrays : Ty → Ty
  | array e _ => stripArrays e
  | t => t

end Ty

/-- Modelled from the spec: `AtomicOrdering`. -/
inductive AtomicOrdering where
  | NotAtomic | Unordered | Monotonic | Acquire | Release
  | AcquireRelease | SequentiallyConsistent
  deriving DecidableEq, Repr

/-- Modelled from the spec: `CallInst::TailCallKind`. -/
inductive TailCallKind where
  | TCK_None | TCK_Tail | TCK_MustTail | TCK_NoTail
  deriving DecidableEq, Repr

/-- Modelled from the spec: an attribute list, compared as a whole by
`hasSameSpecialState`; attributes are kind identifiers. -/
structure AttributeList where
  fnAttrs : List Nat
  retAttrs : List Nat
  paramAttrs : List (List Nat)
  deriving DecidableEq, Repr

/-- Modelled from the spec: one entry of a call's operand-bundle schema
(`CallBase::BundleOpInfo`): the tag and the operand index range. -/
structure BundleOpInfo where
  Tag : Nat
  Begin : Nat
  End : Nat
  deriving DecidableEq, Repr

/-- Modelled from the spec: the summary of a call's declared memory effects
(`ModRefInfo` of its `MemoryEffects`): whether it may read (`Ref`) and whether
it may write (`Mod`) memory. -/
inductive ModRefInfo where
  | NoModRef | Ref | Mod | ModRef
  deriving DecidableEq, Repr

/-- Modelled from the spec: one clause of a landing pad: the clause constant's
type (a filter clause has array type, a catch clause does not) and whether
the constant is the null pointer (`ConstantPointerNull`). -/
structure LandingPadClause where
  ty : Ty
  isConstantPointerNull : Bool
  deriving DecidableEq, Repr

/-- Modelled from the spec: the first non-phi instruction of a block, as far
as `mayThrow` reads it: its opcode and, for a landing pad, the cleanup flag
and the clause list. -/
structure PadInst where
  opcode : Opcode
  isCleanup : Bool
  clauses : List LandingPadClause
  deriving DecidableEq, Repr

/-- An operand slot's referent: `id` stands for the address of the value
(reference identity), `ty` for the type of that value.  A value has one type,
so two slots hold the same value exactly when the two records are equal. -/
structure Operand where
  id : Nat
  ty : Ty
  deriving DecidableEq, Repr

/-- The instruction node: the fields of `Instruction` (and of the `Value` and
`User` bases) that `Instruction.cpp` reads, followed by the per-opcode state
read through the subclass accessors in `hasSameSpecialState`. -/
structure Instruction where
  opcode : Opcode
  ty : Ty
  operands : List Operand
  /-- The 7-bit bit-field `Value::SubclassOptionalData`. -/
  SubclassOptionalData : Fin 128
  /-- The owning block, `none` when detached. -/
  Parent : Option Nat
  /-- Attached metadata other than the debug location: (kind, node). -/
  metadata : List (Nat × Nat)
  /-- The debug location (`DbgLoc`), `none` when unset. -/
  DbgLoc : Option Nat
  allocatedType : Ty
  align : Nat
  isVolatile : Bool
  ordering : AtomicOrdering
  syncScopeID : Nat
  predicate : Nat
  tailCallKind : TailCallKind
  callingConv : Nat
  attributes : AttributeList
  bundleOpInfos : List BundleOpInfo
  indices : List Nat
  isWeak : Bool
  successOrdering : AtomicOrdering
  failureOrdering : AtomicOrdering
  operation : Nat
  shuffleMask : List Int
  sourceElementType : Ty
  /-- A phi node's incoming blocks, `block_begin() .. block_end()`. -/
  blocks : List Nat
  /-- A call's memory effects (`CallBase::getMemoryEffects`). -/
  memoryEffects : ModRefInfo
  /-- The function attributes of the called function of a call, empty when
  the callee is not a known function. -/
  calledFunctionFnAttrs : List Nat
  /-- Whether a cleanupret or catchswitch has an unwind destination. -/
  hasUnwindDest : Bool
  /-- The first non-phi instruction of an invoke's unwind destination. -/
  unwindDestFirstNonPHI : PadInst
  /-- A terminator's successor slots, `getSuccessor(0) ..
  getSuccessor(getNumSuccessors() - 1)`. -/
  successors : List Nat
  deriving DecidableEq, Repr

/-- A blank instruction of the given opcode and type, for building examples. -/
def Instruction.mk0 (op : Opcode) (t : Ty) (ops : List Operand) : Instruction :=
  { opcode := op, ty := t, operands := ops, SubclassOptionalData := 0,
    Parent := none, metadata := [], DbgLoc := none,
    allocatedType := Ty.voidTy, align := 0, isVolatile := false,
    ordering := AtomicOrdering.NotAtomic, syncScopeID := 0, predicate := 0,
    tailCallKind := TailCallKind.TCK_None, callingConv := 0,
    attributes := { fnAttrs := [], retAttrs := [], paramAttrs := [] },
    bundleOpInfos := [], indices := [], isWeak := false,
    successOrdering := AtomicOrdering.NotAtomic,
    failureOrdering := AtomicOrdering.NotAtomic, operation := 0,
    shuffleMask := [], sourceElementType := Ty.voidTy, blocks := [],
    memoryEffects := ModRefInfo.ModRef, calledFunctionFnAttrs := [],
    hasUnwindDest := false,
    unwindDestFirstNonPHI := { opcode := Opcode.Unreachable, isCleanup := false, clauses := [] },
    successors := [] }

/-- A value as seen by `copyIRFlags` and `andIRFlags`: an instruction, a
constant expression (which also carries an opcode and a flag word), or
anything else. -/
inductive Value where
  | inst (I : Instruction)
  | constExpr (opcode : Opcode) (ty : Ty) (SubclassOptionalData : Fin 128)
  | other (ty : Ty) (SubclassOptionalData : Fin 128)
  deriving DecidableEq, Repr

/-! ## The flag word -/

/-- Storing an integer into the 7-bit bit-field keeps it modulo `2^7`. -/
def toFlagWord (n : Nat) : Fin 128 := ⟨n % 128, Nat.mod_lt _ (by decide)⟩

/-- The assignment `SubclassOptionalData = (SubclassOptionalData & ~Mask) |
(b * Mask)` of `setNonNeg`: the operands are promoted to 32-bit integers, so
`~Mask` is `0xFFFFFFFF ^ Mask`, and the result is stored in the bit-field. -/
def assignFlag (w : Fin 128) (Mask : Nat) (b : Bool) : Fin 128 :=
  toFlagWord ((w.val &&& (0xFFFFFFFF ^^^ Mask)) ||| (b.toNat * Mask))

/-- The test `(SubclassOptionalData & Mask) != 0` of `hasNonNeg`. -/
def testFlag (w : Fin 128) (Mask : Nat) : Bool := (w.val &&& Mask) != 0

namespace OverflowingBinaryOperator

/-- Modelled from the spec: the flag bit `NoUnsignedWrap` (Operator.h). -/
def NoUnsignedWrap : Nat := 1 <<< 0

/-- Modelled from the spec: the flag bit `NoSignedWrap` (Operator.h). -/
def NoSignedWrap : Nat := 1 <<< 1

/-- Modelled from the spec: the overflow flags belong to the add / sub / mul /
shift-left family. -/
def classof : Opcode → Bool
  | .Add | .Sub | .Mul | .Shl => true
  | _ => false

/-- Modelled from the spec: the setter in Operator.h, of the same shape as
`Instruction::setNonNeg`. -/
def setHasNoUnsignedWrap (w : Fin 128) (B : Bool) : Fin 128 := assignFlag w NoUnsignedWrap B

/-- Modelled from the spec: the setter in Operator.h, of the same shape as
`Instruction::setNonNeg`. -/
def setHasNoSignedWrap (w : Fin 128) (B : Bool) : Fin 128 := assignFlag w NoSignedWrap B

/-- Modelled from the spec: the getter in Operator.h. -/
def hasNoUnsignedWrap (w : Fin 128) : Bool := testFlag w NoUnsignedWrap

/-- Modelled from the spec: the getter in Operator.h. -/
def hasNoSignedWrap (w : Fin 128) : Bool := testFlag w NoSignedWrap

end OverflowingBinaryOperator

namespace PossiblyExactOperator

/-- Modelled from the spec: the flag bit `IsExact` (Operator.h). -/
def IsExact : Nat := 1 <<< 0

/-- Modelled from the spec: exactness belongs to the division and
right-shift family. -/
def classof : Opcode → Bool
  | .SDiv | .UDiv | .AShr | .LShr => true
  | _ => false

/-- Modelled from the spec: the setter in Operator.h. -/
def setIsExact (w : Fin 128) (B : Bool) : Fin 128 := assignFlag w IsExact B

/-- Modelled from the spec: the getter in Operator.h. -/
def isExact (w : Fin 128) : Bool := testFlag w IsExact

end PossiblyExactOperator

namespace GEPOperator

/-- Modelled from the spec: the flag bit `IsInBounds` (Operator.h). -/
def IsInBounds : Nat := 1 <<< 0

/-- Modelled from the spec: the setter behind
`GetElementPtrInst::setIsInBounds`. -/
def setIsInBounds (w : Fin 128) (B : Bool) : Fin 128 := assignFlag w IsInBounds B

/-- Modelled from the spec: the getter behind
`GetElementPtrInst::isInBounds`. -/
def isInBounds (w : Fin 128) : Bool := testFlag w IsInBounds

end GEPOperator

namespace PossiblyNonNegInst

/-- Modelled from the spec: the flag bit `NonNeg` (InstrTypes.h). -/
def NonNeg : Nat := 1 <<< 0

/-- Modelled from the spec: the non-negative flag belongs to zero-extend. -/
def classof : Opcode → Bool
  | .ZExt => true
  | _ => false

end PossiblyNonNegInst

/-- Modelled from the spec: the fast-math flag bundle, a word of flag bits
(FMF.h). -/
structure FastMathFlags where
  Flags : Nat
  deriving DecidableEq, Repr

namespace FastMathFlags

/-- Modelled from the spec: allow-reassociate. -/
def AllowReassoc : Nat := 1 <<< 0

/-- Modelled from the spec: no-NaNs. -/
def NoNaNs : Nat := 1 <<< 1

/-- Modelled from the spec: no-infinities. -/
def NoInfs : Nat := 1 <<< 2

/-- Modelled from the spec: no-signed-zeros. -/
def NoSignedZeros : Nat := 1 <<< 3

/-- Modelled from the spec: allow-reciprocal. -/
def AllowReciprocal : Nat := 1 <<< 4

/-- Modelled from the spec: allow-contract. -/
def AllowContract : Nat := 1 <<< 5

/-- Modelled from the spec: approximate-functions. -/
def ApproxFunc : Nat := 1 <<< 6

/-- Modelled from the spec: `FastMathFlags::operator&=`, the bitwise
intersection of two bundles. -/
def and (a b : FastMathFlags) : FastMathFlags := { Flags := a.Flags &&& b.Flags }

end FastMathFlags

namespace FPMathOperator

/-- Modelled from the spec: the floating-point-operator opcodes: the
floating-point arithmetic and comparison opcodes, and phi, select and call
when the result type is floating point (through arrays and vectors). -/
def classof (op : Opcode) (t : Ty) : Bool :=
  match op with
  | .FNeg | .FAdd | .FSub | .FMul | .FDiv | .FRem | .FCmp => true
  | .PHI | .Select | .Call => t.stripArrays.isFPOrFPVectorTy
  | _ => false

/-- Modelled from the spec: the setter in Operator.h. -/
def setHasNoNaNs (w : Fin 128) (B : Bool) : Fin 128 := assignFlag w FastMathFlags.NoNaNs B

/-- Modelled from the spec: the setter in Operator.h. -/
def setHasNoInfs (w : Fin 128) (B : Bool) : Fin 128 := assignFlag w FastMathFlags.NoInfs B

/-- Modelled from the spec: the getter in Operator.h. -/
def hasAllowReassoc (w : Fin 128) : Bool := testFlag w FastMathFlags.AllowReassoc

/-- Modelled from the spec: the getter in Operator.h. -/
def hasNoNaNs (w : Fin 128) : Bool := testFlag w FastMathFlags.NoNaNs

/-- Modelled from the spec: the getter in Operator.h. -/
def hasNoInfs (w : Fin 128) : Bool := testFlag w FastMathFlags.NoInfs

/-- Modelled from the spec: the getter in Operator.h. -/
def hasNoSignedZeros (w : Fin 128) : Bool := testFlag w FastMathFlags.NoSignedZeros

/-- Modelled from the spec: the getter in Operator.h. -/
def hasAllowReciprocal (w : Fin 128) : Bool := testFlag w FastMathFlags.AllowReciprocal

/-- Modelled from the spec: the getter in Operator.h. -/
def hasAllowContract (w : Fin 128) : Bool := testFlag w FastMathFlags.AllowContract

/-- Modelled from the spec: the getter in Operator.h. -/
def hasApproxFunc (w : Fin 128) : Bool := testFlag w FastMathFlags.ApproxFunc

/-- Modelled from the spec: the setter in Operator.h. -/
def setHasAllowReassoc (w : Fin 128) (B : Bool) : Fin 128 :=
  assignFlag w FastMathFlags.AllowReassoc B

/-- Modelled from the spec: the setter in Operator.h. -/
def setHasNoSignedZeros (w : Fin 128) (B : Bool) : Fin 128 :=
  assignFlag w FastMathFlags.NoSignedZeros B

/-- Modelled from the spec: the setter in Operator.h. -/
def setHasAllowReciprocal (w : Fin 128) (B : Bool) : Fin 128 :=
  assignFlag w FastMathFlags.AllowReciprocal B

/-- Modelled from the spec: the setter in Operator.h. -/
def setHasAllowContract (w : Fin 128) (B : Bool) : Fin 128 :=
  assignFlag w FastMathFlags.AllowContract B

/-- Modelled from the spec: the setter in Operator.h. -/
def setHasApproxFunc (w : Fin 128) (B : Bool) : Fin 128 :=
  assignFlag w FastMathFlags.ApproxFunc B

/-- Modelled from the spec: `setFast`, the aggregate flag: every flag of the
bundle is assigned. -/
def setFast (w : Fin 128) (B : Bool) : Fin 128 :=
  setHasApproxFunc (setHasAllowContract (setHasAllowReciprocal (setHasNoSignedZeros
    (setHasNoInfs (setHasNoNaNs (setHasAllowReassoc w B) B) B) B) B) B) B

/-- Modelled from the spec: `isFast`, every flag of the bundle is set. -/
def isFast (w : Fin 128) : Bool :=
  hasAllowReassoc w && hasNoNaNs w && hasNoInfs w && hasNoSignedZeros w &&
    hasAllowReciprocal w && hasAllowContract w && hasApproxFunc w

/-- Modelled from the spec: `setFastMathFlags`, the flags of the mask are
set and no flag is cleared. -/
def setFastMathFlags (w : Fin 128) (FMF : FastMathFlags) : Fin 128 :=
  toFlagWord (w.val ||| FMF.Flags)

/-- Modelled from the spec: `getFastMathFlags`, the bundle read off the flag
word. -/
def getFastMathFlags (w : Fin 128) : FastMathFlags := { Flags := w.val }

/-- Modelled from the spec: `copyFastMathFlags`, all values of the bundle are
transferred to the operator. -/
def copyFastMathFlags (FMF : FastMathFlags) : Fin 128 := toFlagWord FMF.Flags

end FPMathOperator

namespace Value

/-- The flag word of a value. -/
def getSubclassOptionalData : Value → Fin 128
  | inst I => I.SubclassOptionalData
  | constExpr _ _ w => w
  | other _ w => w

/-- The type of a value. -/
def getType : Value → Ty
  | inst I => I.ty
  | constExpr _ t _ => t
  | other t _ => t

/-- Modelled from the spec: `dyn_cast<OverflowingBinaryOperator>(V)` succeeds
on an instruction or constant expression of an overflow-capable opcode. -/
def isaOverflowingBinaryOperator : Value → Bool
  | inst I => OverflowingBinaryOperator.classof I.opcode
  | constExpr op _ _ => OverflowingBinaryOperator.classof op
  | other _ _ => false

/-- Modelled from the spec: `dyn_cast<PossiblyExactOperator>(V)`. -/
def isaPossiblyExactOperator : Value → Bool
  | inst I => PossiblyExactOperator.classof I.opcode
  | constExpr op _ _ => PossiblyExactOperator.classof op
  | other _ _ => false

/-- Modelled from the spec: `dyn_cast<FPMathOperator>(V)`. -/
def isaFPMathOperator : Value → Bool
  | inst I => FPMathOperator.classof I.opcode I.ty
  | constExpr op t _ => FPMathOperator.classof op t
  | other _ _ => false

/-- Modelled from the spec: `dyn_cast<GetElementPtrInst>(V)` succeeds on
getelementptr instructions only. -/
def isaGetElementPtrInst : Value → Bool
  | inst I => decide (I.opcode = Opcode.GetElementPtr)
  | _ => false

/-- Modelled from the spec: `dyn_cast<PossiblyNonNegInst>(V)` succeeds on
zext instructions only. -/
def isaPossiblyNonNegInst : Value → Bool
  | inst I => PossiblyNonNegInst.classof I.opcode
  | _ => false

end Value

namespace Operator

/-- Modelled from the spec: `Operator::hasPoisonGeneratingFlags`
(Operator.cpp is not part of this file): a flag is set whose presence can make
the operation produce poison for that opcode: a wrap flag for
add/sub/mul/shl, exactness for the divide / right-shift family, in-bounds for
getelementptr, non-negative for zext, no-NaNs or no-infinities for a
floating-point operator. -/
def hasPoisonGeneratingFlags (op : Opcode) (t : Ty) (w : Fin 128) : Bool :=
  (OverflowingBinaryOperator.classof op &&
      (OverflowingBinaryOperator.hasNoUnsignedWrap w ||
        OverflowingBinaryOperator.hasNoSignedWrap w)) ||
  (PossiblyExactOperator.classof op && PossiblyExactOperator.isExact w) ||
  (decide (op = Opcode.GetElementPtr) && GEPOperator.isInBounds w) ||
  (decide (op = Opcode.ZExt) && testFlag w PossiblyNonNegInst.NonNeg) ||
  (FPMathOperator.classof op t &&
      (FPMathOperator.hasNoNaNs w || FPMathOperator.hasNoInfs w))

end Operator

namespace Instruction

/-- The accessor `getNumOperands`. -/
def getNumOperands (I : Instruction) : Nat := I.operands.length

/-- Writes the flag word, leaving every other field alone. -/
def withFlags (I : Instruction) (w : Fin 128) : Instruction :=
  { I with SubclassOptionalData := w }

/-- `Instruction::setHasNoUnsignedWrap`: the `cast` fails on an instruction
that is not an overflowing binary operator. -/
def setHasNoUnsignedWrap (I : Instruction) (b : Bool) : Option Instruction :=
  if OverflowingBinaryOperator.classof I.opcode then
    some (I.withFlags (OverflowingBinaryOperator.setHasNoUnsignedWrap I.SubclassOptionalData b))
  else none

/-- `Instruction::setHasNoSignedWrap`. -/
def setHasNoSignedWrap (I : Instruction) (b : Bool) : Option Instruction :=
  if OverflowingBinaryOperator.classof I.opcode then
    some (I.withFlags (OverflowingBinaryOperator.setHasNoSignedWrap I.SubclassOptionalData b))
  else none

/-- `Instruction::setIsExact`. -/
def setIsExact (I : Instruction) (b : Bool) : Option Instruction :=
  if PossiblyExactOperator.classof I.opcode then
    some (I.withFlags (PossiblyExactOperator.setIsExact I.SubclassOptionalData b))
  else none

/-- `Instruction::setNonNeg`: asserts that the instruction is a zext. -/
def setNonNeg (I : Instruction) (b : Bool) : Option Instruction :=
  if PossiblyNonNegInst.classof I.opcode then
    some (I.withFlags (assignFlag I.SubclassOptionalData PossiblyNonNegInst.NonNeg b))
  else none

/-- `Instruction::hasNoUnsignedWrap`. -/
def hasNoUnsignedWrap (I : Instruction) : Option Bool :=
  if OverflowingBinaryOperator.classof I.opcode then
    some (OverflowingBinaryOperator.hasNoUnsignedWrap I.SubclassOptionalData)
  else none

/-- `Instruction::hasNoSignedWrap`. -/
def hasNoSignedWrap (I : Instruction) : Option Bool :=
  if OverflowingBinaryOperator.classof I.opcode then
    some (OverflowingBinaryOperator.hasNoSignedWrap I.SubclassOptionalData)
  else none

/-- `Instruction::hasNonNeg`: asserts that the instruction is a zext. -/
def hasNonNeg (I : Instruction) : Option Bool :=
  if PossiblyNonNegInst.classof I.opcode then
    some (testFlag I.SubclassOptionalData PossiblyNonNegInst.NonNeg)
  else none

/-- `Instruction::isExact`. -/
def isExact (I : Instruction) : Option Bool :=
  if PossiblyExactOperator.classof I.opcode then
    some (PossiblyExactOperator.isExact I.SubclassOptionalData)
  else none

/-- Modelled from the spec: `GetElementPtrInst::setIsInBounds`, called
through `cast<GetElementPtrInst>`. -/
def setIsInBounds (I : Instruction) (b : Bool) : Option Instruction :=
  if I.opcode = Opcode.GetElementPtr then
    some (I.withFlags (GEPOperator.setIsInBounds I.SubclassOptionalData b))
  else none

/-- Modelled from the spec: `GetElementPtrInst::isInBounds`. -/
def isInBounds (I : Instruction) : Option Bool :=
  if I.opcode = Opcode.GetElementPtr then
    some (GEPOperator.isInBounds I.SubclassOptionalData)
  else none

/-- The test `isa<FPMathOperator>(this)`. -/
def isaFPMathOperator (I : Instruction) : Bool := FPMathOperator.classof I.opcode I.ty

/-- `Instruction::setHasNoNaNs`: asserts a floating-point math operator. -/
def setHasNoNaNs (I : Instruction) (B : Bool) : Option Instruction :=
  if I.isaFPMathOperator then
    some (I.withFlags (FPMathOperator.setHasNoNaNs I.SubclassOptionalData B))
  else none

/-- `Instruction::setHasNoInfs`: asserts a floating-point math operator. -/
def setHasNoInfs (I : Instruction) (B : Bool) : Option Instruction :=
  if I.isaFPMathOperator then
    some (I.withFlags (FPMathOperator.setHasNoInfs I.SubclassOptionalData B))
  else none

/-- `Instruction::copyFastMathFlags(FastMathFlags)`. -/
def copyFastMathFlags (I : Instruction) (FMF : FastMathFlags) : Option Instruction :=
  if I.isaFPMathOperator then
    some (I.withFlags (FPMathOperator.copyFastMathFlags FMF))
  else none

/-- `Instruction::getFastMathFlags`. -/
def getFastMathFlags (I : Instruction) : Option FastMathFlags :=
  if I.isaFPMathOperator then
    some (FPMathOperator.getFastMathFlags I.SubclassOptionalData)
  else none

/-- `Instruction::hasAllowReassoc`: asserts a floating-point math operator. -/
def hasAllowReassoc (I : Instruction) : Option Bool :=
  if I.isaFPMathOperator then some (FPMathOperator.hasAllowReassoc I.SubclassOptionalData) else none

/-- `Instruction::hasNoNaNs`: asserts a floating-point math operator. -/
def hasNoNaNs (I : Instruction) : Option Bool :=
  if I.isaFPMathOperator then some (FPMathOperator.hasNoNaNs I.SubclassOptionalData) else none

/-- `Instruction::hasNoInfs`: asserts a floating-point math operator. -/
def hasNoInfs (I : Instruction) : Option Bool :=
  if I.isaFPMathOperator then some (FPMathOperator.hasNoInfs I.SubclassOptionalData) else none

/-- `Instruction::hasNoSignedZeros`: asserts a floating-point math operator. -/
def hasNoSignedZeros (I : Instruction) : Option Bool :=
  if I.isaFPMathOperator then some (FPMathOperator.hasNoSignedZeros I.SubclassOptionalData) else none

/-- `Instruction::hasAllowReciprocal`: asserts a floating-point math operator. -/
def hasAllowReciprocal (I : Instruction) : Option Bool :=
  if I.isaFPMathOperator then some (FPMathOperator.hasAllowReciprocal I.SubclassOptionalData) else none

/-- `Instruction::hasAllowContract`: asserts a floating-point math operator. -/
def hasAllowContract (I : Instruction) : Option Bool :=
  if I.isaFPMathOperator then some (FPMathOperator.hasAllowContract I.SubclassOptionalData) else none

/-- `Instruction::hasApproxFunc`: asserts a floating-point math operator. -/
def hasApproxFunc (I : Instruction) : Option Bool :=
  if I.isaFPMathOperator then some (FPMathOperator.hasApproxFunc I.SubclassOptionalData) else none

/-- `Instruction::setFast`: asserts a floating-point math operator. -/
def setFast (I : Instruction) (B : Bool) : Option Instruction :=
  if I.isaFPMathOperator then
    some (I.withFlags (FPMathOperator.setFast I.SubclassOptionalData B))
  else none

/-- `Instruction::setHasAllowReassoc`: asserts a floating-point math operator. -/
def setHasAllowReassoc (I : Instruction) (B : Bool) : Option Instruction :=
  if I.isaFPMathOperator then
    some (I.withFlags (FPMathOperator.setHasAllowReassoc I.SubclassOptionalData B))
  else none

/-- `Instruction::setHasNoSignedZeros`: asserts a floating-point math operator. -/
def setHasNoSignedZeros (I : Instruction) (B : Bool) : Option Instruction :=
  if I.isaFPMathOperator then
    some (I.withFlags (FPMathOperator.setHasNoSignedZeros I.SubclassOptionalData B))
  else none

/-- `Instruction::setHasAllowReciprocal`: asserts a floating-point math operator. -/
def setHasAllowReciprocal (I : Instruction) (B : Bool) : Option Instruction :=
  if I.isaFPMathOperator then
    some (I.withFlags (FPMathOperator.setHasAllowReciprocal I.SubclassOptionalData B))
  else none

/-- `Instruction::setHasAllowContract`: asserts a floating-point math operator. -/
def setHasAllowContract (I : Instruction) (B : Bool) : Option Instruction :=
  if I.isaFPMathOperator then
    some (I.withFlags (FPMathOperator.setHasAllowContract I.SubclassOptionalData B))
  else none

/-- `Instruction::setHasApproxFunc`: asserts a floating-point math operator. -/
def setHasApproxFunc (I : Instruction) (B : Bool) : Option Instruction :=
  if I.isaFPMathOperator then
    some (I.withFlags (FPMathOperator.setHasApproxFunc I.SubclassOptionalData B))
  else none

/-- `Instruction::setFastMathFlags`: asserts a floating-point math operator. -/
def setFastMathFlags (I : Instruction) (FMF : FastMathFlags) : Option Instruction :=
  if I.isaFPMathOperator then
    some (I.withFlags (FPMathOperator.setFastMathFlags I.SubclassOptionalData FMF))
  else none

/-- `Instruction::isFast`: asserts a floating-point math operator. -/
def isFast (I : Instruction) : Option Bool :=
  if I.isaFPMathOperator then some (FPMathOperator.isFast I.SubclassOptionalData) else none

/-- `Instruction::copyFastMathFlags(const Instruction *)`: reads the flags of
`Src` with `getFastMathFlags` and copies them. -/
def copyFastMathFlagsOf (I Src : Instruction) : Option Instruction := do
  let FMF ← Src.getFastMathFlags
  I.copyFastMathFlags FMF

/-- `Instruction::hasPoisonGeneratingFlags`: every instruction is an
`Operator`, so the `cast` cannot fail. -/
def hasPoisonGeneratingFlags (I : Instruction) : Bool :=
  Operator.hasPoisonGeneratingFlags I.opcode I.ty I.SubclassOptionalData

/-- `Instruction::dropPoisonGeneratingFlags`; the result is `none` when a
`cast` or the closing assertion fails. -/
def dropPoisonGeneratingFlags (I : Instruction) : Option Instruction := do
  let I1 ← match I.opcode with
    | .Add | .Sub | .Mul | .Shl => do
        let J ← I.setHasNoUnsignedWrap false
        J.setHasNoSignedWrap false
    | .UDiv | .SDiv | .AShr | .LShr => I.setIsExact false
    | .GetElementPtr => I.setIsInBounds false
    | .ZExt => I.setNonNeg false
    | _ => some I
  let I2 ← if I1.isaFPMathOperator then do
        let J ← I1.setHasNoNaNs false
        J.setHasNoInfs false
      else some I1
  if I2.hasPoisonGeneratingFlags then none else some I2

/-- `Instruction::copyIRFlags`. -/
def copyIRFlags (S : Instruction) (V : Value) (IncludeWrapFlags : Bool) :
    Option Instruction := do
  let w := V.getSubclassOptionalData
  let S1 ← (if IncludeWrapFlags && OverflowingBinaryOperator.classof S.opcode then
        if V.isaOverflowingBinaryOperator then do
          let J ← S.setHasNoSignedWrap (OverflowingBinaryOperator.hasNoSignedWrap w)
          J.setHasNoUnsignedWrap (OverflowingBinaryOperator.hasNoUnsignedWrap w)
        else some S
      else some S)
  let S2 ← (if V.isaPossiblyExactOperator then
        if PossiblyExactOperator.classof S1.opcode then
          S1.setIsExact (PossiblyExactOperator.isExact w)
        else some S1
      else some S1)
  let S3 ← (if V.isaFPMathOperator then
        if S2.isaFPMathOperator then
          S2.copyFastMathFlags (FPMathOperator.getFastMathFlags w)
        else some S2
      else some S2)
  let S4 ← (if V.isaGetElementPtrInst then
        if S3.opcode = Opcode.GetElementPtr then do
          let d ← S3.isInBounds
          S3.setIsInBounds (GEPOperator.isInBounds w || d)
        else some S3
      else some S3)
  (if V.isaPossiblyNonNegInst then
    if PossiblyNonNegInst.classof S4.opcode then
      S4.setNonNeg (testFlag w PossiblyNonNegInst.NonNeg)
    else some S4
  else some S4)

/-- `Instruction::andIRFlags`. -/
def andIRFlags (S : Instruction) (V : Value) : Option Instruction := do
  let w := V.getSubclassOptionalData
  let S1 ← (if V.isaOverflowingBinaryOperator then
        if OverflowingBinaryOperator.classof S.opcode then do
          let a ← S.hasNoSignedWrap
          let J ← S.setHasNoSignedWrap (a && OverflowingBinaryOperator.hasNoSignedWrap w)
          let b ← J.hasNoUnsignedWrap
          J.setHasNoUnsignedWrap (b && OverflowingBinaryOperator.hasNoUnsignedWrap w)
        else some S
      else some S)
  let S2 ← (if V.isaPossiblyExactOperator then
        if PossiblyExactOperator.classof S1.opcode then do
          let e ← S1.isExact
          S1.setIsExact (e && PossiblyExactOperator.isExact w)
        else some S1
      else some S1)
  let S3 ← (if V.isaFPMathOperator then
        if S2.isaFPMathOperator then do
          let FM ← S2.getFastMathFlags
          S2.copyFastMathFlags (FM.and (FPMathOperator.getFastMathFlags w))
        else some S2
      else some S2)
  let S4 ← (if V.isaGetElementPtrInst then
        if S3.opcode = Opcode.GetElementPtr then do
          let d ← S3.isInBounds
          S3.setIsInBounds (GEPOperator.isInBounds w && d)
        else some S3
      else some S3)
  (if V.isaPossiblyNonNegInst then
    if PossiblyNonNegInst.classof S4.opcode then do
      let n ← S4.hasNonNeg
      S4.setNonNeg (n && testFlag w PossiblyNonNegInst.NonNeg)
    else some S4
  else some S4)

/-! ## Equivalence predicates -/

/-- The algorithm `std::equal(first1, last1, first2)`: walks the first range
and compares it with the elements of the second at the same positions (the
second range must be at least as long). -/
def stdEqual {α : Type} [DecidableEq α] : List α → List α → Bool
  | [], _ => true
  | a :: as, b :: bs => decide (a = b) && stdEqual as bs
  | _ :: _, [] => false

/-- Modelled from the spec: `CallInst::isTailCall`, true for the `tail` and
`musttail` markers. -/
def isTailCall (I : Instruction) : Bool :=
  decide (I.tailCallKind = TailCallKind.TCK_Tail) ||
    decide (I.tailCallKind = TailCallKind.TCK_MustTail)

/-- Modelled from the spec: `CallBase::hasIdenticalOperandBundleSchema`, the
two calls have the same number of bundles and pairwise equal bundle entries. -/
def hasIdenticalOperandBundleSchema (I1 I2 : Instruction) : Bool :=
  if I1.bundleOpInfos.length ≠ I2.bundleOpInfos.length then false
  else stdEqual I1.bundleOpInfos I2.bundleOpInfos

/-- `Instruction::hasSameSpecialState`; `none` when the assertion that both
instructions have the same opcode fails. -/
def hasSameSpecialState (I1 I2 : Instruction) (IgnoreAlignment : Bool) : Option Bool :=
  if I1.opcode ≠ I2.opcode then none
  else
    match I1.opcode with
    | .Alloca =>
        some (decide (I1.allocatedType = I2.allocatedType) &&
          (decide (I1.align = I2.align) || IgnoreAlignment))
    | .Load =>
        some (decide (I1.isVolatile = I2.isVolatile) &&
          (decide (I1.align = I2.align) || IgnoreAlignment) &&
          decide (I1.ordering = I2.ordering) &&
          decide (I1.syncScopeID = I2.syncScopeID))
    | .Store =>
        some (decide (I1.isVolatile = I2.isVolatile) &&
          (decide (I1.align = I2.align) || IgnoreAlignment) &&
          decide (I1.ordering = I2.ordering) &&
          decide (I1.syncScopeID = I2.syncScopeID))
    | .ICmp | .FCmp => some (decide (I1.predicate = I2.predicate))
    | .Call =>
        some (decide (I1.isTailCall = I2.isTailCall) &&
          decide (I1.callingConv = I2.callingConv) &&
          decide (I1.attributes = I2.attributes) &&
          I1.hasIdenticalOperandBundleSchema I2)
    | .Invoke =>
        some (decide (I1.callingConv = I2.callingConv) &&
          decide (I1.attributes = I2.attributes) &&
          I1.hasIdenticalOperandBundleSchema I2)
    | .CallBr =>
        some (decide (I1.callingConv = I2.callingConv) &&
          decide (I1.attributes = I2.attributes) &&
          I1.hasIdenticalOperandBundleSchema I2)
    | .InsertValue => some (decide (I1.indices = I2.indices))
    | .ExtractValue => some (decide (I1.indices = I2.indices))
    | .Fence =>
        some (decide (I1.ordering = I2.ordering) &&
          decide (I1.syncScopeID = I2.syncScopeID))
    | .AtomicCmpXchg =>
        some (decide (I1.isVolatile = I2.isVolatile) &&
          decide (I1.isWeak = I2.isWeak) &&
          decide (I1.successOrdering = I2.successOrdering) &&
          decide (I1.failureOrdering = I2.failureOrdering) &&
          decide (I1.syncScopeID = I2.syncScopeID))
    | .AtomicRMW =>
        some (decide (I1.operation = I2.operation) &&
          decide (I1.isVolatile = I2.isVolatile) &&
          decide (I1.ordering = I2.ordering) &&
          decide (I1.syncScopeID = I2.syncScopeID))
    | .ShuffleVector => some (decide (I1.shuffleMask = I2.shuffleMask))
    | .GetElementPtr => some (decide (I1.sourceElementType = I2.sourceElementType))
    | _ => some true

/-- `Instruction::isIdenticalToWhenDefined`. -/
def isIdenticalToWhenDefined (A I : Instruction) : Option Bool :=
  if A.opcode ≠ I.opcode ∨ A.getNumOperands ≠ I.getNumOperands ∨ A.ty ≠ I.ty then
    some false
  else if A.getNumOperands = 0 ∧ I.getNumOperands = 0 then
    A.hasSameSpecialState I false
  else if ¬ stdEqual A.operands I.operands then
    some false
  else if A.opcode = Opcode.PHI then
    some (stdEqual A.blocks I.blocks)
  else
    A.hasSameSpecialState I false

/-- `Instruction::isIdenticalTo`. -/
def isIdenticalTo (A I : Instruction) : Option Bool := do
  let d ← A.isIdenticalToWhenDefined I
  some (d && decide (A.SubclassOptionalData = I.SubclassOptionalData))

/-- Modelled from the spec: the flag `CompareIgnoringAlignment` of
`OperationEquivalenceFlags` (Instruction.h). -/
def CompareIgnoringAlignment : Nat := 1 <<< 0

/-- Modelled from the spec: the flag `CompareUsingScalarTypes` of
`OperationEquivalenceFlags` (Instruction.h). -/
def CompareUsingScalarTypes : Nat := 1 <<< 1

/-- The type test of `isSameOperationAs`: the two types differ, compared by
scalar type when `UseScalarTypes` is set. -/
def typesDiffer (UseScalarTypes : Bool) (a b : Ty) : Bool :=
  if UseScalarTypes then decide (a.getScalarType ≠ b.getScalarType) else decide (a ≠ b)

/-- The operand loop of `isSameOperationAs` from index `i`, with `n` indices
left to visit: `true` when some visited operand pair differs in type. -/
def operandTypesDifferFrom (UseScalarTypes : Bool) (A I : Instruction) : Nat → Nat → Bool
  | _, 0 => false
  | i, n + 1 =>
    match A.operands[i]?, I.operands[i]? with
    | some a, some b =>
        if typesDiffer UseScalarTypes a.ty b.ty then true
        else operandTypesDifferFrom UseScalarTypes A I (i + 1) n
    | _, _ => operandTypesDifferFrom UseScalarTypes A I (i + 1) n

/-- `Instruction::isSameOperationAs`. -/
def isSameOperationAs (A I : Instruction) (flags : Nat) : Option Bool :=
  let IgnoreAlignment : Bool := (flags &&& CompareIgnoringAlignment) != 0
  let UseScalarTypes : Bool := (flags &&& CompareUsingScalarTypes) != 0
  if A.opcode ≠ I.opcode ∨ A.getNumOperands ≠ I.getNumOperands ∨
      typesDiffer UseScalarTypes A.ty I.ty = true then
    some false
  else if operandTypesDifferFrom UseScalarTypes A I 0 A.getNumOperands then
    some false
  else
    A.hasSameSpecialState I IgnoreAlignment

/-! ## Metadata copy and clone -/

/-- Modelled from the spec: the fixed kind identifier of the debug location
(`LLVMContext::MD_dbg`). -/
def MD_dbg : Nat := 0

/-- Modelled from the spec: `Instruction::hasMetadata`, a debug location or
any other attachment is present. -/
def hasMetadata (I : Instruction) : Bool := I.DbgLoc.isSome || !I.metadata.isEmpty

/-- Modelled from the spec: the keyed attach operation
`Instruction::setMetadata(Kind, Node)` for a present node: the debug-location
kind is stored in `DbgLoc`, any other kind replaces the attachment of that
kind or is added. -/
def setMetadata (I : Instruction) (Kind : Nat) (Node : Nat) : Instruction :=
  if Kind = MD_dbg then { I with DbgLoc := some Node }
  else if I.metadata.any (fun e => e.1 == Kind) then
    { I with metadata := I.metadata.map (fun e => if e.1 = Kind then (Kind, Node) else e) }
  else { I with metadata := I.metadata ++ [(Kind, Node)] }

/-- Modelled from the spec: `Instruction::setDebugLoc`. -/
def setDebugLoc (I : Instruction) (Loc : Option Nat) : Instruction :=
  { I with DbgLoc := Loc }

/-- Modelled from the spec: `getAllMetadataOtherThanDebugLoc`, every attached
non-debug-location entry. -/
def getAllMetadataOtherThanDebugLoc (I : Instruction) : List (Nat × Nat) := I.metadata

/-- `Instruction::copyMetadata`. -/
def copyMetadata (D SrcInst : Instruction) (WL : List Nat) : Instruction :=
  if !SrcInst.hasMetadata then D
  else
    let TheMDs := SrcInst.getAllMetadataOtherThanDebugLoc
    let D1 := TheMDs.foldl
      (fun acc MD => if WL.isEmpty || WL.contains MD.1 then acc.setMetadata MD.1 MD.2 else acc) D
    if WL.isEmpty || WL.contains MD_dbg then D1.setDebugLoc SrcInst.DbgLoc else D1

/-- Modelled from the spec: `cloneImpl`, the opcode-dispatched construction
of a structurally equal, fully detached duplicate: same opcode, result type,
operand bindings and opcode-specific state, no parent, with a fresh flag word
and no metadata (the subclass implementations are in Instructions.cpp, not in
this file). -/
def cloneImpl (I : Instruction) : Instruction :=
  { I with Parent := none, SubclassOptionalData := 0, metadata := [], DbgLoc := none }

/-- `Instruction::clone`. -/
def clone (I : Instruction) : Instruction :=
  let New := I.cloneImpl
  let New := New.withFlags I.SubclassOptionalData
  New.copyMetadata I []

/-! ## Effect classifier -/

/-- Modelled from the spec: `LoadInst::isUnordered` / `StoreInst::isUnordered`,
the access is not volatile and its ordering is not-atomic or unordered. -/
def isUnordered (I : Instruction) : Bool :=
  (decide (I.ordering = AtomicOrdering.NotAtomic) ||
    decide (I.ordering = AtomicOrdering.Unordered)) && !I.isVolatile

/-- Modelled from the spec: `CallBase::onlyReadsMemory`, the declared memory
effects of the call do not include writing. -/
def onlyReadsMemory (I : Instruction) : Bool :=
  match I.memoryEffects with
  | .NoModRef | .Ref => true
  | _ => false

/-- Modelled from the spec: `CallBase::onlyWritesMemory`, the declared memory
effects of the call do not include reading. -/
def onlyWritesMemory (I : Instruction) : Bool :=
  match I.memoryEffects with
  | .NoModRef | .Mod => true
  | _ => false

/-- `Instruction::mayReadFromMemory`. -/
def mayReadFromMemory (I : Instruction) : Bool :=
  match I.opcode with
  | .VAArg | .Load | .Fence | .AtomicCmpXchg | .AtomicRMW | .CatchPad | .CatchRet => true
  | .Call | .Invoke | .CallBr => !I.onlyWritesMemory
  | .Store => !I.isUnordered
  | _ => false

/-- `Instruction::mayWriteToMemory`. -/
def mayWriteToMemory (I : Instruction) : Bool :=
  match I.opcode with
  | .Fence | .Store | .VAArg | .AtomicCmpXchg | .AtomicRMW | .CatchPad | .CatchRet => true
  | .Call | .Invoke | .CallBr => !I.onlyReadsMemory
  | .Load => !I.isUnordered
  | _ => false

/-- `Instruction::isAtomic`. -/
def isAtomic (I : Instruction) : Bool :=
  match I.opcode with
  | .AtomicCmpXchg | .AtomicRMW | .Fence => true
  | .Load => decide (I.ordering ≠ AtomicOrdering.NotAtomic)
  | .Store => decide (I.ordering ≠ AtomicOrdering.NotAtomic)
  | _ => false

/-- `Instruction::hasAtomicLoad`; `none` when the assertion `isAtomic()`
fails. -/
def hasAtomicLoad (I : Instruction) : Option Bool :=
  if !I.isAtomic then none
  else
    match I.opcode with
    | .AtomicCmpXchg | .AtomicRMW | .Load => some true
    | _ => some false

/-- `Instruction::hasAtomicStore`; `none` when the assertion `isAtomic()`
fails. -/
def hasAtomicStore (I : Instruction) : Option Bool :=
  if !I.isAtomic then none
  else
    match I.opcode with
    | .AtomicCmpXchg | .AtomicRMW | .Store => some true
    | _ => some false

end Instruction

namespace Ty

/-- Modelled from the spec: `Type::getArrayNumElements`. -/
def getArrayNumElements : Ty → Nat
  | array _ n => n
  | _ => 0

end Ty

namespace LandingPadClause

/-- Modelled from the spec: `LandingPadInst::isFilter`, the clause constant
has array type. -/
def isFilter (c : LandingPadClause) : Bool :=
  match c.ty with
  | .array _ _ => true
  | _ => false

/-- Modelled from the spec: `LandingPadInst::isCatch`, the clause constant
does not have array type. -/
def isCatch (c : LandingPadClause) : Bool := !c.isFilter

end LandingPadClause

/-- The clause loop of `canUnwindPastLandingPad`, over the clauses in index
order: `false` at the first catch of the null pointer or filter over an empty
array, `true` when the loop runs to the end. -/
def canUnwindPastClauses : List LandingPadClause → Bool
  | [] => true
  | Clause :: rest =>
    if Clause.isCatch && Clause.isConstantPointerNull then false
    else if Clause.isFilter && Clause.ty.getArrayNumElements == 0 then false
    else canUnwindPastClauses rest

/-- The static function `canUnwindPastLandingPad`. -/
def canUnwindPastLandingPad (LP : PadInst) (IncludePhaseOneUnwind : Bool) : Bool :=
  if LP.isCleanup then IncludePhaseOneUnwind
  else canUnwindPastClauses LP.clauses

namespace Attribute

/-- Modelled from the spec: the kind identifier of the not-throwing function
attribute; the number only tells the kinds apart. -/
def NoUnwind : Nat := 1

/-- Modelled from the spec: the kind identifier of the will-return function
attribute; the number only tells the kinds apart. -/
def WillReturn : Nat := 2

end Attribute

namespace Instruction

/-- Modelled from the spec: `CallBase::hasFnAttr`, the attribute is on the
call itself or on the called function. -/
def hasFnAttr (I : Instruction) (Kind : Nat) : Bool :=
  I.attributes.fnAttrs.contains Kind || I.calledFunctionFnAttrs.contains Kind

/-- Modelled from the spec: `CallBase::doesNotThrow`, the call is marked
not-throwing. -/
def doesNotThrow (I : Instruction) : Bool := I.hasFnAttr Attribute.NoUnwind

/-- Modelled from the spec: `unwindsToCaller` of a cleanupret or catchswitch,
it has no unwind destination. -/
def unwindsToCaller (I : Instruction) : Bool := !I.hasUnwindDest

/-- Modelled from the spec: `isa<CallBase>`, the call-like opcodes. -/
def isaCallBase (I : Instruction) : Bool :=
  match I.opcode with
  | .Call | .Invoke | .CallBr => true
  | _ => false

/-- Modelled from the spec: `Instruction::isTerminator`, the terminator
opcodes of Instruction.def. -/
def isTerminator (I : Instruction) : Bool :=
  match I.opcode with
  | .Ret | .Br | .Switch | .IndirectBr | .Invoke | .Resume | .Unreachable
  | .CleanupRet | .CatchRet | .CatchSwitch | .CallBr => true
  | _ => false

/-- Modelled from the spec: `Instruction::isEHPad`, the exception-pad entry
opcodes. -/
def isEHPad (I : Instruction) : Bool :=
  match I.opcode with
  | .CatchSwitch | .CatchPad | .CleanupPad | .LandingPad => true
  | _ => false

/-- `Instruction::mayThrow`. -/
def mayThrow (I : Instruction) (IncludePhaseOneUnwind : Bool) : Bool :=
  match I.opcode with
  | .Call => !I.doesNotThrow
  | .CleanupRet => I.unwindsToCaller
  | .CatchSwitch => I.unwindsToCaller
  | .Resume => true
  | .Invoke =>
    let Pad := I.unwindDestFirstNonPHI
    if Pad.opcode = Opcode.LandingPad then canUnwindPastLandingPad Pad IncludePhaseOneUnwind
    else false
  | .CleanupPad => IncludePhaseOneUnwind
  | _ => false

/-- `Instruction::willReturn`. -/
def willReturn (I : Instruction) : Bool :=
  if I.opcode = Opcode.Store then !I.isVolatile
  else if I.isaCallBase then I.hasFnAttr Attribute.WillReturn
  else true

/-- `Instruction::mayHaveSideEffects`; `mayThrow()` is called with its
default argument, `IncludePhaseOneUnwind = false`. -/
def mayHaveSideEffects (I : Instruction) : Bool :=
  I.mayWriteToMemory || I.mayThrow false || !I.willReturn

/-- `Instruction::isSafeToRemove`. -/
def isSafeToRemove (I : Instruction) : Bool :=
  (!decide (I.opcode = Opcode.Call) || !I.mayHaveSideEffects) &&
    !I.isTerminator && !I.isEHPad

/-! ## Auxiliary definitions used by the proofs -/

/-- The flag word `dropPoisonGeneratingFlags` leaves, by capability. -/
def droppedWord (I : Instruction) : Fin 128 :=
  let w := I.SubclassOptionalData
  let w1 :=
    if OverflowingBinaryOperator.classof I.opcode then
      OverflowingBinaryOperator.setHasNoSignedWrap
        (OverflowingBinaryOperator.setHasNoUnsignedWrap w false) false
    else if PossiblyExactOperator.classof I.opcode then
      PossiblyExactOperator.setIsExact w false
    else if I.opcode = Opcode.GetElementPtr then GEPOperator.setIsInBounds w false
    else if I.opcode = Opcode.ZExt then assignFlag w PossiblyNonNegInst.NonNeg false
    else w
  if I.isaFPMathOperator then
    FPMathOperator.setHasNoInfs (FPMathOperator.setHasNoNaNs w1 false) false
  else w1

/-- The tail of `dropPoisonGeneratingFlags` after the opcode switch: the
floating-point step and the closing assertion. -/
def dropTail (I1 : Instruction) : Option Instruction :=
  if I1.isaFPMathOperator then
    (I1.setHasNoNaNs false).bind fun J => (J.setHasNoInfs false).bind fun I2 =>
      if I2.hasPoisonGeneratingFlags then none else some I2
  else if I1.hasPoisonGeneratingFlags then none else some I1

/-- The wrap-flag step of `andIRFlags` on the flag word. -/
def andWrapWord (V : Value) (op : Opcode) (w : Fin 128) : Fin 128 :=
  if V.isaOverflowingBinaryOperator = true ∧ OverflowingBinaryOperator.classof op = true then
    OverflowingBinaryOperator.setHasNoUnsignedWrap
      (OverflowingBinaryOperator.setHasNoSignedWrap w
        (OverflowingBinaryOperator.hasNoSignedWrap w &&
          OverflowingBinaryOperator.hasNoSignedWrap V.getSubclassOptionalData))
      (OverflowingBinaryOperator.hasNoUnsignedWrap
          (OverflowingBinaryOperator.setHasNoSignedWrap w
            (OverflowingBinaryOperator.hasNoSignedWrap w &&
              OverflowingBinaryOperator.hasNoSignedWrap V.getSubclassOptionalData)) &&
        OverflowingBinaryOperator.hasNoUnsignedWrap V.getSubclassOptionalData)
  else w

/-- The exact-flag step of `andIRFlags` on the flag word. -/
def andExactWord (V : Value) (op : Opcode) (w : Fin 128) : Fin 128 :=
  if V.isaPossiblyExactOperator = true ∧ PossiblyExactOperator.classof op = true then
    PossiblyExactOperator.setIsExact w
      (PossiblyExactOperator.isExact w &&
        PossiblyExactOperator.isExact V.getSubclassOptionalData)
  else w

/-- The fast-math step of `andIRFlags` on the flag word. -/
def andFastMathWord (V : Value) (op : Opcode) (t : Ty) (w : Fin 128) : Fin 128 :=
  if V.isaFPMathOperator = true ∧ FPMathOperator.classof op t = true then
    FPMathOperator.copyFastMathFlags
      ((FPMathOperator.getFastMathFlags w).and
        (FPMathOperator.getFastMathFlags V.getSubclassOptionalData))
  else w

/-- The in-bounds step of `andIRFlags` on the flag word. -/
def andInBoundsWord (V : Value) (op : Opcode) (w : Fin 128) : Fin 128 :=
  if V.isaGetElementPtrInst = true ∧ op = Opcode.GetElementPtr then
    GEPOperator.setIsInBounds w
      (GEPOperator.isInBounds V.getSubclassOptionalData && GEPOperator.isInBounds w)
  else w

/-- The non-negative step of `andIRFlags` on the flag word. -/
def andNonNegWord (V : Value) (op : Opcode) (w : Fin 128) : Fin 128 :=
  if V.isaPossiblyNonNegInst = true ∧ PossiblyNonNegInst.classof op = true then
    assignFlag w PossiblyNonNegInst.NonNeg
      (testFlag w PossiblyNonNegInst.NonNeg &&
        testFlag V.getSubclassOptionalData PossiblyNonNegInst.NonNeg)
  else w

/-- The flag word `andIRFlags` leaves on `S`: its five steps in order. -/
def andWord (S : Instruction) (V : Value) : Fin 128 :=
  andNonNegWord V S.opcode (andInBoundsWord V S.opcode (andFastMathWord V S.opcode S.ty
    (andExactWord V S.opcode (andWrapWord V S.opcode S.SubclassOptionalData))))

/-- The wrap-flag step of `copyIRFlags` on the flag word. -/
def copyWrapWord (V : Value) (IncludeWrapFlags : Bool) (op : Opcode) (w : Fin 128) : Fin 128 :=
  if IncludeWrapFlags = true ∧ OverflowingBinaryOperator.classof op = true ∧
      V.isaOverflowingBinaryOperator = true then
    OverflowingBinaryOperator.setHasNoUnsignedWrap
      (OverflowingBinaryOperator.setHasNoSignedWrap w
        (OverflowingBinaryOperator.hasNoSignedWrap V.getSubclassOptionalData))
      (OverflowingBinaryOperator.hasNoUnsignedWrap V.getSubclassOptionalData)
  else w

/-- The exact-flag step of `copyIRFlags` on the flag word. -/
def copyExactWord (V : Value) (op : Opcode) (w : Fin 128) : Fin 128 :=
  if V.isaPossiblyExactOperator = true ∧ PossiblyExactOperator.classof op = true then
    PossiblyExactOperator.setIsExact w (PossiblyExactOperator.isExact V.getSubclassOptionalData)
  else w

/-- The fast-math step of `copyIRFlags` on the flag word. -/
def copyFastMathWord (V : Value) (op : Opcode) (t : Ty) (w : Fin 128) : Fin 128 :=
  if V.isaFPMathOperator = true ∧ FPMathOperator.classof op t = true then
    FPMathOperator.copyFastMathFlags (FPMathOperator.getFastMathFlags V.getSubclassOptionalData)
  else w

/-- The in-bounds step of `copyIRFlags` on the flag word. -/
def copyInBoundsWord (V : Value) (op : Opcode) (w : Fin 128) : Fin 128 :=
  if V.isaGetElementPtrInst = true ∧ op = Opcode.GetElementPtr then
    GEPOperator.setIsInBounds w
      (GEPOperator.isInBounds V.getSubclassOptionalData || GEPOperator.isInBounds w)
  else w

/-- The non-negative step of `copyIRFlags` on the flag word. -/
def copyNonNegWord (V : Value) (op : Opcode) (w : Fin 128) : Fin 128 :=
  if V.isaPossiblyNonNegInst = true ∧ PossiblyNonNegInst.classof op = true then
    assignFlag w PossiblyNonNegInst.NonNeg
      (testFlag V.getSubclassOptionalData PossiblyNonNegInst.NonNeg)
  else w

/-- The flag word `copyIRFlags` leaves on `S`: its five steps in order. -/
def copiedWord (S : Instruction) (V : Value) (IncludeWrapFlags : Bool) : Fin 128 :=
  copyNonNegWord V S.opcode (copyInBoundsWord V S.opcode (copyFastMathWord V S.opcode S.ty
    (copyExactWord V S.opcode (copyWrapWord V IncludeWrapFlags S.opcode S.SubclassOptionalData))))

/-- The wrap-flag statement of `andIRFlags`. -/
def andWrapStep (V : Value) (S : Instruction) : Option Instruction :=
  if V.isaOverflowingBinaryOperator then
    if OverflowingBinaryOperator.classof S.opcode then
      S.hasNoSignedWrap.bind fun a =>
        (S.setHasNoSignedWrap
          (a && OverflowingBinaryOperator.hasNoSignedWrap V.getSubclassOptionalData)).bind
          fun J => J.hasNoUnsignedWrap.bind fun b =>
            J.setHasNoUnsignedWrap
              (b && OverflowingBinaryOperator.hasNoUnsignedWrap V.getSubclassOptionalData)
    else some S
  else some S

/-- The exact-flag statement of `andIRFlags`. -/
def andExactStep (V : Value) (S : Instruction) : Option Instruction :=
  if V.isaPossiblyExactOperator then
    if PossiblyExactOperator.classof S.opcode then
      S.isExact.bind fun e =>
        S.setIsExact (e && PossiblyExactOperator.isExact V.getSubclassOptionalData)
    else some S
  else some S

/-- The fast-math statement of `andIRFlags`. -/
def andFastMathStep (V : Value) (S : Instruction) : Option Instruction :=
  if V.isaFPMathOperator then
    if S.isaFPMathOperator then
      S.getFastMathFlags.bind fun FM =>
        S.copyFastMathFlags (FM.and (FPMathOperator.getFastMathFlags V.getSubclassOptionalData))
    else some S
  else some S

/-- The in-bounds statement of `andIRFlags`. -/
def andInBoundsStep (V : Value) (S : Instruction) : Option Instruction :=
  if V.isaGetElementPtrInst then
    if S.opcode = Opcode.GetElementPtr then
      S.isInBounds.bind fun d =>
        S.setIsInBounds (GEPOperator.isInBounds V.getSubclassOptionalData && d)
    else some S
  else some S

/-- The non-negative statement of `andIRFlags`. -/
def andNonNegStep (V : Value) (S : Instruction) : Option Instruction :=
  if V.isaPossiblyNonNegInst then
    if PossiblyNonNegInst.classof S.opcode then
      S.hasNonNeg.bind fun n =>
        S.setNonNeg (n && testFlag V.getSubclassOptionalData PossiblyNonNegInst.NonNeg)
    else some S
  else some S

/-- The wrap-flag statement of `copyIRFlags`. -/
def copyWrapStep (V : Value) (IncludeWrapFlags : Bool) (S : Instruction) : Option Instruction :=
  if IncludeWrapFlags && OverflowingBinaryOperator.classof S.opcode then
    if V.isaOverflowingBinaryOperator then
      (S.setHasNoSignedWrap
        (OverflowingBinaryOperator.hasNoSignedWrap V.getSubclassOptionalData)).bind fun J =>
        J.setHasNoUnsignedWrap
          (OverflowingBinaryOperator.hasNoUnsignedWrap V.getSubclassOptionalData)
    else some S
  else some S

/-- The exact-flag statement of `copyIRFlags`. -/
def copyExactStep (V : Value) (S : Instruction) : Option Instruction :=
  if V.isaPossiblyExactOperator then
    if PossiblyExactOperator.classof S.opcode then
      S.setIsExact (PossiblyExactOperator.isExact V.getSubclassOptionalData)
    else some S
  else some S

/-- The fast-math statement of `copyIRFlags`. -/
def copyFastMathStep (V : Value) (S : Instruction) : Option Instruction :=
  if V.isaFPMathOperator then
    if S.isaFPMathOperator then
      S.copyFastMathFlags (FPMathOperator.getFastMathFlags V.getSubclassOptionalData)
    else some S
  else some S

/-- The in-bounds statement of `copyIRFlags`. -/
def copyInBoundsStep (V : Value) (S : Instruction) : Option Instruction :=
  if V.isaGetElementPtrInst then
    if S.opcode = Opcode.GetElementPtr then
      S.isInBounds.bind fun d =>
        S.setIsInBounds (GEPOperator.isInBounds V.getSubclassOptionalData || d)
    else some S
  else some S

/-- The non-negative statement of `copyIRFlags`. -/
def copyNonNegStep (V : Value) (S : Instruction) : Option Instruction :=
  if V.isaPossiblyNonNegInst then
    if PossiblyNonNegInst.classof S.opcode then
      S.setNonNeg (testFlag V.getSubclassOptionalData PossiblyNonNegInst.NonNeg)
    else some S
  else some S

/-- The wrap-flag intersection on a flag word, given the two flags of the
other value. -/
def andWrapBits (w : Fin 128) (b1 b2 : Bool) : Fin 128 :=
  OverflowingBinaryOperator.setHasNoUnsignedWrap
    (OverflowingBinaryOperator.setHasNoSignedWrap w
      (OverflowingBinaryOperator.hasNoSignedWrap w && b1))
    (OverflowingBinaryOperator.hasNoUnsignedWrap
        (OverflowingBinaryOperator.setHasNoSignedWrap w
          (OverflowingBinaryOperator.hasNoSignedWrap w && b1)) && b2)

/-- The record `Y` with the metadata attachments and debug location of `X`:
used to say that `X` and `Y` agree on every other field. -/
def withMetadataOf (Y X : Instruction) : Instruction :=
  { Y with metadata := X.metadata, DbgLoc := X.DbgLoc }

/-- The notion of the landing-pad claims: a clause catches everything when
it is a catch of the null pointer or a filter over an empty array. -/
def catchesEverything (c : LandingPadClause) : Bool :=
  (c.isCatch && c.isConstantPointerNull) || (c.isFilter && c.ty.getArrayNumElements == 0)

/-! ## Concrete instructions used in examples -/

/-- The instruction `getelementptr inbounds i8, ptr %p, i64 1`. -/
def gepInBounds : Instruction :=
  ({ Instruction.mk0 Opcode.GetElementPtr (Ty.pointer 0)
      [⟨1, Ty.pointer 0⟩, ⟨2, Ty.integer 64⟩] with
      sourceElementType := Ty.integer 8 }).withFlags 1

/-- The instruction `getelementptr i8, ptr %q, i64 1`, without in-bounds. -/
def gepPlain : Instruction :=
  { Instruction.mk0 Opcode.GetElementPtr (Ty.pointer 0)
      [⟨3, Ty.pointer 0⟩, ⟨2, Ty.integer 64⟩] with
      sourceElementType := Ty.integer 8 }

/-- A phi node `phi i32 [%a, %bb1], [%b, %bb2]` with its wrap bits clear. -/
def phiA : Instruction :=
  { Instruction.mk0 Opcode.PHI (Ty.integer 32) [⟨1, Ty.integer 32⟩, ⟨2, Ty.integer 32⟩] with
      blocks := [10, 11] }

/-- The phi node `phiA` again, as a second instruction with another flag
word. -/
def phiB : Instruction := phiA.withFlags 1

/-- The instruction `load i32, ptr %p, align 4`. -/
def loadAlign4 : Instruction :=
  { Instruction.mk0 Opcode.Load (Ty.integer 32) [⟨1, Ty.pointer 0⟩] with align := 4 }

/-- The instruction `load i32, ptr %p, align 8`. -/
def loadAlign8 : Instruction :=
  { Instruction.mk0 Opcode.Load (Ty.integer 32) [⟨1, Ty.pointer 0⟩] with align := 8 }

/-- The instruction `call i32 @f(i32 %x)`: one argument, then the callee. -/
def callPlain : Instruction :=
  Instruction.mk0 Opcode.Call (Ty.integer 32) [⟨1, Ty.integer 32⟩, ⟨100, Ty.pointer 0⟩]

/-- The instruction `call i32 @f(i32 %y)`: as `callPlain`, another argument
value. -/
def callOther : Instruction :=
  Instruction.mk0 Opcode.Call (Ty.integer 32) [⟨2, Ty.integer 32⟩, ⟨100, Ty.pointer 0⟩]

/-- The instruction `tail call i32 @f(i32 %y)`. -/
def callTail : Instruction :=
  { callOther with tailCallKind := TailCallKind.TCK_Tail }

/-- The instruction `call i64 @f(i32 %y)`: the same callee called at another
function type. -/
def callWide : Instruction :=
  { callOther with ty := Ty.integer 64 }

/-- The instruction `call i32 @f(i32 %x) [ "deopt"(i32 %a) ]`. -/
def callBundle32 : Instruction :=
  { Instruction.mk0 Opcode.Call (Ty.integer 32)
      [⟨1, Ty.integer 32⟩, ⟨5, Ty.integer 32⟩, ⟨100, Ty.pointer 0⟩] with
      bundleOpInfos := [⟨0, 1, 2⟩] }

/-- The instruction `call i32 @f(i32 %y) [ "deopt"(i64 %b) ]`. -/
def callBundle64 : Instruction :=
  { Instruction.mk0 Opcode.Call (Ty.integer 32)
      [⟨2, Ty.integer 32⟩, ⟨6, Ty.integer 64⟩, ⟨100, Ty.pointer 0⟩] with
      bundleOpInfos := [⟨0, 1, 2⟩] }

/-- The instruction `add nuw nsw i32 %x, %y`. -/
def addWrapFlags : Instruction :=
  (Instruction.mk0 Opcode.Add (Ty.integer 32)
    [⟨1, Ty.integer 32⟩, ⟨2, Ty.integer 32⟩]).withFlags 3

/-- The instruction `add nsw i32 %x, %y`. -/
def addSignedWrap : Instruction :=
  (Instruction.mk0 Opcode.Add (Ty.integer 32)
    [⟨1, Ty.integer 32⟩, ⟨2, Ty.integer 32⟩]).withFlags 2

/-- The instruction `add i32 %x, %y`, no flags. -/
def addPlain : Instruction :=
  Instruction.mk0 Opcode.Add (Ty.integer 32) [⟨1, Ty.integer 32⟩, ⟨2, Ty.integer 32⟩]

/-- The instruction `store atomic i32 %v, ptr %p unordered, align 4`. -/
def storeUnordered : Instruction :=
  { Instruction.mk0 Opcode.Store Ty.voidTy [⟨1, Ty.integer 32⟩, ⟨2, Ty.pointer 0⟩] with
      ordering := AtomicOrdering.Unordered, align := 4 }

/-- The instruction `store atomic i32 %v, ptr %p monotonic, align 4`. -/
def storeMonotonic : Instruction :=
  { storeUnordered with ordering := AtomicOrdering.Monotonic }

/-- The instruction `store volatile i32 %v, ptr %p, align 4`. -/
def storeVolatile : Instruction :=
  { storeUnordered with ordering := AtomicOrdering.NotAtomic, isVolatile := true }

/-- An invoke whose unwind destination starts with `landingpad ... cleanup`,
a pure cleanup pad without clauses. -/
def invokeCleanupPad : Instruction :=
  { Instruction.mk0 Opcode.Invoke Ty.voidTy [⟨100, Ty.pointer 0⟩] with
      unwindDestFirstNonPHI :=
        { opcode := Opcode.LandingPad, isCleanup := true, clauses := [] } }

/-- An invoke whose unwind destination starts with
`landingpad ... cleanup catch ptr null`. -/
def invokeCleanupCatchAll : Instruction :=
  { Instruction.mk0 Opcode.Invoke Ty.voidTy [⟨100, Ty.pointer 0⟩] with
      unwindDestFirstNonPHI :=
        { opcode := Opcode.LandingPad, isCleanup := true,
          clauses := [{ ty := Ty.pointer 0, isConstantPointerNull := true }] } }

/-- An invoke whose unwind destination starts with
`landingpad ... catch ptr null`. -/
def invokeCatchAll : Instruction :=
  { Instruction.mk0 Opcode.Invoke Ty.voidTy [⟨100, Ty.pointer 0⟩] with
      unwindDestFirstNonPHI :=
        { opcode := Opcode.LandingPad, isCleanup := false,
          clauses := [{ ty := Ty.pointer 0, isConstantPointerNull := true }] } }

/-- An invoke whose unwind destination starts with
`landingpad ... catch ptr @typeinfo`. -/
def invokeCatchTyped : Instruction :=
  { Instruction.mk0 Opcode.Invoke Ty.voidTy [⟨100, Ty.pointer 0⟩] with
      unwindDestFirstNonPHI :=
        { opcode := Opcode.LandingPad, isCleanup := false,
          clauses := [{ ty := Ty.pointer 0, isConstantPointerNull := false }] } }

/-! ## Successor interface -/

/-- `Instruction::getNumSuccessors`: the switch over the terminator opcodes
of Instruction.def, `none` for `llvm_unreachable("not a terminator")`.
Modelled from the spec: every terminator class answers with the number of its
successor slots. -/
def getNumSuccessors (I : Instruction) : Option Nat :=
  if I.isTerminator then some I.successors.length else none

/-- `Instruction::getSuccessor`: the same switch.  Modelled from the spec:
every terminator class reads slot `idx` and asserts that the slot exists. -/
def getSuccessor (I : Instruction) (idx : Nat) : Option Nat :=
  if I.isTerminator then I.successors[idx]? else none

/-- `Instruction::setSuccessor`: the same switch.  Modelled from the spec:
every terminator class writes slot `idx` and asserts that the slot exists. -/
def setSuccessor (I : Instruction) (idx : Nat) (B : Nat) : Option Instruction :=
  if I.isTerminator then
    (if idx < I.successors.length then some { I with successors := I.successors.set idx B }
     else none)
  else none

/-- `Instruction::replaceSuccessorWith`: the loop
`for (Idx = 0; Idx != NumSuccessors; ++Idx)`. -/
def replaceSuccessorWith (I : Instruction) (OldBB NewBB : Nat) : Option Instruction := do
  let NumSuccessors ← I.getNumSuccessors
  (List.range NumSuccessors).foldlM
    (fun (T : Instruction) (Idx : Nat) => do
      let S ← T.getSuccessor Idx
      (if S = OldBB then T.setSuccessor Idx NewBB else some T))
    I

/-! ## Metadata kinds and undefined-behaviour attributes -/

/-- Modelled from the spec: the fixed kind identifier `LLVMContext::MD_range`. -/
def MD_range : Nat := 4

/-- Modelled from the spec: the fixed kind identifier `LLVMContext::MD_nonnull`. -/
def MD_nonnull : Nat := 11

/-- Modelled from the spec: the fixed kind identifier `LLVMContext::MD_align`. -/
def MD_align : Nat := 17

/-- Modelled from the spec: the fixed kind identifier
`LLVMContext::MD_annotation`. -/
def MD_annotation : Nat := 30

/-- Modelled from the spec: the fixed kind identifier of the
assignment-tracking attachment, `LLVMContext::MD_DIAssignID`, which is debug
metadata. -/
def MD_DIAssignID : Nat := 38

/-- The node stored under a kind in a list of attachments. -/
def lookupKind (l : List (Nat × Nat)) (KindID : Nat) : Option Nat :=
  (l.find? (fun e => e.1 == KindID)).map (fun e => e.2)

/-- Modelled from the spec: `Instruction::getMetadata(KindID)`, the debug
location for the debug-location kind and the attachment of that kind
otherwise. -/
def getMetadata (I : Instruction) (KindID : Nat) : Option Nat :=
  if KindID = MD_dbg then I.DbgLoc else lookupKind I.metadata KindID

/-- Modelled from the spec: `Instruction::hasMetadata(KindID)`, an attachment
of that kind is present. -/
def hasMetadataKind (I : Instruction) (KindID : Nat) : Bool :=
  (I.getMetadata KindID).isSome

/-- `Instruction::hasPoisonGeneratingMetadata`. -/
def hasPoisonGeneratingMetadata (I : Instruction) : Bool :=
  I.hasMetadataKind MD_range || I.hasMetadataKind MD_nonnull || I.hasMetadataKind MD_align

/-- Modelled from the spec: `Instruction::dropUnknownNonDebugMetadata`, every
attachment whose kind is not among the known ones is erased; the debug
location is stored apart and the assignment-tracking attachment is debug
metadata, so both stay. -/
def dropUnknownNonDebugMetadata (I : Instruction) (KnownIDs : List Nat) : Instruction :=
  let Kept := I.metadata.filter (fun e => KnownIDs.contains e.1 || e.1 == MD_DIAssignID)
  { I with metadata := Kept }

end Instruction

namespace Attribute

/-- Modelled from the spec: the kind identifier of the `noundef` attribute;
the number only tells the kinds apart. -/
def NoUndef : Nat := 3

/-- Modelled from the spec: the kind identifier of the `dereferenceable`
attribute; the number only tells the kinds apart. -/
def Dereferenceable : Nat := 4

/-- Modelled from the spec: the kind identifier of the
`dereferenceable_or_null` attribute; the number only tells the kinds apart. -/
def DereferenceableOrNull : Nat := 5

end Attribute

namespace AttributeFuncs

/-- Modelled from the spec: `AttributeFuncs::getUBImplyingAttributes`, the
attributes whose violation is immediate undefined behaviour. -/
def getUBImplyingAttributes : List Nat :=
  [Attribute.NoUndef, Attribute.Dereferenceable, Attribute.DereferenceableOrNull]

end AttributeFuncs

namespace AttributeList

/-- Modelled from the spec: `AttributeList::isEmpty`, no attribute at all. -/
def isEmpty (AL : AttributeList) : Bool :=
  AL.fnAttrs.isEmpty && AL.retAttrs.isEmpty && AL.paramAttrs.all (fun s => s.isEmpty)

/-- Modelled from the spec: `AttributeList::removeParamAttributes`, the
attributes of the mask are taken off one parameter. -/
def removeParamAttributes (AL : AttributeList) (ArgNo : Nat) (Mask : List Nat) :
    AttributeList :=
  let Set := (AL.paramAttrs.getD ArgNo []).filter (fun a => !Mask.contains a)
  { AL with paramAttrs := AL.paramAttrs.set ArgNo Set }

/-- Modelled from the spec: `AttributeList::removeRetAttributes`, the
attributes of the mask are taken off the return value. -/
def removeRetAttributes (AL : AttributeList) (Mask : List Nat) : AttributeList :=
  { AL with retAttrs := AL.retAttrs.filter (fun a => !Mask.contains a) }

end AttributeList

namespace Instruction

/-- Modelled from the spec: `CallBase::getNumSubclassExtraOperands`, the
operands after the arguments and bundles: the callee, and the destinations
of an invoke or callbr. -/
def getNumSubclassExtraOperands (I : Instruction) : Nat :=
  match I.opcode with
  | .Call => 1
  | .Invoke => 3
  | .CallBr => I.successors.length + 1
  | _ => 0

/-- Modelled from the spec: `CallBase::getNumTotalBundleOperands`, the
operands between the first bundle's begin and the last bundle's end. -/
def getNumTotalBundleOperands (I : Instruction) : Nat :=
  match I.bundleOpInfos.head?, I.bundleOpInfos.getLast? with
  | some b, some e => e.End - b.Begin
  | _, _ => 0

/-- Modelled from the spec: `CallBase::arg_size`, the number of call
arguments. -/
def arg_size (I : Instruction) : Nat :=
  I.getNumOperands - I.getNumSubclassExtraOperands - I.getNumTotalBundleOperands

/-- Modelled from the spec: `CallBase::removeParamAttrs`. -/
def removeParamAttrs (I : Instruction) (ArgNo : Nat) (Mask : List Nat) : Instruction :=
  { I with attributes := I.attributes.removeParamAttributes ArgNo Mask }

/-- Modelled from the spec: `CallBase::removeRetAttrs`. -/
def removeRetAttrs (I : Instruction) (Mask : List Nat) : Instruction :=
  { I with attributes := I.attributes.removeRetAttributes Mask }

/-- `Instruction::dropUBImplyingAttrsAndUnknownMetadata`. -/
def dropUBImplyingAttrsAndUnknownMetadata (I : Instruction) (KnownIDs : List Nat) :
    Instruction :=
  let I1 := I.dropUnknownNonDebugMetadata KnownIDs
  if !I1.isaCallBase then I1
  else
    let AL := I1.attributes
    if AL.isEmpty then I1
    else
      let UBImplyingAttributes := AttributeFuncs.getUBImplyingAttributes
      let I2 := (List.range I1.arg_size).foldl
        (fun CB ArgNo => CB.removeParamAttrs ArgNo UBImplyingAttributes) I1
      I2.removeRetAttrs UBImplyingAttributes

/-- `Instruction::dropUBImplyingAttrsAndMetadata`. -/
def dropUBImplyingAttrsAndMetadata (I : Instruction) : Instruction :=
  I.dropUBImplyingAttrsAndUnknownMetadata [ MD_annotation, MD_range, MD_nonnull, MD_align]

/-- The value a successor slot holds after `replaceSuccessorWith`. -/
def replacedSuccessor (OldBB NewBB : Nat) (s : Nat) : Nat := if s = OldBB then NewBB else s

/-- A conditional branch to blocks 1 and 2. -/
def brCond : Instruction :=
  { Instruction.mk0 Opcode.Br Ty.voidTy [{ id := 1, ty := Ty.integer 1 }] with
    successors := [1, 2] }

/-- A switch whose default and one case go to block 1, another case to block 2. -/
def switchTwice : Instruction :=
  { Instruction.mk0 Opcode.Switch Ty.voidTy [{ id := 1, ty := Ty.integer 32 }] with
    successors := [1, 2, 1] }

/-- A load carrying a range attachment, an attachment of kind 1 and a debug
location. -/
def loadWithRange : Instruction :=
  { Instruction.mk0 Opcode.Load (Ty.integer 32) [{ id := 1, ty := Ty.pointer 0 }] with
    metadata := [(MD_range, 100), (1, 200)], DbgLoc := some 9 }

/-- A call with a `noundef` parameter, a `dereferenceable` return value, a
range attachment and an attachment of kind 29. -/
def callNoUndef : Instruction :=
  { Instruction.mk0 Opcode.Call (Ty.integer 32)
      [{ id := 1, ty := Ty.integer 32 }, { id := 9, ty := Ty.pointer 0 }] with
    metadata := [(29, 5), (MD_range, 100)]
    attributes := { fnAttrs := [], retAttrs := [Attribute.Dereferenceable],
                    paramAttrs := [[Attribute.NoUndef, 40]] } }

end Instruction

/-! ## List membership engine and order oracle -/

/-- The part of an instruction that the list-membership engine and the order
oracle read and write: `id` stands for the address of the instruction,
`isTerminator` for the answer of `Instruction::isTerminator`, `Order` is the
position token and `DbgMarker` holds the debug-value annotations of the owned
marker (`StoredDPValues`), `none` for a null marker.  The parent pointer is
not a field: a node is in a block exactly when the block's list holds it. -/
structure Node where
  id : Nat
  isTerminator : Bool
  Order : Nat
  DbgMarker : Option (List Nat)
  deriving DecidableEq, Repr

/-- Modelled from the spec: the container (`BasicBlock`), an ordered sequence
of nodes with its order-valid bit, the switch for the richer debug-info
representation and the marker for the annotations that trail the sequence,
`none` for a null marker. -/
structure BasicBlock where
  InstList : List Node
  InstrOrderValid : Bool
  IsNewDbgInfoFormat : Bool
  TrailingDPValues : Option (List Nat)
  deriving DecidableEq, Repr

/-- Modelled from the spec: a position cursor of a container with its
head/tail flag; `Pos` is the index of the node it points to, the length of the
sequence for `end()`. -/
structure InstListIterator where
  Pos : Nat
  HeadBit : Bool
  deriving DecidableEq, Repr

/-- A handle on a node: a detached node, or the member at index `Idx` of the
container `Parent`. -/
inductive NodeRef where
  | detached (N : Node)
  | member (Parent : Nat) (Idx : Nat)
  deriving DecidableEq, Repr

/-- The parent pointer behind a handle, `none` for a detached node. -/
def NodeRef.getParent : NodeRef → Option Nat
  | .detached _ => none
  | .member P _ => some P

/-- The node at an index replaced by its image under `f`. -/
def modifyAt (f : Node → Node) : Nat → List Node → List Node
  | _, [] => []
  | 0, N :: l => f N :: l
  | i + 1, N :: l => N :: modifyAt f i l

/-- The loop `for (Instruction &I : *this) I.Order = Order++`. -/
def renumberFrom : Nat → List Node → List Node
  | _, [] => []
  | Order, N :: l => { N with Order := Order } :: renumberFrom (Order + 1) l

namespace BasicBlock

/-- Modelled from the spec: `BasicBlock::isInstrOrderValid`. -/
def isInstrOrderValid (BB : BasicBlock) : Bool := BB.InstrOrderValid

/-- Modelled from the spec: `BasicBlock::renumberInstructions`, one walk over
the sequence that assigns strictly increasing tokens, then the order-valid bit
is set. -/
def renumberInstructions (BB : BasicBlock) : BasicBlock :=
  { BB with InstList := renumberFrom 0 BB.InstList, InstrOrderValid := true }

/-- Modelled from the spec: the list insertion `getInstList().insert(Pos, N)`,
the node is put in front of position `Pos` and the container is marked
order-invalid. -/
def insert (BB : BasicBlock) (Pos : Nat) (N : Node) : BasicBlock :=
  { BB with InstList := BB.InstList.take Pos ++ N :: BB.InstList.drop Pos,
            InstrOrderValid := false }

/-- Modelled from the spec: the list removal `getInstList().remove(It)`, the
node is spliced out and the container is marked order-invalid. -/
def remove (BB : BasicBlock) (Idx : Nat) : BasicBlock :=
  { BB with InstList := BB.InstList.take Idx ++ BB.InstList.drop (Idx + 1),
            InstrOrderValid := false }

/-- Modelled from the spec: the marker lookup `BasicBlock::getMarker(It)`, the
marker of the node at the position, the trailing marker for `end()`. -/
def getMarker (BB : BasicBlock) (It : Nat) : Option (List Nat) :=
  match BB.InstList[It]? with
  | some N => N.DbgMarker
  | none => BB.TrailingDPValues

/-- The marker at a position replaced (the trailing marker for `end()`). -/
def setMarker (BB : BasicBlock) (It : Nat) (M : Option (List Nat)) : BasicBlock :=
  if It < BB.InstList.length then
    { BB with InstList := modifyAt (fun N => { N with DbgMarker := M }) It BB.InstList }
  else { BB with TrailingDPValues := M }

/-- Modelled from the spec: `BasicBlock::createMarker`, a node without a marker
gets an empty one. -/
def createMarker (BB : BasicBlock) (It : Nat) : BasicBlock :=
  match BB.getMarker It with
  | some _ => BB
  | none => BB.setMarker It (some [])

/-- Modelled from the spec: `DPMarker::absorbDebugValues(Src, InsertAtHead)`
for the markers at two positions of one container: the annotations of `Src`
move to the head or the tail of those at `Dst`, and `Src` is left empty. -/
def absorbDebugValues (BB : BasicBlock) (Dst Src : Nat) (InsertAtHead : Bool) : BasicBlock :=
  let SrcValues := (BB.getMarker Src).getD []
  let DstValues := (BB.getMarker Dst).getD []
  (BB.setMarker Src (some [])).setMarker Dst
    (some (if InsertAtHead then SrcValues ++ DstValues else DstValues ++ SrcValues))

/-- Modelled from the spec: `BasicBlock::getNextMarker`, the position after a
node. -/
def getNextMarker (I : Nat) : Nat := I + 1

/-- Modelled from the spec: `DPMarker::removeMarker`, the marker of the node at
`Owner` is detached and destroyed; its annotations stay behind at the old
location, in front of those of the next node, or of the trailing position when
there is no next node. -/
def removeMarker (BB : BasicBlock) (Owner : Nat) : BasicBlock :=
  if ((BB.getMarker Owner).getD []).isEmpty then BB.setMarker Owner none
  else (BB.absorbDebugValues (getNextMarker Owner) Owner true).setMarker Owner none

/-- Modelled from the spec: `BasicBlock::flushTerminatorDbgValues`, the
annotations trailing the container are moved in front of the terminator that
ends the sequence, behind the annotations it already has, and the trailing
marker is deleted. -/
def flushTerminatorDbgValues (BB : BasicBlock) : BasicBlock :=
  if !BB.IsNewDbgInfoFormat then BB
  else
    match BB.InstList.getLast? with
    | none => BB
    | some Term =>
      if !Term.isTerminator then BB
      else
        match BB.TrailingDPValues with
        | none => BB
        | some _ =>
          let BB1 := BB.absorbDebugValues (BB.InstList.length - 1) BB.InstList.length false
          { BB1 with TrailingDPValues := none }

/-- The annotations attached at a position: those of the node there, those
trailing the container for `end()`. -/
def annotationsAt (BB : BasicBlock) (It : Nat) : List Nat := (BB.getMarker It).getD []

end BasicBlock

namespace Instruction

/-- `Instruction::handleMarkerRemoval` for the node at index `this` of its
parent. -/
def handleMarkerRemoval (Parent : BasicBlock) (this : Nat) : BasicBlock :=
  if !Parent.IsNewDbgInfoFormat || (Parent.getMarker this).isNone then Parent
  else Parent.removeMarker this

/-- `Instruction::removeFromParent` for the node at index `this` of its
parent: the parent afterwards and the detached node; `none` when there is no
such node. -/
def removeFromParent (Parent : BasicBlock) (this : Nat) : Option (BasicBlock × Node) := do
  let Parent1 := handleMarkerRemoval Parent this
  let N ← Parent1.InstList[this]?
  some (Parent1.remove this, N)

/-- `Instruction::insertAfter(Instruction *InsertPos)` for a detached node and
the node at index `InsertPos` of the destination. -/
def insertAfter (this : Node) (DestParent : BasicBlock) (InsertPos : Nat) :
    Option BasicBlock :=
  if DestParent.InstList.length ≤ InsertPos then none
  else
    let DestParent1 := DestParent.insert (InsertPos + 1) this
    some (if DestParent1.IsNewDbgInfoFormat then DestParent1.createMarker (InsertPos + 1)
      else DestParent1)

/-- `Instruction::insertBefore(BasicBlock &, iterator)` for a detached node;
`none` when `assert(!DbgMarker)` fails or the position is not one of the
container.  After the list insertion the node is at index `InsertPos.Pos` and
the node `InsertPos` pointed to is at the next index. -/
def insertBefore (this : Node) (BB : BasicBlock) (InsertPos : InstListIterator) :
    Option BasicBlock :=
  if this.DbgMarker.isSome then none
  else if BB.InstList.length < InsertPos.Pos then none
  else
    let BB1 := BB.insert InsertPos.Pos this
    if !BB1.IsNewDbgInfoFormat then some BB1
    else
      let BB2 := BB1.createMarker InsertPos.Pos
      let InsertAtHead := InsertPos.HeadBit
      let BB3 :=
        if !InsertAtHead then BB2.absorbDebugValues InsertPos.Pos (InsertPos.Pos + 1) false
        else BB2
      some (if this.isTerminator then BB3.flushTerminatorDbgValues else BB3)

/-- `Instruction::insertInto` for a node given by its handle: the container
afterwards and the iterator to the node; `none` when the node is not detached
or the position is not one of the container. -/
def insertInto (this : NodeRef) (ParentBB : BasicBlock) (It : InstListIterator) :
    Option (BasicBlock × Nat) :=
  match this with
  | .member _ _ => none
  | .detached N =>
    if ParentBB.InstList.length < It.Pos then none
    else (insertBefore N ParentBB It).map (fun BB => (BB, It.Pos))

/-- The list splice of `moveBeforeImpl` inside one container: nothing happens
when the position is the node itself or the one after it, otherwise the node
is unlinked and put in front of the position and the container is marked
order-invalid. -/
def spliceWithin (BB : BasicBlock) (I : Nat) (this : Nat) : Option BasicBlock :=
  if I = this ∨ I = this + 1 then some BB
  else do
    let N ← BB.InstList[this]?
    some ((BB.remove this).insert (if this < I then I - 1 else I) N)

/-- The index of a node after `spliceWithin`. -/
def splicedIndex (I : Nat) (this : Nat) : Nat :=
  if I = this ∨ I = this + 1 then this else if this < I then I - 1 else I

/-- `Instruction::moveBeforeImpl` when the destination is the node's own
container: `this` is the index of the node, `I` the position. -/
def moveBeforeImplWithin (BB : BasicBlock) (this : Nat) (I : InstListIterator)
    (Preserve : Bool) : Option BasicBlock := do
  let N ← BB.InstList[this]?
  if BB.InstList.length < I.Pos then none
  else
    let InsertAtHead := I.HeadBit
    let BB1 :=
      if BB.IsNewDbgInfoFormat && N.DbgMarker.isSome && !Preserve then
        (if I.Pos ≠ this then handleMarkerRemoval BB this else BB)
      else BB
    let BB2 ← spliceWithin BB1 I.Pos this
    let New := splicedIndex I.Pos this
    let BB3 :=
      if BB2.IsNewDbgInfoFormat && !Preserve then
        let BB21 := BB2.createMarker New
        let NextMarker := BasicBlock.getNextMarker New
        (if !InsertAtHead then BB21.absorbDebugValues New NextMarker false else BB21)
      else BB2
    some (if N.isTerminator then BB3.flushTerminatorDbgValues else BB3)

/-- `Instruction::moveBeforeImpl` when the destination `BB` is another
container than the node's parent: the parent and the destination afterwards.
The position is in another list than the node, so the test
`I != this->getIterator()` succeeds. -/
def moveBeforeImpl (Parent : BasicBlock) (this : Nat) (BB : BasicBlock)
    (I : InstListIterator) (Preserve : Bool) : Option (BasicBlock × BasicBlock) := do
  let N ← Parent.InstList[this]?
  if BB.InstList.length < I.Pos then none
  else
    let InsertAtHead := I.HeadBit
    let Parent1 :=
      if BB.IsNewDbgInfoFormat && N.DbgMarker.isSome && !Preserve then
        handleMarkerRemoval Parent this
      else Parent
    let N1 ← Parent1.InstList[this]?
    let Parent2 := Parent1.remove this
    let BB2 := BB.insert I.Pos N1
    let BB3 :=
      if BB2.IsNewDbgInfoFormat && !Preserve then
        let BB21 := BB2.createMarker I.Pos
        let NextMarker := BasicBlock.getNextMarker I.Pos
        (if !InsertAtHead then BB21.absorbDebugValues I.Pos NextMarker false else BB21)
      else BB2
    some (Parent2, if N.isTerminator then BB3.flushTerminatorDbgValues else BB3)

/-- `Instruction::moveBefore(Instruction *MovePos)` into another container. -/
def moveBefore (Parent : BasicBlock) (this : Nat) (BB : BasicBlock) (MovePos : Nat) :
    Option (BasicBlock × BasicBlock) :=
  moveBeforeImpl Parent this BB { Pos := MovePos, HeadBit := false } false

/-- `Instruction::moveBeforePreserving(Instruction *MovePos)` into another
container. -/
def moveBeforePreserving (Parent : BasicBlock) (this : Nat) (BB : BasicBlock)
    (MovePos : Nat) : Option (BasicBlock × BasicBlock) :=
  moveBeforeImpl Parent this BB { Pos := MovePos, HeadBit := false } true

/-- `Instruction::moveAfter(Instruction *MovePos)` into another container. -/
def moveAfter (Parent : BasicBlock) (this : Nat) (BB : BasicBlock) (MovePos : Nat) :
    Option (BasicBlock × BasicBlock) :=
  moveBeforeImpl Parent this BB { Pos := MovePos + 1, HeadBit := true } false

/-- `Instruction::moveAfterPreserving(Instruction *MovePos)` into another
container. -/
def moveAfterPreserving (Parent : BasicBlock) (this : Nat) (BB : BasicBlock)
    (MovePos : Nat) : Option (BasicBlock × BasicBlock) :=
  moveBeforeImpl Parent this BB { Pos := MovePos + 1, HeadBit := true } true

/-- The body of `Instruction::comesBefore` after its assertions, for the nodes
at two indices of their common parent: the answer and the parent afterwards. -/
def comesBeforeIn (Parent : BasicBlock) (this Other : Nat) : Option (Bool × BasicBlock) := do
  let Parent1 := if !Parent.isInstrOrderValid then Parent.renumberInstructions else Parent
  let N ← Parent1.InstList[this]?
  let O ← Parent1.InstList[Other]?
  some (decide (N.Order < O.Order), Parent1)

/-- `Instruction::comesBefore`; `Blocks` gives the container behind a parent
pointer.  The result is `none` when an assertion fails. -/
def comesBefore (Blocks : Nat → BasicBlock) (this Other : NodeRef) :
    Option (Bool × BasicBlock) :=
  match this.getParent, Other.getParent with
  | some P, some Q =>
    if P ≠ Q then none
    else
      match this, Other with
      | .member _ i, .member _ j => comesBeforeIn (Blocks P) i j
      | _, _ => none
  | _, _ => none

/-- `Instruction::moveBefore(Instruction *MovePos)` inside the node's own
container. -/
def moveBeforeWithin (BB : BasicBlock) (this : Nat) (MovePos : Nat) : Option BasicBlock :=
  moveBeforeImplWithin BB this { Pos := MovePos, HeadBit := false } false

/-- `Instruction::moveBeforePreserving(Instruction *MovePos)` inside the node's
own container. -/
def moveBeforePreservingWithin (BB : BasicBlock) (this : Nat) (MovePos : Nat) :
    Option BasicBlock :=
  moveBeforeImplWithin BB this { Pos := MovePos, HeadBit := false } true

/-- `Instruction::moveAfter(Instruction *MovePos)` inside the node's own
container. -/
def moveAfterWithin (BB : BasicBlock) (this : Nat) (MovePos : Nat) : Option BasicBlock :=
  moveBeforeImplWithin BB this { Pos := MovePos + 1, HeadBit := true } false

/-- `Instruction::moveAfterPreserving(Instruction *MovePos)` inside the node's
own container. -/
def moveAfterPreservingWithin (BB : BasicBlock) (this : Nat) (MovePos : Nat) :
    Option BasicBlock :=
  moveBeforeImplWithin BB this { Pos := MovePos + 1, HeadBit := true } true

end Instruction

/-! ## Auxiliary definitions for the list membership engine -/

/-- What the marker operations leave alone in a node. -/
def Node.skeleton (N : Node) : Nat × Bool × Nat := (N.id, N.isTerminator, N.Order)

/-- A container without its markers. -/
def BasicBlock.skeleton (BB : BasicBlock) : List (Nat × Bool × Nat) × Bool × Bool :=
  (BB.InstList.map Node.skeleton, BB.InstrOrderValid, BB.IsNewDbgInfoFormat)

/-- Whether `flushTerminatorDbgValues` looks at the trailing annotations: the
container is in the new debug format and ends with a terminator. -/
def BasicBlock.flushes (BB : BasicBlock) : Bool :=
  BB.IsNewDbgInfoFormat && (BB.InstList.getLast?.map Node.isTerminator == some true)

/-- The container of `insertBefore` in the new debug format after the node has
been linked in and its marker set up, before the trailing flush. -/
def Instruction.placed (this : Node) (BB : BasicBlock) (InsertPos : InstListIterator) :
    BasicBlock :=
  let BB2 := (BB.insert InsertPos.Pos this).createMarker InsertPos.Pos
  if !InsertPos.HeadBit then BB2.absorbDebugValues InsertPos.Pos (InsertPos.Pos + 1) false
  else BB2

/-- The last part of `moveBeforeImpl`: the marker of the moved node, now at
index `New` of the destination, is set up, and the trailing annotations are
flushed when the node is a terminator. -/
def Instruction.settled (BB2 : BasicBlock) (New : Nat) (InsertAtHead Preserve : Bool)
    (Terminator : Bool) : BasicBlock :=
  let BB3 :=
    if BB2.IsNewDbgInfoFormat && !Preserve then
      let BB21 := BB2.createMarker New
      let NextMarker := BasicBlock.getNextMarker New
      (if !InsertAtHead then BB21.absorbDebugValues New NextMarker false else BB21)
    else BB2
  if Terminator then BB3.flushTerminatorDbgValues else BB3

/-- The order invariant: while the order-valid bit is set the position tokens
are strictly increasing along the sequence. -/
def BasicBlock.OrderInvariant (BB : BasicBlock) : Prop :=
  BB.InstrOrderValid = true → List.Pairwise (fun a b => a < b) (BB.InstList.map Node.Order)

/-- The states of one container that are reached from an empty container by
insertions, removals, moves inside the container, moves of a node out of it
or into it, and order queries. -/
inductive BasicBlock.Reachable : BasicBlock → Prop where
  | empty (valid fmt : Bool) :
      Reachable { InstList := [], InstrOrderValid := valid, IsNewDbgInfoFormat := fmt,
                  TrailingDPValues := none }
  | insertBefore (BB BB1 : BasicBlock) (this : Node) (InsertPos : InstListIterator) :
      Reachable BB → Instruction.insertBefore this BB InsertPos = some BB1 → Reachable BB1
  | insertInto (BB BB1 : BasicBlock) (this : NodeRef) (It : InstListIterator) (r : Nat) :
      Reachable BB → Instruction.insertInto this BB It = some (BB1, r) → Reachable BB1
  | insertAfter (BB BB1 : BasicBlock) (this : Node) (InsertPos : Nat) :
      Reachable BB → Instruction.insertAfter this BB InsertPos = some BB1 → Reachable BB1
  | removeFromParent (BB BB1 : BasicBlock) (this : Nat) (N : Node) :
      Reachable BB → Instruction.removeFromParent BB this = some (BB1, N) → Reachable BB1
  | moveWithin (BB BB1 : BasicBlock) (this : Nat) (I : InstListIterator) (Preserve : Bool) :
      Reachable BB → Instruction.moveBeforeImplWithin BB this I Preserve = some BB1 →
      Reachable BB1
  | moveOut (BB BB1 Y Y1 : BasicBlock) (this : Nat) (I : InstListIterator) (Preserve : Bool) :
      Reachable BB → Instruction.moveBeforeImpl BB this Y I Preserve = some (BB1, Y1) →
      Reachable BB1
  | moveIn (BB BB1 X X1 : BasicBlock) (this : Nat) (I : InstListIterator) (Preserve : Bool) :
      Reachable BB → Instruction.moveBeforeImpl X this BB I Preserve = some (X1, BB1) →
      Reachable BB1
  | comesBefore (BB BB1 : BasicBlock) (this Other : Nat) (r : Bool) :
      Reachable BB → Instruction.comesBeforeIn BB this Other = some (r, BB1) → Reachable BB1

/-! ## Concrete containers used in examples -/

/-- A node with one annotation. -/
def nodeA : Node := { id := 1, isTerminator := false, Order := 0, DbgMarker := some [10] }

/-- A node with two annotations. -/
def nodeB : Node := { id := 2, isTerminator := false, Order := 1, DbgMarker := some [20, 21] }

/-- A terminator with one annotation. -/
def nodeT : Node := { id := 3, isTerminator := true, Order := 2, DbgMarker := some [30] }

/-- A detached node without a marker. -/
def detachedNode : Node := { id := 9, isTerminator := false, Order := 0, DbgMarker := none }

/-- A detached terminator without a marker. -/
def detachedTerminator : Node :=
  { id := 8, isTerminator := true, Order := 0, DbgMarker := none }

/-- A container of the new debug format: two nodes and a terminator. -/
def blockABT : BasicBlock :=
  { InstList := [nodeA, nodeB, nodeT], InstrOrderValid := true, IsNewDbgInfoFormat := true,
    TrailingDPValues := none }

/-- A container of the new debug format without a terminator: one node, and an
annotation trailing the sequence. -/
def blockOpen : BasicBlock :=
  { InstList := [nodeA], InstrOrderValid := true, IsNewDbgInfoFormat := true,
    TrailingDPValues := some [77] }

/-- A container of the new debug format that ends with a terminator and has an
annotation trailing the sequence. -/
def blockTrailing : BasicBlock :=
  { InstList := [nodeA, nodeT], InstrOrderValid := false, IsNewDbgInfoFormat := true,
    TrailingDPValues := some [77] }

/-- An empty container of the new debug format. -/
def blockEmpty : BasicBlock :=
  { InstList := [], InstrOrderValid := false, IsNewDbgInfoFormat := true,
    TrailingDPValues := none }

/-- The container `blockEmpty` after `detachedNode` has been inserted at its
end. -/
def blockOne : BasicBlock :=
  { InstList := [{ id := 9, isTerminator := false, Order := 0, DbgMarker := some [] }],
    InstrOrderValid := false, IsNewDbgInfoFormat := true, TrailingDPValues := none }

/-- The container `blockOne` after `detachedTerminator` has been inserted at
its end. -/
def blockTwo : BasicBlock :=
  { InstList := [{ id := 9, isTerminator := false, Order := 0, DbgMarker := some [] },
                 { id := 8, isTerminator := true, Order := 0, DbgMarker := some [] }],
    InstrOrderValid := false, IsNewDbgInfoFormat := true, TrailingDPValues := none }

/-! ## Theorems -/

open Instruction

/-! ### Bits of the flag word -/

theorem flagWord_testBit_high (w : Fin 128) (k : Nat) (hk : 7 ≤ k) :
    w.val.testBit k = false := by
  apply Nat.testBit_lt_two_pow
  calc w.val < 2 ^ 7 := w.isLt
    _ ≤ 2 ^ k := Nat.pow_le_pow_right (by decide) hk

/-- Assigning the flag of mask `2 ^ j` sets bit `j` and keeps every other bit. -/
theorem assignFlag_testBit (w : Fin 128) (j : Nat) (hj : j < 7) (b : Bool) (k : Nat) :
    (assignFlag w (2 ^ j) b).val.testBit k = if k = j then b else w.val.testBit k := by
  have h32 : (0xFFFFFFFF : Nat) = 2 ^ 32 - 1 := by norm_num
  have h128 : (128 : Nat) = 2 ^ 7 := by norm_num
  simp only [assignFlag, toFlagWord, h32, h128, Nat.testBit_mod_two_pow, Nat.testBit_or,
    Nat.testBit_and, Nat.testBit_xor, Nat.testBit_two_pow_sub_one]
  by_cases hk : k < 7
  · by_cases hkj : k = j
    · subst hkj
      cases b
      · simp [hk, Nat.testBit_two_pow_self]
        omega
      · simp [hk, Nat.testBit_two_pow_self]
    · have : (2 ^ j).testBit k = false := by
        rw [Nat.testBit_two_pow]; simp; omega
      cases b <;> simp [hk, hkj, this] <;> omega
  · have := flagWord_testBit_high w k (by omega)
    have hkj : k ≠ j := by omega
    simp [hk, hkj, this]

theorem testFlag_eq_testBit : ∀ (w : Fin 128) (j : Fin 7), testFlag w (2 ^ j.val) = w.val.testBit j.val := by
  decide

@[simp] theorem withFlags_opcode (I : Instruction) (w : Fin 128) : (I.withFlags w).opcode = I.opcode := rfl

@[simp] theorem withFlags_ty (I : Instruction) (w : Fin 128) : (I.withFlags w).ty = I.ty := rfl

@[simp] theorem withFlags_flags (I : Instruction) (w : Fin 128) :
    (I.withFlags w).SubclassOptionalData = w := rfl

@[simp] theorem withFlags_withFlags (I : Instruction) (v w : Fin 128) :
    (I.withFlags v).withFlags w = I.withFlags w := rfl

theorem withFlags_self (I : Instruction) : I.withFlags I.SubclassOptionalData = I := rfl

theorem clear_wrap_nuw : ∀ w : Fin 128,
    OverflowingBinaryOperator.hasNoUnsignedWrap (OverflowingBinaryOperator.setHasNoSignedWrap
      (OverflowingBinaryOperator.setHasNoUnsignedWrap w false) false) = false := by
  decide

theorem clear_wrap_nsw : ∀ w : Fin 128,
    OverflowingBinaryOperator.hasNoSignedWrap (OverflowingBinaryOperator.setHasNoSignedWrap
      (OverflowingBinaryOperator.setHasNoUnsignedWrap w false) false) = false := by
  decide

theorem clear_exact : ∀ w : Fin 128,
    PossiblyExactOperator.isExact (PossiblyExactOperator.setIsExact w false) = false := by
  decide

theorem clear_inbounds : ∀ w : Fin 128,
    GEPOperator.isInBounds (GEPOperator.setIsInBounds w false) = false := by
  decide

theorem clear_nonneg : ∀ w : Fin 128,
    testFlag (assignFlag w PossiblyNonNegInst.NonNeg false) PossiblyNonNegInst.NonNeg = false := by
  decide

theorem clear_fp_nnan : ∀ w : Fin 128,
    FPMathOperator.hasNoNaNs (FPMathOperator.setHasNoInfs
      (FPMathOperator.setHasNoNaNs w false) false) = false := by
  decide

theorem clear_fp_ninf : ∀ w : Fin 128,
    FPMathOperator.hasNoInfs (FPMathOperator.setHasNoInfs
      (FPMathOperator.setHasNoNaNs w false) false) = false := by
  decide

/-- Every opcode has at most one flag capability. -/
theorem capability_cases (op : Opcode) (t : Ty) :
    (OverflowingBinaryOperator.classof op = true ∧ PossiblyExactOperator.classof op = false ∧
      op ≠ Opcode.GetElementPtr ∧ op ≠ Opcode.ZExt ∧ PossiblyNonNegInst.classof op = false ∧
      FPMathOperator.classof op t = false) ∨
    (OverflowingBinaryOperator.classof op = false ∧ PossiblyExactOperator.classof op = true ∧
      op ≠ Opcode.GetElementPtr ∧ op ≠ Opcode.ZExt ∧ PossiblyNonNegInst.classof op = false ∧
      FPMathOperator.classof op t = false) ∨
    (OverflowingBinaryOperator.classof op = false ∧ PossiblyExactOperator.classof op = false ∧
      op = Opcode.GetElementPtr ∧ op ≠ Opcode.ZExt ∧ PossiblyNonNegInst.classof op = false ∧
      FPMathOperator.classof op t = false) ∨
    (OverflowingBinaryOperator.classof op = false ∧ PossiblyExactOperator.classof op = false ∧
      op ≠ Opcode.GetElementPtr ∧ op = Opcode.ZExt ∧ PossiblyNonNegInst.classof op = true ∧
      FPMathOperator.classof op t = false) ∨
    (OverflowingBinaryOperator.classof op = false ∧ PossiblyExactOperator.classof op = false ∧
      op ≠ Opcode.GetElementPtr ∧ op ≠ Opcode.ZExt ∧ PossiblyNonNegInst.classof op = false ∧
      FPMathOperator.classof op t = true) ∨
    (OverflowingBinaryOperator.classof op = false ∧ PossiblyExactOperator.classof op = false ∧
      op ≠ Opcode.GetElementPtr ∧ op ≠ Opcode.ZExt ∧ PossiblyNonNegInst.classof op = false ∧
      FPMathOperator.classof op t = false) := by
  cases op <;>
    simp [OverflowingBinaryOperator.classof, PossiblyExactOperator.classof,
      PossiblyNonNegInst.classof, FPMathOperator.classof]

theorem dropPoisonGeneratingFlags_unfold (I : Instruction) :
    I.dropPoisonGeneratingFlags =
      (if OverflowingBinaryOperator.classof I.opcode then
          (I.setHasNoUnsignedWrap false).bind fun J => (J.setHasNoSignedWrap false).bind dropTail
        else if PossiblyExactOperator.classof I.opcode then (I.setIsExact false).bind dropTail
        else if I.opcode = Opcode.GetElementPtr then (I.setIsInBounds false).bind dropTail
        else if I.opcode = Opcode.ZExt then (I.setNonNeg false).bind dropTail
        else dropTail I) := by
  unfold dropPoisonGeneratingFlags
  cases I.opcode <;> rfl

/-- Closed form of `dropPoisonGeneratingFlags`: no `cast` and no assertion
fails, and only the flag word changes. -/
theorem dropPoisonGeneratingFlags_eq (I : Instruction) :
    I.dropPoisonGeneratingFlags = some (I.withFlags (droppedWord I)) := by
  rw [dropPoisonGeneratingFlags_unfold]
  rcases capability_cases I.opcode I.ty with h | h | h | h | h | h <;>
    obtain ⟨h1, h2, h3, h4, h5, h6⟩ := h <;>
    first
    | (simp [dropTail, droppedWord, h1, h2, h3, h4, h5, h6, setHasNoUnsignedWrap,
        setHasNoSignedWrap, setIsExact, setIsInBounds, setNonNeg, setHasNoNaNs, setHasNoInfs,
        isaFPMathOperator, hasPoisonGeneratingFlags, Operator.hasPoisonGeneratingFlags,
        clear_wrap_nuw, clear_wrap_nsw, clear_exact, clear_inbounds, clear_nonneg,
        clear_fp_nnan, clear_fp_ninf]; done)
    | (simp [dropTail, droppedWord, h1, h2, h3, h4, h5, h6, setHasNoUnsignedWrap,
        setHasNoSignedWrap, setIsExact, setIsInBounds, setNonNeg, setHasNoNaNs, setHasNoInfs,
        isaFPMathOperator, hasPoisonGeneratingFlags, Operator.hasPoisonGeneratingFlags,
        clear_wrap_nuw, clear_wrap_nsw, clear_exact, clear_inbounds, clear_nonneg,
        clear_fp_nnan, clear_fp_ninf]; rfl)
    | (simp [dropTail, droppedWord, h1, h2, h3, h4, h5, h6, setHasNoUnsignedWrap,
        setHasNoSignedWrap, setIsExact, setIsInBounds, setNonNeg, setHasNoNaNs, setHasNoInfs,
        isaFPMathOperator, hasPoisonGeneratingFlags, Operator.hasPoisonGeneratingFlags,
        clear_wrap_nuw, clear_wrap_nsw, clear_exact, clear_inbounds, clear_nonneg,
        clear_fp_nnan, clear_fp_ninf, OverflowingBinaryOperator.classof,
        PossiblyExactOperator.classof, PossiblyNonNegInst.classof, FPMathOperator.classof])

theorem hasPoisonGeneratingFlags_droppedWord (I : Instruction) :
    (I.withFlags (droppedWord I)).hasPoisonGeneratingFlags = false := by
  have h := dropPoisonGeneratingFlags_eq I
  rw [dropPoisonGeneratingFlags_unfold] at h
  have key : ∀ J K : Instruction, dropTail J = some K → K.hasPoisonGeneratingFlags = false := by
    intro J K hJ
    unfold dropTail at hJ
    split at hJ
    · simp only [Option.bind_eq_some] at hJ
      obtain ⟨_, _, _, _, h3⟩ := hJ
      split at h3
      · exact absurd h3 (by simp)
      · rename_i hn
        simp only [Option.some.injEq] at h3
        subst h3
        simpa using hn
    · split at hJ
      · exact absurd hJ (by simp)
      · rename_i hn
        simp only [Option.some.injEq] at hJ
        subst hJ
        simpa using hn
  split at h
  · simp only [Option.bind_eq_some] at h
    obtain ⟨_, _, _, _, h3⟩ := h
    exact key _ _ h3
  · split at h
    · simp only [Option.bind_eq_some] at h
      obtain ⟨_, _, h3⟩ := h
      exact key _ _ h3
    · split at h
      · simp only [Option.bind_eq_some] at h
        obtain ⟨_, _, h3⟩ := h
        exact key _ _ h3
      · split at h
        · simp only [Option.bind_eq_some] at h
          obtain ⟨_, _, h3⟩ := h
          exact key _ _ h3
        · exact key _ _ h

/-- C6: for every instruction (so in particular for add, sub, mul, shl, udiv,
sdiv, lshr, ashr, getelementptr, zext and every floating-point math operator)
and every initial flag word, `dropPoisonGeneratingFlags` runs to completion,
so its closing assertion does not fail, and `hasPoisonGeneratingFlags` is
false on the result. -/
theorem dropPoisonGeneratingFlags_then_hasPoisonGeneratingFlags (I : Instruction) :
    ∃ I', I.dropPoisonGeneratingFlags = some I' ∧ I'.hasPoisonGeneratingFlags = false :=
  ⟨_, dropPoisonGeneratingFlags_eq I, hasPoisonGeneratingFlags_droppedWord I⟩

theorem droppedWord_of_overflowing (I : Instruction)
    (h : OverflowingBinaryOperator.classof I.opcode = true) :
    droppedWord I = OverflowingBinaryOperator.setHasNoSignedWrap
      (OverflowingBinaryOperator.setHasNoUnsignedWrap I.SubclassOptionalData false) false := by
  rcases capability_cases I.opcode I.ty with c | c | c | c | c | c <;>
    obtain ⟨h1, h2, h3, h4, h5, h6⟩ := c <;>
    first
    | (rw [h1] at h; exact absurd h (by decide))
    | simp [droppedWord, h1, h6, isaFPMathOperator]

theorem droppedWord_of_exact (I : Instruction)
    (h : PossiblyExactOperator.classof I.opcode = true) :
    droppedWord I = PossiblyExactOperator.setIsExact I.SubclassOptionalData false := by
  rcases capability_cases I.opcode I.ty with c | c | c | c | c | c <;>
    obtain ⟨h1, h2, h3, h4, h5, h6⟩ := c <;>
    first
    | (rw [h2] at h; exact absurd h (by decide))
    | simp [droppedWord, h1, h2, h6, isaFPMathOperator]

theorem droppedWord_of_gep (I : Instruction) (h : I.opcode = Opcode.GetElementPtr) :
    droppedWord I = GEPOperator.setIsInBounds I.SubclassOptionalData false := by
  rcases capability_cases I.opcode I.ty with c | c | c | c | c | c <;>
    obtain ⟨h1, h2, h3, h4, h5, h6⟩ := c <;>
    first
    | exact absurd h h3
    | simp [droppedWord, h1, h2, eq_true h3, h6, isaFPMathOperator]

theorem droppedWord_of_zext (I : Instruction) (h : I.opcode = Opcode.ZExt) :
    droppedWord I = assignFlag I.SubclassOptionalData PossiblyNonNegInst.NonNeg false := by
  rcases capability_cases I.opcode I.ty with c | c | c | c | c | c <;>
    obtain ⟨h1, h2, h3, h4, h5, h6⟩ := c <;>
    first
    | exact absurd h h4
    | simp [droppedWord, h1, h2, h3, eq_true h4, h6, isaFPMathOperator]

theorem droppedWord_of_fpmath (I : Instruction) (h : I.isaFPMathOperator = true) :
    droppedWord I = FPMathOperator.setHasNoInfs
      (FPMathOperator.setHasNoNaNs I.SubclassOptionalData false) false := by
  unfold isaFPMathOperator at h
  rcases capability_cases I.opcode I.ty with c | c | c | c | c | c <;>
    obtain ⟨h1, h2, h3, h4, h5, h6⟩ := c <;>
    first
    | (rw [h6] at h; exact absurd h (by decide))
    | simp [droppedWord, h1, h2, h3, h4, h6, isaFPMathOperator]

theorem droppedWord_of_incapable (I : Instruction)
    (h1 : OverflowingBinaryOperator.classof I.opcode = false)
    (h2 : PossiblyExactOperator.classof I.opcode = false)
    (h3 : I.opcode ≠ Opcode.GetElementPtr) (h4 : I.opcode ≠ Opcode.ZExt)
    (h6 : I.isaFPMathOperator = false) :
    droppedWord I = I.SubclassOptionalData := by
  simp [droppedWord, h1, h2, h3, h4, h6]

theorem pow_ne_of_ne {k j : Nat} (h : 2 ^ k ≠ 2 ^ j) : k ≠ j := by
  intro hkj
  exact h (by rw [hkj])

theorem clear_wrap_other_bits (w : Fin 128) (k : Nat)
    (h0 : 2 ^ k ≠ OverflowingBinaryOperator.NoUnsignedWrap)
    (h1 : 2 ^ k ≠ OverflowingBinaryOperator.NoSignedWrap) :
    (OverflowingBinaryOperator.setHasNoSignedWrap
      (OverflowingBinaryOperator.setHasNoUnsignedWrap w false) false).val.testBit k =
      w.val.testBit k := by
  have e0 : OverflowingBinaryOperator.NoUnsignedWrap = 2 ^ 0 := rfl
  have e1 : OverflowingBinaryOperator.NoSignedWrap = 2 ^ 1 := rfl
  rw [e0] at h0
  rw [e1] at h1
  unfold OverflowingBinaryOperator.setHasNoSignedWrap
    OverflowingBinaryOperator.setHasNoUnsignedWrap
  rw [e0, e1, assignFlag_testBit _ 1 (by decide), assignFlag_testBit _ 0 (by decide)]
  simp [pow_ne_of_ne h0, pow_ne_of_ne h1]

theorem assignFlag_other_bits (w : Fin 128) (j : Nat) (hj : j < 7) (b : Bool) (k : Nat)
    (h0 : 2 ^ k ≠ 2 ^ j) :
    (assignFlag w (2 ^ j) b).val.testBit k = w.val.testBit k := by
  rw [assignFlag_testBit _ j hj]
  simp [pow_ne_of_ne h0]

theorem clear_bit_other_bits (w : Fin 128) (j : Nat) (hj : j < 7) (k : Nat)
    (h0 : 2 ^ k ≠ 2 ^ j) :
    (assignFlag w (2 ^ j) false).val.testBit k = w.val.testBit k :=
  assignFlag_other_bits w j hj false k h0

theorem assignWrap_other_bits (w : Fin 128) (b1 b2 : Bool) (k : Nat)
    (h0 : 2 ^ k ≠ OverflowingBinaryOperator.NoUnsignedWrap)
    (h1 : 2 ^ k ≠ OverflowingBinaryOperator.NoSignedWrap) :
    (OverflowingBinaryOperator.setHasNoUnsignedWrap
      (OverflowingBinaryOperator.setHasNoSignedWrap w b1) b2).val.testBit k =
      w.val.testBit k := by
  have e0 : OverflowingBinaryOperator.NoUnsignedWrap = 2 ^ 0 := rfl
  have e1 : OverflowingBinaryOperator.NoSignedWrap = 2 ^ 1 := rfl
  rw [e0] at h0
  rw [e1] at h1
  unfold OverflowingBinaryOperator.setHasNoSignedWrap
    OverflowingBinaryOperator.setHasNoUnsignedWrap
  rw [e0, e1, assignFlag_testBit _ 0 (by decide), assignFlag_testBit _ 1 (by decide)]
  simp [pow_ne_of_ne h0, pow_ne_of_ne h1]

theorem clear_fp_other_bits (w : Fin 128) (k : Nat)
    (h0 : 2 ^ k ≠ FastMathFlags.NoNaNs) (h1 : 2 ^ k ≠ FastMathFlags.NoInfs) :
    (FPMathOperator.setHasNoInfs (FPMathOperator.setHasNoNaNs w false) false).val.testBit k =
      w.val.testBit k := by
  have e0 : FastMathFlags.NoNaNs = 2 ^ 1 := rfl
  have e1 : FastMathFlags.NoInfs = 2 ^ 2 := rfl
  rw [e0] at h0
  rw [e1] at h1
  unfold FPMathOperator.setHasNoInfs FPMathOperator.setHasNoNaNs
  rw [e0, e1, assignFlag_testBit _ 2 (by decide), assignFlag_testBit _ 1 (by decide)]
  simp [pow_ne_of_ne h0, pow_ne_of_ne h1]

theorem clear_fp_keeps_rest : ∀ w : Fin 128,
    FPMathOperator.hasAllowReassoc
        (FPMathOperator.setHasNoInfs (FPMathOperator.setHasNoNaNs w false) false) =
      FPMathOperator.hasAllowReassoc w ∧
    FPMathOperator.hasNoSignedZeros
        (FPMathOperator.setHasNoInfs (FPMathOperator.setHasNoNaNs w false) false) =
      FPMathOperator.hasNoSignedZeros w ∧
    FPMathOperator.hasAllowReciprocal
        (FPMathOperator.setHasNoInfs (FPMathOperator.setHasNoNaNs w false) false) =
      FPMathOperator.hasAllowReciprocal w ∧
    FPMathOperator.hasAllowContract
        (FPMathOperator.setHasNoInfs (FPMathOperator.setHasNoNaNs w false) false) =
      FPMathOperator.hasAllowContract w ∧
    FPMathOperator.hasApproxFunc
        (FPMathOperator.setHasNoInfs (FPMathOperator.setHasNoNaNs w false) false) =
      FPMathOperator.hasApproxFunc w := by
  decide

/-- C7: `dropPoisonGeneratingFlags` changes the flag word only, and in it
only the poison-generating flags of the opcode: nuw and nsw are cleared for
add/sub/mul/shl, exact for udiv/sdiv/lshr/ashr, in-bounds for getelementptr,
non-negative for zext, no-NaNs and no-infinities for a floating-point math
operator; every other bit of the word keeps its value (so allow-reassociate,
no-signed-zeros, allow-reciprocal, allow-contract and approximate-functions
read as before), and an instruction with none of these capabilities is
returned unchanged. -/
theorem dropPoisonGeneratingFlags_resets_exactly (I : Instruction) :
    ∃ I', I.dropPoisonGeneratingFlags = some I' ∧
      I' = I.withFlags I'.SubclassOptionalData ∧
      (OverflowingBinaryOperator.classof I.opcode = true →
        I'.hasNoUnsignedWrap = some false ∧ I'.hasNoSignedWrap = some false ∧
        ∀ k, 2 ^ k ≠ OverflowingBinaryOperator.NoUnsignedWrap →
          2 ^ k ≠ OverflowingBinaryOperator.NoSignedWrap →
          I'.SubclassOptionalData.val.testBit k = I.SubclassOptionalData.val.testBit k) ∧
      (PossiblyExactOperator.classof I.opcode = true →
        I'.isExact = some false ∧
        ∀ k, 2 ^ k ≠ PossiblyExactOperator.IsExact →
          I'.SubclassOptionalData.val.testBit k = I.SubclassOptionalData.val.testBit k) ∧
      (I.opcode = Opcode.GetElementPtr →
        I'.isInBounds = some false ∧
        ∀ k, 2 ^ k ≠ GEPOperator.IsInBounds →
          I'.SubclassOptionalData.val.testBit k = I.SubclassOptionalData.val.testBit k) ∧
      (I.opcode = Opcode.ZExt →
        I'.hasNonNeg = some false ∧
        ∀ k, 2 ^ k ≠ PossiblyNonNegInst.NonNeg →
          I'.SubclassOptionalData.val.testBit k = I.SubclassOptionalData.val.testBit k) ∧
      (I.isaFPMathOperator = true →
        I'.hasNoNaNs = some false ∧ I'.hasNoInfs = some false ∧
        (∀ k, 2 ^ k ≠ FastMathFlags.NoNaNs → 2 ^ k ≠ FastMathFlags.NoInfs →
          I'.SubclassOptionalData.val.testBit k = I.SubclassOptionalData.val.testBit k) ∧
        I'.hasAllowReassoc = I.hasAllowReassoc ∧
        I'.hasNoSignedZeros = I.hasNoSignedZeros ∧
        I'.hasAllowReciprocal = I.hasAllowReciprocal ∧
        I'.hasAllowContract = I.hasAllowContract ∧
        I'.hasApproxFunc = I.hasApproxFunc) ∧
      (OverflowingBinaryOperator.classof I.opcode = false →
        PossiblyExactOperator.classof I.opcode = false →
        I.opcode ≠ Opcode.GetElementPtr → I.opcode ≠ Opcode.ZExt →
        I.isaFPMathOperator = false → I' = I) := by
  refine ⟨_, dropPoisonGeneratingFlags_eq I, rfl, ?_, ?_, ?_, ?_, ?_, ?_⟩
  · intro h
    rw [droppedWord_of_overflowing I h]
    refine ⟨?_, ?_, fun k h0 h1 => clear_wrap_other_bits _ k h0 h1⟩
    · simp [hasNoUnsignedWrap, h, clear_wrap_nuw]
    · simp [hasNoSignedWrap, h, clear_wrap_nsw]
  · intro h
    rw [droppedWord_of_exact I h]
    refine ⟨?_, fun k h0 => clear_bit_other_bits _ 0 (by decide) k h0⟩
    simp [isExact, h, clear_exact]
  · intro h
    rw [droppedWord_of_gep I h]
    refine ⟨?_, fun k h0 => clear_bit_other_bits _ 0 (by decide) k h0⟩
    simp [isInBounds, h, clear_inbounds]
  · intro h
    rw [droppedWord_of_zext I h]
    refine ⟨?_, fun k h0 => clear_bit_other_bits _ 0 (by decide) k h0⟩
    simp [hasNonNeg, h, PossiblyNonNegInst.classof, clear_nonneg]
  · intro h
    rw [droppedWord_of_fpmath I h]
    have hc := clear_fp_keeps_rest I.SubclassOptionalData
    have h' : (I.withFlags (FPMathOperator.setHasNoInfs
        (FPMathOperator.setHasNoNaNs I.SubclassOptionalData false) false)).isaFPMathOperator
        = true := h
    refine ⟨?_, ?_, fun k h0 h1 => clear_fp_other_bits _ k h0 h1, ?_, ?_, ?_, ?_, ?_⟩
    · simp [hasNoNaNs, h', clear_fp_nnan]
    · simp [hasNoInfs, h', clear_fp_ninf]
    · simp [hasAllowReassoc, h', h, hc.1]
    · simp [hasNoSignedZeros, h', h, hc.2.1]
    · simp [hasAllowReciprocal, h', h, hc.2.2.1]
    · simp [hasAllowContract, h', h, hc.2.2.2.1]
    · simp [hasApproxFunc, h', h, hc.2.2.2.2]
  · intro h1 h2 h3 h4 h6
    rw [droppedWord_of_incapable I h1 h2 h3 h4 h6]
    rfl

/-- The function `andIRFlags` is its five statements run in order. -/
theorem andIRFlags_unfold (S : Instruction) (V : Value) :
    S.andIRFlags V =
      (andWrapStep V S).bind fun S1 => (andExactStep V S1).bind fun S2 =>
        (andFastMathStep V S2).bind fun S3 => (andInBoundsStep V S3).bind fun S4 =>
          andNonNegStep V S4 := by
  unfold andIRFlags andWrapStep andExactStep andFastMathStep andInBoundsStep andNonNegStep
  rfl

/-- The function `copyIRFlags` is its five statements run in order. -/
theorem copyIRFlags_unfold (S : Instruction) (V : Value) (IncludeWrapFlags : Bool) :
    S.copyIRFlags V IncludeWrapFlags =
      (copyWrapStep V IncludeWrapFlags S).bind fun S1 => (copyExactStep V S1).bind fun S2 =>
        (copyFastMathStep V S2).bind fun S3 => (copyInBoundsStep V S3).bind fun S4 =>
          copyNonNegStep V S4 := by
  unfold copyIRFlags copyWrapStep copyExactStep copyFastMathStep copyInBoundsStep copyNonNegStep
  rfl

theorem andWrapStep_eq (V : Value) (S : Instruction) :
    andWrapStep V S = some (S.withFlags (andWrapWord V S.opcode S.SubclassOptionalData)) := by
  by_cases hv : V.isaOverflowingBinaryOperator = true <;>
    by_cases hs : OverflowingBinaryOperator.classof S.opcode = true <;>
    simp [andWrapStep, andWrapWord, hv, hs, hasNoSignedWrap, hasNoUnsignedWrap,
      setHasNoSignedWrap, setHasNoUnsignedWrap] <;> rfl

theorem andExactStep_eq (V : Value) (S : Instruction) :
    andExactStep V S = some (S.withFlags (andExactWord V S.opcode S.SubclassOptionalData)) := by
  by_cases hv : V.isaPossiblyExactOperator = true <;>
    by_cases hs : PossiblyExactOperator.classof S.opcode = true <;>
    simp [andExactStep, andExactWord, hv, hs, isExact, setIsExact] <;> rfl

theorem andFastMathStep_eq (V : Value) (S : Instruction) :
    andFastMathStep V S =
      some (S.withFlags (andFastMathWord V S.opcode S.ty S.SubclassOptionalData)) := by
  by_cases hv : V.isaFPMathOperator = true <;>
    by_cases hs : FPMathOperator.classof S.opcode S.ty = true <;>
    simp [andFastMathStep, andFastMathWord, hv, hs, isaFPMathOperator, getFastMathFlags,
      copyFastMathFlags] <;> rfl

theorem andInBoundsStep_eq (V : Value) (S : Instruction) :
    andInBoundsStep V S =
      some (S.withFlags (andInBoundsWord V S.opcode S.SubclassOptionalData)) := by
  by_cases hv : V.isaGetElementPtrInst = true <;>
    by_cases hs : S.opcode = Opcode.GetElementPtr <;>
    simp [andInBoundsStep, andInBoundsWord, hv, hs, isInBounds, setIsInBounds] <;> rfl

theorem andNonNegStep_eq (V : Value) (S : Instruction) :
    andNonNegStep V S = some (S.withFlags (andNonNegWord V S.opcode S.SubclassOptionalData)) := by
  by_cases hv : V.isaPossiblyNonNegInst = true <;>
    by_cases hs : PossiblyNonNegInst.classof S.opcode = true <;>
    simp [andNonNegStep, andNonNegWord, hv, hs, hasNonNeg, setNonNeg] <;> rfl

/-- Closed form of `andIRFlags`: no accessor fails and only the flag word
changes. -/
theorem andIRFlags_eq (S : Instruction) (V : Value) :
    S.andIRFlags V = some (S.withFlags (andWord S V)) := by
  rw [andIRFlags_unfold, andWrapStep_eq]
  simp only [Option.some_bind, andExactStep_eq, andFastMathStep_eq, andInBoundsStep_eq,
    andNonNegStep_eq, withFlags_opcode, withFlags_ty, withFlags_flags, withFlags_withFlags,
    andWord]

theorem andWord_of_overflowing (S : Instruction) (V : Value)
    (h : OverflowingBinaryOperator.classof S.opcode = true) :
    andWord S V = andWrapWord V S.opcode S.SubclassOptionalData := by
  rcases capability_cases S.opcode S.ty with c | c | c | c | c | c <;>
    obtain ⟨h1, h2, h3, h4, h5, h6⟩ := c <;>
    first
    | (rw [h1] at h; exact absurd h (by decide))
    | simp [andWord, andExactWord, andFastMathWord, andInBoundsWord, andNonNegWord, h2, h3, h5, h6]

theorem andWord_of_exact (S : Instruction) (V : Value)
    (h : PossiblyExactOperator.classof S.opcode = true) :
    andWord S V = andExactWord V S.opcode S.SubclassOptionalData := by
  rcases capability_cases S.opcode S.ty with c | c | c | c | c | c <;>
    obtain ⟨h1, h2, h3, h4, h5, h6⟩ := c <;>
    first
    | (rw [h2] at h; exact absurd h (by decide))
    | simp [andWord, andWrapWord, andFastMathWord, andInBoundsWord, andNonNegWord, h1, h3, h5, h6]

theorem andWord_of_fpmath (S : Instruction) (V : Value) (h : S.isaFPMathOperator = true) :
    andWord S V = andFastMathWord V S.opcode S.ty S.SubclassOptionalData := by
  unfold isaFPMathOperator at h
  rcases capability_cases S.opcode S.ty with c | c | c | c | c | c <;>
    obtain ⟨h1, h2, h3, h4, h5, h6⟩ := c <;>
    first
    | (rw [h6] at h; exact absurd h (by decide))
    | simp [andWord, andWrapWord, andExactWord, andInBoundsWord, andNonNegWord, h1, h2, h3, h5]

theorem andWord_of_gep (S : Instruction) (V : Value) (h : S.opcode = Opcode.GetElementPtr) :
    andWord S V = andInBoundsWord V S.opcode S.SubclassOptionalData := by
  rcases capability_cases S.opcode S.ty with c | c | c | c | c | c <;>
    obtain ⟨h1, h2, h3, h4, h5, h6⟩ := c <;>
    first
    | (exact absurd h h3)
    | simp [andWord, andWrapWord, andExactWord, andFastMathWord, andNonNegWord, h1, h2, h5, h6]

theorem andWord_of_zext (S : Instruction) (V : Value) (h : S.opcode = Opcode.ZExt) :
    andWord S V = andNonNegWord V S.opcode S.SubclassOptionalData := by
  rcases capability_cases S.opcode S.ty with c | c | c | c | c | c <;>
    obtain ⟨h1, h2, h3, h4, h5, h6⟩ := c <;>
    first
    | (exact absurd h h4)
    | simp [andWord, andWrapWord, andExactWord, andFastMathWord, andInBoundsWord, h1, h2, h3, h6]

theorem andWord_of_incapable (S : Instruction) (V : Value)
    (h1 : OverflowingBinaryOperator.classof S.opcode = false)
    (h2 : PossiblyExactOperator.classof S.opcode = false)
    (h3 : S.opcode ≠ Opcode.GetElementPtr) (h4 : S.opcode ≠ Opcode.ZExt)
    (h6 : S.isaFPMathOperator = false) :
    andWord S V = S.SubclassOptionalData := by
  have h5 : PossiblyNonNegInst.classof S.opcode = false := by
    cases hop : S.opcode <;> simp_all [PossiblyNonNegInst.classof]
  unfold isaFPMathOperator at h6
  simp [andWord, andWrapWord, andExactWord, andFastMathWord, andInBoundsWord, andNonNegWord,
    h1, h2, h3, h5, h6]

theorem testBit_of_and_eq {a b : Nat} (h : a &&& b = a) (k : Nat) (hk : a.testBit k = true) :
    b.testBit k = true := by
  rw [← h, Nat.testBit_and, Bool.and_eq_true] at hk
  exact hk.2

theorem and_wrap_word : ∀ (w : Fin 128) (b1 b2 : Bool),
    OverflowingBinaryOperator.hasNoSignedWrap
        (OverflowingBinaryOperator.setHasNoUnsignedWrap
          (OverflowingBinaryOperator.setHasNoSignedWrap w
            (OverflowingBinaryOperator.hasNoSignedWrap w && b1))
          (OverflowingBinaryOperator.hasNoUnsignedWrap
              (OverflowingBinaryOperator.setHasNoSignedWrap w
                (OverflowingBinaryOperator.hasNoSignedWrap w && b1)) && b2)) =
      (OverflowingBinaryOperator.hasNoSignedWrap w && b1) ∧
    OverflowingBinaryOperator.hasNoUnsignedWrap
        (OverflowingBinaryOperator.setHasNoUnsignedWrap
          (OverflowingBinaryOperator.setHasNoSignedWrap w
            (OverflowingBinaryOperator.hasNoSignedWrap w && b1))
          (OverflowingBinaryOperator.hasNoUnsignedWrap
              (OverflowingBinaryOperator.setHasNoSignedWrap w
                (OverflowingBinaryOperator.hasNoSignedWrap w && b1)) && b2)) =
      (OverflowingBinaryOperator.hasNoUnsignedWrap w && b2) ∧
    (OverflowingBinaryOperator.setHasNoUnsignedWrap
          (OverflowingBinaryOperator.setHasNoSignedWrap w
            (OverflowingBinaryOperator.hasNoSignedWrap w && b1))
          (OverflowingBinaryOperator.hasNoUnsignedWrap
              (OverflowingBinaryOperator.setHasNoSignedWrap w
                (OverflowingBinaryOperator.hasNoSignedWrap w && b1)) && b2)).val &&& w.val =
      (OverflowingBinaryOperator.setHasNoUnsignedWrap
          (OverflowingBinaryOperator.setHasNoSignedWrap w
            (OverflowingBinaryOperator.hasNoSignedWrap w && b1))
          (OverflowingBinaryOperator.hasNoUnsignedWrap
              (OverflowingBinaryOperator.setHasNoSignedWrap w
                (OverflowingBinaryOperator.hasNoSignedWrap w && b1)) && b2)).val := by
  decide

theorem and_exact_word : ∀ (w : Fin 128) (b : Bool),
    PossiblyExactOperator.isExact
        (PossiblyExactOperator.setIsExact w (PossiblyExactOperator.isExact w && b)) =
      (PossiblyExactOperator.isExact w && b) ∧
    (PossiblyExactOperator.setIsExact w (PossiblyExactOperator.isExact w && b)).val &&& w.val =
      (PossiblyExactOperator.setIsExact w (PossiblyExactOperator.isExact w && b)).val := by
  decide

theorem and_inbounds_word : ∀ (w : Fin 128) (b : Bool),
    GEPOperator.isInBounds (GEPOperator.setIsInBounds w (b && GEPOperator.isInBounds w)) =
      (GEPOperator.isInBounds w && b) ∧
    (GEPOperator.setIsInBounds w (b && GEPOperator.isInBounds w)).val &&& w.val =
      (GEPOperator.setIsInBounds w (b && GEPOperator.isInBounds w)).val := by
  decide

theorem and_nonneg_word : ∀ (w : Fin 128) (b : Bool),
    testFlag (assignFlag w PossiblyNonNegInst.NonNeg (testFlag w PossiblyNonNegInst.NonNeg && b))
        PossiblyNonNegInst.NonNeg =
      (testFlag w PossiblyNonNegInst.NonNeg && b) ∧
    (assignFlag w PossiblyNonNegInst.NonNeg
        (testFlag w PossiblyNonNegInst.NonNeg && b)).val &&& w.val =
      (assignFlag w PossiblyNonNegInst.NonNeg (testFlag w PossiblyNonNegInst.NonNeg && b)).val := by
  decide

theorem and_fastmath_word (w v : Fin 128) :
    (FPMathOperator.copyFastMathFlags
      ((FPMathOperator.getFastMathFlags w).and (FPMathOperator.getFastMathFlags v))).val =
      w.val &&& v.val := by
  have h1 : w.val &&& v.val ≤ w.val := Nat.and_le_left
  have h2 : w.val &&& v.val < 128 := Nat.lt_of_le_of_lt h1 w.isLt
  simp [FPMathOperator.copyFastMathFlags, FPMathOperator.getFastMathFlags, FastMathFlags.and,
    toFlagWord, Nat.mod_eq_of_lt h2]

/-- The flag word left by `andIRFlags` never has a bit that the word of `S`
lacked. -/
theorem andWord_subset (S : Instruction) (V : Value) :
    (andWord S V).val &&& S.SubclassOptionalData.val = (andWord S V).val := by
  rcases capability_cases S.opcode S.ty with c | c | c | c | c | c <;>
    obtain ⟨h1, h2, h3, h4, h5, h6⟩ := c
  · rw [andWord_of_overflowing S V h1]
    unfold andWrapWord
    split
    · exact (and_wrap_word _ _ _).2.2
    · exact Nat.and_self _
  · rw [andWord_of_exact S V h2]
    unfold andExactWord
    split
    · exact (and_exact_word _ _).2
    · exact Nat.and_self _
  · rw [andWord_of_gep S V h3]
    unfold andInBoundsWord
    split
    · exact (and_inbounds_word _ _).2
    · exact Nat.and_self _
  · rw [andWord_of_zext S V h4]
    unfold andNonNegWord
    split
    · exact (and_nonneg_word _ _).2
    · exact Nat.and_self _
  · rw [andWord_of_fpmath S V h6]
    unfold andFastMathWord
    split
    · rw [and_fastmath_word]
      apply Nat.eq_of_testBit_eq
      intro i
      simp only [Nat.testBit_and]
      cases (S.SubclassOptionalData.val.testBit i) <;> simp
    · exact Nat.and_self _
  · rw [andWord_of_incapable S V h1 h2 h3 h4 h6]
    exact Nat.and_self _

/-- C8: `andIRFlags` runs to completion and changes the flag word only.  For
a capability that `S` and `V` share, each boolean flag (nsw, nuw, exact,
in-bounds, non-negative) is set afterwards iff it was set on `S` and is set on
`V`, with every other bit of the word kept, and the fast-math flags become the
bitwise AND of those of `S` and `V`; when `V` does not share the capability of
`S` (or `S` has none) `S` is unchanged; no bit that was clear on `S` is set
afterwards. -/
theorem andIRFlags_intersects (S : Instruction) (V : Value) :
    ∃ S', S.andIRFlags V = some S' ∧
      S' = S.withFlags S'.SubclassOptionalData ∧
      (OverflowingBinaryOperator.classof S.opcode = true →
        V.isaOverflowingBinaryOperator = true →
        S'.hasNoSignedWrap = some
          (OverflowingBinaryOperator.hasNoSignedWrap S.SubclassOptionalData &&
            OverflowingBinaryOperator.hasNoSignedWrap V.getSubclassOptionalData) ∧
        S'.hasNoUnsignedWrap = some
          (OverflowingBinaryOperator.hasNoUnsignedWrap S.SubclassOptionalData &&
            OverflowingBinaryOperator.hasNoUnsignedWrap V.getSubclassOptionalData) ∧
        ∀ k, 2 ^ k ≠ OverflowingBinaryOperator.NoUnsignedWrap →
          2 ^ k ≠ OverflowingBinaryOperator.NoSignedWrap →
          S'.SubclassOptionalData.val.testBit k = S.SubclassOptionalData.val.testBit k) ∧
      (PossiblyExactOperator.classof S.opcode = true → V.isaPossiblyExactOperator = true →
        S'.isExact = some
          (PossiblyExactOperator.isExact S.SubclassOptionalData &&
            PossiblyExactOperator.isExact V.getSubclassOptionalData) ∧
        ∀ k, 2 ^ k ≠ PossiblyExactOperator.IsExact →
          S'.SubclassOptionalData.val.testBit k = S.SubclassOptionalData.val.testBit k) ∧
      (S.opcode = Opcode.GetElementPtr → V.isaGetElementPtrInst = true →
        S'.isInBounds = some
          (GEPOperator.isInBounds S.SubclassOptionalData &&
            GEPOperator.isInBounds V.getSubclassOptionalData) ∧
        ∀ k, 2 ^ k ≠ GEPOperator.IsInBounds →
          S'.SubclassOptionalData.val.testBit k = S.SubclassOptionalData.val.testBit k) ∧
      (S.opcode = Opcode.ZExt → V.isaPossiblyNonNegInst = true →
        S'.hasNonNeg = some
          (testFlag S.SubclassOptionalData PossiblyNonNegInst.NonNeg &&
            testFlag V.getSubclassOptionalData PossiblyNonNegInst.NonNeg) ∧
        ∀ k, 2 ^ k ≠ PossiblyNonNegInst.NonNeg →
          S'.SubclassOptionalData.val.testBit k = S.SubclassOptionalData.val.testBit k) ∧
      (S.isaFPMathOperator = true → V.isaFPMathOperator = true →
        S'.getFastMathFlags = some
          ((FPMathOperator.getFastMathFlags S.SubclassOptionalData).and
            (FPMathOperator.getFastMathFlags V.getSubclassOptionalData))) ∧
      (OverflowingBinaryOperator.classof S.opcode = true →
        V.isaOverflowingBinaryOperator = false → S' = S) ∧
      (PossiblyExactOperator.classof S.opcode = true →
        V.isaPossiblyExactOperator = false → S' = S) ∧
      (S.opcode = Opcode.GetElementPtr → V.isaGetElementPtrInst = false → S' = S) ∧
      (S.opcode = Opcode.ZExt → V.isaPossiblyNonNegInst = false → S' = S) ∧
      (S.isaFPMathOperator = true → V.isaFPMathOperator = false → S' = S) ∧
      (OverflowingBinaryOperator.classof S.opcode = false →
        PossiblyExactOperator.classof S.opcode = false →
        S.opcode ≠ Opcode.GetElementPtr → S.opcode ≠ Opcode.ZExt →
        S.isaFPMathOperator = false → S' = S) ∧
      (∀ k, S'.SubclassOptionalData.val.testBit k = true →
        S.SubclassOptionalData.val.testBit k = true) := by
  refine ⟨_, andIRFlags_eq S V, rfl, ?_, ?_, ?_, ?_, ?_, ?_, ?_, ?_, ?_, ?_, ?_, ?_⟩
  · intro h hv
    rw [andWord_of_overflowing S V h]
    simp only [andWrapWord, hv, h, and_self, if_true]
    refine ⟨?_, ?_, fun k h0 h1 => assignWrap_other_bits _ _ _ k h0 h1⟩
    · simp [hasNoSignedWrap, h, (and_wrap_word _ _ _).1]
    · simp [hasNoUnsignedWrap, h, (and_wrap_word _ _ _).2.1]
  · intro h hv
    rw [andWord_of_exact S V h]
    simp only [andExactWord, hv, h, and_self, if_true]
    refine ⟨?_, fun k h0 => assignFlag_other_bits _ 0 (by decide) _ k h0⟩
    simp [isExact, h, (and_exact_word _ _).1]
  · intro h hv
    rw [andWord_of_gep S V h]
    simp only [andInBoundsWord, hv, h, and_self, if_true]
    refine ⟨?_, fun k h0 => assignFlag_other_bits _ 0 (by decide) _ k h0⟩
    simp [isInBounds, h, (and_inbounds_word _ _).1]
  · intro h hv
    rw [andWord_of_zext S V h]
    have hc : PossiblyNonNegInst.classof S.opcode = true := by rw [h]; rfl
    simp only [andNonNegWord, hv, hc, and_self, if_true]
    refine ⟨?_, fun k h0 => assignFlag_other_bits _ 0 (by decide) _ k h0⟩
    simp [hasNonNeg, hc, (and_nonneg_word _ _).1]
  · intro h hv
    rw [andWord_of_fpmath S V h]
    have hc : FPMathOperator.classof S.opcode S.ty = true := h
    simp only [andFastMathWord, hv, hc, and_self, if_true]
    have h' : (S.withFlags (FPMathOperator.copyFastMathFlags
        ((FPMathOperator.getFastMathFlags S.SubclassOptionalData).and
          (FPMathOperator.getFastMathFlags V.getSubclassOptionalData)))).isaFPMathOperator
        = true := h
    simp only [getFastMathFlags, h', if_true, withFlags_flags, Option.some.injEq]
    have hw := and_fastmath_word S.SubclassOptionalData V.getSubclassOptionalData
    simp only [FPMathOperator.getFastMathFlags, FastMathFlags.and] at hw ⊢
    rw [hw]
  · intro h hv
    rw [andWord_of_overflowing S V h]
    simp [andWrapWord, hv]
    rfl
  · intro h hv
    rw [andWord_of_exact S V h]
    simp [andExactWord, hv]
    rfl
  · intro h hv
    rw [andWord_of_gep S V h]
    simp [andInBoundsWord, hv]
    rfl
  · intro h hv
    rw [andWord_of_zext S V h]
    simp [andNonNegWord, hv]
    rfl
  · intro h hv
    rw [andWord_of_fpmath S V h]
    simp [andFastMathWord, hv]
    rfl
  · intro h1 h2 h3 h4 h6
    rw [andWord_of_incapable S V h1 h2 h3 h4 h6]
    rfl
  · intro k hk
    exact testBit_of_and_eq (andWord_subset S V) k hk

theorem andWrapBits_idem : ∀ (w : Fin 128) (b1 b2 : Bool),
    andWrapBits (andWrapBits w b1 b2) b1 b2 = andWrapBits w b1 b2 := by
  decide

theorem andWrapWord_idem (V : Value) (op : Opcode) (w : Fin 128) :
    andWrapWord V op (andWrapWord V op w) = andWrapWord V op w := by
  unfold andWrapWord
  split
  · exact andWrapBits_idem w _ _
  · rfl

theorem and_exact_idem : ∀ (w : Fin 128) (b : Bool),
    PossiblyExactOperator.setIsExact
        (PossiblyExactOperator.setIsExact w (PossiblyExactOperator.isExact w && b))
        (PossiblyExactOperator.isExact
          (PossiblyExactOperator.setIsExact w (PossiblyExactOperator.isExact w && b)) && b) =
      PossiblyExactOperator.setIsExact w (PossiblyExactOperator.isExact w && b) := by
  decide

theorem andExactWord_idem (V : Value) (op : Opcode) (w : Fin 128) :
    andExactWord V op (andExactWord V op w) = andExactWord V op w := by
  unfold andExactWord
  split
  · exact and_exact_idem w _
  · rfl

theorem and_inbounds_idem : ∀ (w : Fin 128) (b : Bool),
    GEPOperator.setIsInBounds
        (GEPOperator.setIsInBounds w (b && GEPOperator.isInBounds w))
        (b && GEPOperator.isInBounds
          (GEPOperator.setIsInBounds w (b && GEPOperator.isInBounds w))) =
      GEPOperator.setIsInBounds w (b && GEPOperator.isInBounds w) := by
  decide

theorem andInBoundsWord_idem (V : Value) (op : Opcode) (w : Fin 128) :
    andInBoundsWord V op (andInBoundsWord V op w) = andInBoundsWord V op w := by
  unfold andInBoundsWord
  split
  · exact and_inbounds_idem w _
  · rfl

theorem and_nonneg_idem : ∀ (w : Fin 128) (b : Bool),
    assignFlag (assignFlag w PossiblyNonNegInst.NonNeg (testFlag w PossiblyNonNegInst.NonNeg && b))
        PossiblyNonNegInst.NonNeg
        (testFlag (assignFlag w PossiblyNonNegInst.NonNeg
          (testFlag w PossiblyNonNegInst.NonNeg && b)) PossiblyNonNegInst.NonNeg && b) =
      assignFlag w PossiblyNonNegInst.NonNeg (testFlag w PossiblyNonNegInst.NonNeg && b) := by
  decide

theorem andNonNegWord_idem (V : Value) (op : Opcode) (w : Fin 128) :
    andNonNegWord V op (andNonNegWord V op w) = andNonNegWord V op w := by
  unfold andNonNegWord
  split
  · exact and_nonneg_idem w _
  · rfl

theorem andFastMathWord_idem (V : Value) (op : Opcode) (t : Ty) (w : Fin 128) :
    andFastMathWord V op t (andFastMathWord V op t w) = andFastMathWord V op t w := by
  unfold andFastMathWord
  split
  · apply Fin.ext
    rw [and_fastmath_word, and_fastmath_word, Nat.and_assoc, Nat.and_self]
  · rfl

theorem andWord_idem (S : Instruction) (V : Value) :
    andWord (S.withFlags (andWord S V)) V = andWord S V := by
  rcases capability_cases S.opcode S.ty with c | c | c | c | c | c <;>
    obtain ⟨h1, h2, h3, h4, h5, h6⟩ := c
  · rw [andWord_of_overflowing (S.withFlags (andWord S V)) V h1, andWord_of_overflowing S V h1]
    exact andWrapWord_idem V S.opcode _
  · rw [andWord_of_exact (S.withFlags (andWord S V)) V h2, andWord_of_exact S V h2]
    exact andExactWord_idem V S.opcode _
  · rw [andWord_of_gep (S.withFlags (andWord S V)) V h3, andWord_of_gep S V h3]
    exact andInBoundsWord_idem V S.opcode _
  · rw [andWord_of_zext (S.withFlags (andWord S V)) V h4, andWord_of_zext S V h4]
    exact andNonNegWord_idem V S.opcode _
  · rw [andWord_of_fpmath (S.withFlags (andWord S V)) V h6, andWord_of_fpmath S V h6]
    exact andFastMathWord_idem V S.opcode S.ty _
  · rw [andWord_of_incapable (S.withFlags (andWord S V)) V h1 h2 h3 h4 h6,
      andWord_of_incapable S V h1 h2 h3 h4 h6]
    rfl

/-- C9: `andIRFlags` is idempotent: running `S.andIRFlags(x)` twice leaves
`S` in the state a single run leaves it in (and both runs complete). -/
theorem andIRFlags_idempotent (S : Instruction) (x : Value) :
    (S.andIRFlags x).bind (fun S1 => S1.andIRFlags x) = S.andIRFlags x ∧
      (S.andIRFlags x).isSome = true := by
  rw [andIRFlags_eq S x]
  refine ⟨?_, rfl⟩
  simp only [Option.some_bind]
  rw [andIRFlags_eq, andWord_idem]
  rfl

theorem copyWrapStep_eq (V : Value) (b : Bool) (S : Instruction) :
    copyWrapStep V b S =
      some (S.withFlags (copyWrapWord V b S.opcode S.SubclassOptionalData)) := by
  by_cases hv : V.isaOverflowingBinaryOperator = true <;>
    by_cases hs : OverflowingBinaryOperator.classof S.opcode = true <;>
    cases b <;>
    simp [copyWrapStep, copyWrapWord, hv, hs, setHasNoSignedWrap, setHasNoUnsignedWrap] <;> rfl

theorem copyExactStep_eq (V : Value) (S : Instruction) :
    copyExactStep V S = some (S.withFlags (copyExactWord V S.opcode S.SubclassOptionalData)) := by
  by_cases hv : V.isaPossiblyExactOperator = true <;>
    by_cases hs : PossiblyExactOperator.classof S.opcode = true <;>
    simp [copyExactStep, copyExactWord, hv, hs, setIsExact] <;> rfl

theorem copyFastMathStep_eq (V : Value) (S : Instruction) :
    copyFastMathStep V S =
      some (S.withFlags (copyFastMathWord V S.opcode S.ty S.SubclassOptionalData)) := by
  by_cases hv : V.isaFPMathOperator = true <;>
    by_cases hs : FPMathOperator.classof S.opcode S.ty = true <;>
    simp [copyFastMathStep, copyFastMathWord, hv, hs, isaFPMathOperator, copyFastMathFlags] <;>
    rfl

theorem copyInBoundsStep_eq (V : Value) (S : Instruction) :
    copyInBoundsStep V S =
      some (S.withFlags (copyInBoundsWord V S.opcode S.SubclassOptionalData)) := by
  by_cases hv : V.isaGetElementPtrInst = true <;>
    by_cases hs : S.opcode = Opcode.GetElementPtr <;>
    simp [copyInBoundsStep, copyInBoundsWord, hv, hs, isInBounds, setIsInBounds] <;> rfl

theorem copyNonNegStep_eq (V : Value) (S : Instruction) :
    copyNonNegStep V S =
      some (S.withFlags (copyNonNegWord V S.opcode S.SubclassOptionalData)) := by
  by_cases hv : V.isaPossiblyNonNegInst = true <;>
    by_cases hs : PossiblyNonNegInst.classof S.opcode = true <;>
    simp [copyNonNegStep, copyNonNegWord, hv, hs, setNonNeg] <;> rfl

/-- Closed form of `copyIRFlags`: no accessor fails and only the flag word
changes. -/
theorem copyIRFlags_eq (S : Instruction) (V : Value) (b : Bool) :
    S.copyIRFlags V b = some (S.withFlags (copiedWord S V b)) := by
  rw [copyIRFlags_unfold, copyWrapStep_eq]
  simp only [Option.some_bind, copyExactStep_eq, copyFastMathStep_eq, copyInBoundsStep_eq,
    copyNonNegStep_eq, withFlags_opcode, withFlags_ty, withFlags_flags, withFlags_withFlags,
    copiedWord]

theorem copiedWord_of_overflowing (S : Instruction) (V : Value) (b : Bool)
    (h : OverflowingBinaryOperator.classof S.opcode = true) :
    copiedWord S V b = copyWrapWord V b S.opcode S.SubclassOptionalData := by
  rcases capability_cases S.opcode S.ty with c | c | c | c | c | c <;>
    obtain ⟨h1, h2, h3, h4, h5, h6⟩ := c <;>
    first
    | (rw [h1] at h; exact absurd h (by decide))
    | simp [copiedWord, copyExactWord, copyFastMathWord, copyInBoundsWord, copyNonNegWord, h2, h3, h5, h6]

theorem copiedWord_of_exact (S : Instruction) (V : Value) (b : Bool)
    (h : PossiblyExactOperator.classof S.opcode = true) :
    copiedWord S V b = copyExactWord V S.opcode S.SubclassOptionalData := by
  rcases capability_cases S.opcode S.ty with c | c | c | c | c | c <;>
    obtain ⟨h1, h2, h3, h4, h5, h6⟩ := c <;>
    first
    | (rw [h2] at h; exact absurd h (by decide))
    | simp [copiedWord, copyWrapWord, copyFastMathWord, copyInBoundsWord, copyNonNegWord, h1, h3, h5, h6]

theorem copiedWord_of_fpmath (S : Instruction) (V : Value) (b : Bool)
    (h : S.isaFPMathOperator = true) :
    copiedWord S V b = copyFastMathWord V S.opcode S.ty S.SubclassOptionalData := by
  unfold isaFPMathOperator at h
  rcases capability_cases S.opcode S.ty with c | c | c | c | c | c <;>
    obtain ⟨h1, h2, h3, h4, h5, h6⟩ := c <;>
    first
    | (rw [h6] at h; exact absurd h (by decide))
    | simp [copiedWord, copyWrapWord, copyExactWord, copyInBoundsWord, copyNonNegWord, h1, h2, h3, h5]

theorem copiedWord_of_gep (S : Instruction) (V : Value) (b : Bool)
    (h : S.opcode = Opcode.GetElementPtr) :
    copiedWord S V b = copyInBoundsWord V S.opcode S.SubclassOptionalData := by
  rcases capability_cases S.opcode S.ty with c | c | c | c | c | c <;>
    obtain ⟨h1, h2, h3, h4, h5, h6⟩ := c <;>
    first
    | (exact absurd h h3)
    | simp [copiedWord, copyWrapWord, copyExactWord, copyFastMathWord, copyNonNegWord, h1, h2, h5, h6]

theorem copiedWord_of_zext (S : Instruction) (V : Value) (b : Bool)
    (h : S.opcode = Opcode.ZExt) :
    copiedWord S V b = copyNonNegWord V S.opcode S.SubclassOptionalData := by
  rcases capability_cases S.opcode S.ty with c | c | c | c | c | c <;>
    obtain ⟨h1, h2, h3, h4, h5, h6⟩ := c <;>
    first
    | (exact absurd h h4)
    | simp [copiedWord, copyWrapWord, copyExactWord, copyFastMathWord, copyInBoundsWord, h1, h2, h3, h6]

theorem copiedWord_of_incapable (S : Instruction) (V : Value) (b : Bool)
    (h1 : OverflowingBinaryOperator.classof S.opcode = false)
    (h2 : PossiblyExactOperator.classof S.opcode = false)
    (h3 : S.opcode ≠ Opcode.GetElementPtr) (h4 : S.opcode ≠ Opcode.ZExt)
    (h6 : S.isaFPMathOperator = false) :
    copiedWord S V b = S.SubclassOptionalData := by
  have h5 : PossiblyNonNegInst.classof S.opcode = false := by
    cases hop : S.opcode <;> simp_all [PossiblyNonNegInst.classof]
  unfold isaFPMathOperator at h6
  simp [copiedWord, copyWrapWord, copyExactWord, copyFastMathWord, copyInBoundsWord,
    copyNonNegWord, h1, h2, h3, h5, h6]

theorem copy_wrap_word : ∀ (w : Fin 128) (b1 b2 : Bool),
    OverflowingBinaryOperator.hasNoSignedWrap
        (OverflowingBinaryOperator.setHasNoUnsignedWrap
          (OverflowingBinaryOperator.setHasNoSignedWrap w b1) b2) = b1 ∧
    OverflowingBinaryOperator.hasNoUnsignedWrap
        (OverflowingBinaryOperator.setHasNoUnsignedWrap
          (OverflowingBinaryOperator.setHasNoSignedWrap w b1) b2) = b2 := by
  decide

theorem copy_exact_word : ∀ (w : Fin 128) (b : Bool),
    PossiblyExactOperator.isExact (PossiblyExactOperator.setIsExact w b) = b := by
  decide

theorem copy_inbounds_word : ∀ (w : Fin 128) (b : Bool),
    GEPOperator.isInBounds (GEPOperator.setIsInBounds w b) = b := by
  decide

theorem copy_nonneg_word : ∀ (w : Fin 128) (b : Bool),
    testFlag (assignFlag w PossiblyNonNegInst.NonNeg b) PossiblyNonNegInst.NonNeg = b := by
  decide

theorem copy_fastmath_word (v : Fin 128) :
    FPMathOperator.copyFastMathFlags (FPMathOperator.getFastMathFlags v) = v := by
  apply Fin.ext
  simp [FPMathOperator.copyFastMathFlags, FPMathOperator.getFastMathFlags, toFlagWord,
    Nat.mod_eq_of_lt v.isLt]

/-- C10 fails as stated: copying the flags of a getelementptr without
in-bounds onto a getelementptr that has in-bounds leaves in-bounds set on the
destination, so the destination's in-bounds flag does not equal the source's
(with and without the wrap flags included). -/
theorem copyIRFlags_inbounds_not_copied :
    gepInBounds.opcode = Opcode.GetElementPtr ∧
    (Value.inst gepPlain).isaGetElementPtrInst = true ∧
    gepPlain.isInBounds = some false ∧
    (gepInBounds.copyIRFlags (Value.inst gepPlain) true).bind isInBounds = some true ∧
    (gepInBounds.copyIRFlags (Value.inst gepPlain) false).bind isInBounds = some true := by
  decide

/-- C10 (amended): `copyIRFlags` runs to completion and changes the flag word
only.  For a capability that `S` and `V` share: exact, the fast-math flags and
zext non-negative on `S` become those of `V`; nsw and nuw become those of `V`
when `IncludeWrapFlags` is true and `S` is unchanged when it is false;
getelementptr in-bounds is set afterwards iff it is set on `V` or was set on
`S`; every other bit of the word is kept.  When `V` does not share the
capability of `S` (or `S` has none) `S` is unchanged. -/
theorem copyIRFlags_copies (S : Instruction) (V : Value) (IncludeWrapFlags : Bool) :
    ∃ S', S.copyIRFlags V IncludeWrapFlags = some S' ∧
      S' = S.withFlags S'.SubclassOptionalData ∧
      (OverflowingBinaryOperator.classof S.opcode = true →
        V.isaOverflowingBinaryOperator = true → IncludeWrapFlags = true →
        S'.hasNoSignedWrap = some
          (OverflowingBinaryOperator.hasNoSignedWrap V.getSubclassOptionalData) ∧
        S'.hasNoUnsignedWrap = some
          (OverflowingBinaryOperator.hasNoUnsignedWrap V.getSubclassOptionalData) ∧
        ∀ k, 2 ^ k ≠ OverflowingBinaryOperator.NoUnsignedWrap →
          2 ^ k ≠ OverflowingBinaryOperator.NoSignedWrap →
          S'.SubclassOptionalData.val.testBit k = S.SubclassOptionalData.val.testBit k) ∧
      (OverflowingBinaryOperator.classof S.opcode = true → IncludeWrapFlags = false → S' = S) ∧
      (PossiblyExactOperator.classof S.opcode = true → V.isaPossiblyExactOperator = true →
        S'.isExact = some (PossiblyExactOperator.isExact V.getSubclassOptionalData) ∧
        ∀ k, 2 ^ k ≠ PossiblyExactOperator.IsExact →
          S'.SubclassOptionalData.val.testBit k = S.SubclassOptionalData.val.testBit k) ∧
      (S.opcode = Opcode.GetElementPtr → V.isaGetElementPtrInst = true →
        S'.isInBounds = some
          (GEPOperator.isInBounds V.getSubclassOptionalData ||
            GEPOperator.isInBounds S.SubclassOptionalData) ∧
        ∀ k, 2 ^ k ≠ GEPOperator.IsInBounds →
          S'.SubclassOptionalData.val.testBit k = S.SubclassOptionalData.val.testBit k) ∧
      (S.opcode = Opcode.ZExt → V.isaPossiblyNonNegInst = true →
        S'.hasNonNeg = some (testFlag V.getSubclassOptionalData PossiblyNonNegInst.NonNeg) ∧
        ∀ k, 2 ^ k ≠ PossiblyNonNegInst.NonNeg →
          S'.SubclassOptionalData.val.testBit k = S.SubclassOptionalData.val.testBit k) ∧
      (S.isaFPMathOperator = true → V.isaFPMathOperator = true →
        S'.getFastMathFlags = some (FPMathOperator.getFastMathFlags V.getSubclassOptionalData)) ∧
      (OverflowingBinaryOperator.classof S.opcode = true →
        V.isaOverflowingBinaryOperator = false → S' = S) ∧
      (PossiblyExactOperator.classof S.opcode = true →
        V.isaPossiblyExactOperator = false → S' = S) ∧
      (S.opcode = Opcode.GetElementPtr → V.isaGetElementPtrInst = false → S' = S) ∧
      (S.opcode = Opcode.ZExt → V.isaPossiblyNonNegInst = false → S' = S) ∧
      (S.isaFPMathOperator = true → V.isaFPMathOperator = false → S' = S) ∧
      (OverflowingBinaryOperator.classof S.opcode = false →
        PossiblyExactOperator.classof S.opcode = false →
        S.opcode ≠ Opcode.GetElementPtr → S.opcode ≠ Opcode.ZExt →
        S.isaFPMathOperator = false → S' = S) := by
  refine ⟨_, copyIRFlags_eq S V IncludeWrapFlags, rfl, ?_, ?_, ?_, ?_, ?_, ?_, ?_, ?_, ?_, ?_,
    ?_, ?_⟩
  · intro h hv hb
    rw [copiedWord_of_overflowing S V _ h]
    simp only [copyWrapWord, hv, h, hb, and_self, if_true]
    refine ⟨?_, ?_, fun k h0 h1 => assignWrap_other_bits _ _ _ k h0 h1⟩
    · simp [hasNoSignedWrap, h, (copy_wrap_word _ _ _).1]
    · simp [hasNoUnsignedWrap, h, (copy_wrap_word _ _ _).2]
  · intro h hb
    rw [copiedWord_of_overflowing S V _ h]
    simp [copyWrapWord, hb]
    rfl
  · intro h hv
    rw [copiedWord_of_exact S V _ h]
    simp only [copyExactWord, hv, h, and_self, if_true]
    refine ⟨?_, fun k h0 => assignFlag_other_bits _ 0 (by decide) _ k h0⟩
    simp [isExact, h, copy_exact_word]
  · intro h hv
    rw [copiedWord_of_gep S V _ h]
    simp only [copyInBoundsWord, hv, h, and_self, if_true]
    refine ⟨?_, fun k h0 => assignFlag_other_bits _ 0 (by decide) _ k h0⟩
    simp [isInBounds, h, copy_inbounds_word]
  · intro h hv
    rw [copiedWord_of_zext S V _ h]
    have hc : PossiblyNonNegInst.classof S.opcode = true := by rw [h]; rfl
    simp only [copyNonNegWord, hv, hc, and_self, if_true]
    refine ⟨?_, fun k h0 => assignFlag_other_bits _ 0 (by decide) _ k h0⟩
    simp [hasNonNeg, hc, copy_nonneg_word]
  · intro h hv
    rw [copiedWord_of_fpmath S V _ h]
    have hc : FPMathOperator.classof S.opcode S.ty = true := h
    simp only [copyFastMathWord, hv, hc, and_self, if_true, copy_fastmath_word]
    have h' : (S.withFlags V.getSubclassOptionalData).isaFPMathOperator = true := h
    simp only [getFastMathFlags, h', if_true, withFlags_flags]
  · intro h hv
    rw [copiedWord_of_overflowing S V _ h]
    simp [copyWrapWord, hv]
    rfl
  · intro h hv
    rw [copiedWord_of_exact S V _ h]
    simp [copyExactWord, hv]
    rfl
  · intro h hv
    rw [copiedWord_of_gep S V _ h]
    simp [copyInBoundsWord, hv]
    rfl
  · intro h hv
    rw [copiedWord_of_zext S V _ h]
    simp [copyNonNegWord, hv]
    rfl
  · intro h hv
    rw [copiedWord_of_fpmath S V _ h]
    simp [copyFastMathWord, hv]
    rfl
  · intro h1 h2 h3 h4 h6
    rw [copiedWord_of_incapable S V _ h1 h2 h3 h4 h6]
    rfl

/-! ### Equivalence predicates -/

theorem stdEqual_refl {α : Type} [DecidableEq α] (l : List α) : stdEqual l l = true := by
  induction l with
  | nil => rfl
  | cons a l ih => simp [stdEqual, ih]

theorem stdEqual_iff {α : Type} [DecidableEq α] (l1 l2 : List α)
    (h : l1.length = l2.length) : stdEqual l1 l2 = true ↔ l1 = l2 := by
  induction l1 generalizing l2 with
  | nil =>
    cases l2 with
    | nil => simp [stdEqual]
    | cons b l2 => simp at h
  | cons a l1 ih =>
    cases l2 with
    | nil => simp at h
    | cons b l2 =>
      have hl : l1.length = l2.length := by simpa using h
      simp [stdEqual, ih l2 hl]

theorem list_eq_iff_getElem? {α : Type} (l1 l2 : List α) (h : l1.length = l2.length) :
    l1 = l2 ↔ ∀ i, i < l1.length → l1[i]? = l2[i]? := by
  constructor
  · intro e i _
    rw [e]
  · intro hp
    apply List.ext_getElem? 
    intro i
    by_cases hi : i < l1.length
    · exact hp i hi
    · have h1 : l1[i]? = none := List.getElem?_eq_none (by omega)
      have h2 : l2[i]? = none := List.getElem?_eq_none (by omega)
      rw [h1, h2]

/-- Between instructions of one opcode `hasSameSpecialState` always returns. -/
theorem hasSameSpecialState_total (I1 I2 : Instruction) (ign : Bool)
    (h : I1.opcode = I2.opcode) :
    I1.hasSameSpecialState I2 ign = some true ∨ I1.hasSameSpecialState I2 ign = some false := by
  unfold hasSameSpecialState
  rw [if_neg (not_not.mpr h)]
  have key : ∀ b : Bool, some b = some true ∨ some b = some false := by
    intro b
    cases b <;> simp
  split <;> exact key _

theorem hasSameSpecialState_phi (I1 I2 : Instruction) (ign : Bool)
    (h1 : I1.opcode = Opcode.PHI) (h2 : I2.opcode = Opcode.PHI) :
    I1.hasSameSpecialState I2 ign = some true := by
  unfold hasSameSpecialState
  rw [if_neg (by rw [h1, h2]; simp), h1]

/-- Characterisation of the two identity predicates, shared by the results
below. -/
theorem identical_characterisation (A B : Instruction)
    (hA : A.opcode = Opcode.PHI → A.blocks.length = A.operands.length)
    (hB : B.opcode = Opcode.PHI → B.blocks.length = B.operands.length) :
    (A.isIdenticalToWhenDefined B = some true ↔
      A.opcode = B.opcode ∧ A.getNumOperands = B.getNumOperands ∧ A.ty = B.ty ∧
      (∀ i, i < A.getNumOperands → A.operands[i]? = B.operands[i]?) ∧
      (A.opcode = Opcode.PHI → A.blocks = B.blocks) ∧
      A.hasSameSpecialState B false = some true) ∧
    (A.isIdenticalTo B = some true ↔
      A.isIdenticalToWhenDefined B = some true ∧
        A.SubclassOptionalData = B.SubclassOptionalData) ∧
    (A.isIdenticalToWhenDefined B = some true ∨ A.isIdenticalToWhenDefined B = some false) ∧
    (A.isIdenticalTo B = some true ∨ A.isIdenticalTo B = some false) := by
  have hbool : ∀ b : Bool, some b = some true ∨ some b = some false := by
    intro b
    cases b <;> simp
  have htotal : A.isIdenticalToWhenDefined B = some true ∨
      A.isIdenticalToWhenDefined B = some false := by
    unfold isIdenticalToWhenDefined
    split
    · exact Or.inr rfl
    · rename_i hne
      have hop : A.opcode = B.opcode := by
        by_contra hc
        exact hne (Or.inl hc)
      split
      · exact hasSameSpecialState_total A B false hop
      · split
        · exact Or.inr rfl
        · split
          · exact hbool _
          · exact hasSameSpecialState_total A B false hop
  refine ⟨?_, ?_, htotal, ?_⟩
  · unfold isIdenticalToWhenDefined
    by_cases hop : A.opcode = B.opcode
    swap
    · simp [hop]
    by_cases hn : A.getNumOperands = B.getNumOperands
    swap
    · simp [hn]
    by_cases ht : A.ty = B.ty
    swap
    · simp [ht]
    have hlen : A.operands.length = B.operands.length := hn
    rw [if_neg (by simp [hop, hn, ht])]
    by_cases h0 : A.getNumOperands = 0
    · have h0' : B.getNumOperands = 0 := by rw [← hn]; exact h0
      rw [if_pos ⟨h0, h0'⟩]
      have hAe : A.operands = [] := List.length_eq_zero.mp h0
      have hBe : B.operands = [] := List.length_eq_zero.mp h0'
      constructor
      · intro h
        refine ⟨hop, hn, ht, ?_, ?_, h⟩
        · intro i _
          rw [hAe, hBe]
        · intro hphi
          have h1 : A.blocks = [] := by
            apply List.length_eq_zero.mp
            rw [hA hphi, hAe]
            rfl
          have h2 : B.blocks = [] := by
            apply List.length_eq_zero.mp
            rw [hB (hop ▸ hphi), hBe]
            rfl
          rw [h1, h2]
      · intro h
        exact h.2.2.2.2.2
    · rw [if_neg (by intro hc; exact h0 hc.1)]
      by_cases he : stdEqual A.operands B.operands = true
      · have hops : A.operands = B.operands := (stdEqual_iff _ _ hlen).mp he
        rw [if_neg (by simp [he])]
        by_cases hphi : A.opcode = Opcode.PHI
        · rw [if_pos hphi]
          have hbl : A.blocks.length = B.blocks.length := by
            rw [hA hphi, hB (hop ▸ hphi), hlen]
          constructor
          · intro h
            simp only [Option.some.injEq] at h
            refine ⟨hop, hn, ht, ?_, fun _ => (stdEqual_iff _ _ hbl).mp h,
              hasSameSpecialState_phi A B false hphi (hop ▸ hphi)⟩
            intro i _
            rw [hops]
          · intro h
            rw [h.2.2.2.2.1 hphi, stdEqual_refl]
        · rw [if_neg hphi]
          constructor
          · intro h
            refine ⟨hop, hn, ht, ?_, fun hc => absurd hc hphi, h⟩
            intro i _
            rw [hops]
          · intro h
            exact h.2.2.2.2.2
      · rw [if_pos (by simp [he])]
        constructor
        · intro h
          exact absurd h (by simp)
        · intro h
          exfalso
          apply he
          rw [stdEqual_iff _ _ hlen]
          exact (list_eq_iff_getElem? _ _ hlen).mpr h.2.2.2.1
  · unfold isIdenticalTo
    rcases htotal with h | h <;> rw [h] <;> simp
  · unfold isIdenticalTo
    rcases htotal with h | h <;> rw [h]
    · exact hbool _
    · exact Or.inr rfl

/-- C1: for phi nodes carrying one incoming block per operand,
`isIdenticalToWhenDefined` always returns, and returns true iff opcode,
operand count and result type agree, the operands are the same values index
by index, the incoming-block sequences are equal when the instruction is a
phi, and `hasSameSpecialState` holds; `isIdenticalTo` is true iff
`isIdenticalToWhenDefined` is true and the flag words are equal. -/
theorem isIdenticalTo_iff (A B : Instruction)
    (hA : A.opcode = Opcode.PHI → A.blocks.length = A.operands.length)
    (hB : B.opcode = Opcode.PHI → B.blocks.length = B.operands.length) :
    (A.isIdenticalToWhenDefined B = some true ↔
      A.opcode = B.opcode ∧ A.getNumOperands = B.getNumOperands ∧ A.ty = B.ty ∧
      (∀ i, i < A.getNumOperands → A.operands[i]? = B.operands[i]?) ∧
      (A.opcode = Opcode.PHI → A.blocks = B.blocks) ∧
      A.hasSameSpecialState B false = some true) ∧
    (A.isIdenticalTo B = some true ↔
      A.isIdenticalToWhenDefined B = some true ∧
        A.SubclassOptionalData = B.SubclassOptionalData) ∧
    (A.isIdenticalToWhenDefined B = some true ∨ A.isIdenticalToWhenDefined B = some false) ∧
    (A.isIdenticalTo B = some true ∨ A.isIdenticalTo B = some false) :=
  identical_characterisation A B hA hB

/-- Witness for C1: two phi nodes with one incoming block per operand. -/
theorem isIdenticalTo_iff_witness :
    (phiA.opcode = Opcode.PHI → phiA.blocks.length = phiA.operands.length) ∧
    (phiB.opcode = Opcode.PHI → phiB.blocks.length = phiB.operands.length) ∧
    (phiA.isIdenticalTo phiB = some true ↔
      phiA.isIdenticalToWhenDefined phiB = some true ∧
        phiA.SubclassOptionalData = phiB.SubclassOptionalData) :=
  ⟨by decide, by decide, (isIdenticalTo_iff phiA phiB (by decide) (by decide)).2.1⟩

theorem operandTypesDifferFrom_false_iff (u : Bool) (A I : Instruction) (n : Nat) :
    ∀ i, operandTypesDifferFrom u A I i n = false ↔
      ∀ j, i ≤ j → j < i + n → ∀ a b, A.operands[j]? = some a → I.operands[j]? = some b →
        typesDiffer u a.ty b.ty = false := by
  induction n with
  | zero =>
    intro i
    simp only [operandTypesDifferFrom, true_iff]
    intro j h1 h2
    omega
  | succ n ih =>
    intro i
    have hstep : ∀ (P : Nat → Prop), (∀ j, i ≤ j → j < i + (n + 1) → P j) ↔
        (P i ∧ ∀ j, i + 1 ≤ j → j < i + 1 + n → P j) := by
      intro P
      constructor
      · intro h
        exact ⟨h i (Nat.le_refl i) (by omega), fun j h1 h2 => h j (by omega) (by omega)⟩
      · intro h j h1 h2
        by_cases hj : j = i
        · rw [hj]
          exact h.1
        · exact h.2 j (by omega) (by omega)
    rw [hstep]
    unfold operandTypesDifferFrom
    cases hA : A.operands[i]? with
    | none =>
      simp only [ih (i + 1)]
      constructor
      · intro h
        exact ⟨fun a b ha => by simp at ha, h⟩
      · intro h
        exact h.2
    | some a =>
      cases hI : I.operands[i]? with
      | none =>
        simp only [ih (i + 1)]
        constructor
        · intro h
          exact ⟨fun a b _ hb => by simp at hb, h⟩
        · intro h
          exact h.2
      | some b =>
        simp only []
        by_cases hd : typesDiffer u a.ty b.ty = true
        · simp only [hd, if_true]
          constructor
          · intro h
            exact absurd h (by simp)
          · intro h
            have := h.1 a b rfl rfl
            rw [hd] at this
            exact absurd this (by simp)
        · have hd' : typesDiffer u a.ty b.ty = false := by simpa using hd
          simp only [hd', Bool.false_eq_true, if_false, ih (i + 1)]
          constructor
          · intro h
            refine ⟨?_, h⟩
            intro a' b' ha hb
            simp only [Option.some.injEq] at ha hb
            rw [← ha, ← hb]
            exact hd'
          · intro h
            exact h.2

theorem typesDiffer_false_iff (u : Bool) (a b : Ty) :
    typesDiffer u a b = false ↔
      (if u = true then a.getScalarType = b.getScalarType else a = b) := by
  cases u <;> simp [typesDiffer]

/-- The result of `isSameOperationAs` in terms of the operand types only. -/
theorem isSameOperationAs_iff_aux (A B : Instruction) (flags : Nat) :
    (A.isSameOperationAs B flags = some true ↔
      A.opcode = B.opcode ∧ A.getNumOperands = B.getNumOperands ∧
      typesDiffer ((flags &&& CompareUsingScalarTypes) != 0) A.ty B.ty = false ∧
      (∀ (j : Nat) (a b : Operand), A.operands[j]? = some a → B.operands[j]? = some b →
        typesDiffer ((flags &&& CompareUsingScalarTypes) != 0) a.ty b.ty = false) ∧
      A.hasSameSpecialState B ((flags &&& CompareIgnoringAlignment) != 0) = some true) ∧
    (A.isSameOperationAs B flags = some true ∨ A.isSameOperationAs B flags = some false) := by
  unfold isSameOperationAs
  simp only []
  by_cases hop : A.opcode = B.opcode
  swap
  · simp [hop]
  by_cases hn : A.getNumOperands = B.getNumOperands
  swap
  · simp [hn]
  by_cases ht : typesDiffer ((flags &&& CompareUsingScalarTypes) != 0) A.ty B.ty = true
  · simp [ht]
  have ht' : typesDiffer ((flags &&& CompareUsingScalarTypes) != 0) A.ty B.ty = false := by
    simpa using ht
  rw [if_neg (by simp [hop, hn, ht'])]
  by_cases hd : operandTypesDifferFrom ((flags &&& CompareUsingScalarTypes) != 0) A B 0
      A.getNumOperands = true
  · rw [if_pos hd]
    refine ⟨?_, Or.inr rfl⟩
    constructor
    · intro h
      exact absurd h (by simp)
    · intro h
      exfalso
      have hf : operandTypesDifferFrom ((flags &&& CompareUsingScalarTypes) != 0) A B 0
          A.getNumOperands = false := by
        rw [operandTypesDifferFrom_false_iff]
        intro j _ _ a b ha hb
        exact h.2.2.2.1 j a b ha hb
      rw [hf] at hd
      exact absurd hd (by simp)
  · rw [if_neg hd]
    have hf : operandTypesDifferFrom ((flags &&& CompareUsingScalarTypes) != 0) A B 0
        A.getNumOperands = false := by simpa using hd
    refine ⟨?_, hasSameSpecialState_total A B _ hop⟩
    constructor
    · intro h
      refine ⟨hop, hn, ht', ?_, h⟩
      intro j a b ha hb
      have hj : j < A.operands.length := by
        by_contra hc
        have : A.operands[j]? = none := List.getElem?_eq_none (by omega)
        rw [this] at ha
        exact absurd ha (by simp)
      exact (operandTypesDifferFrom_false_iff _ A B _ 0).mp hf j (Nat.zero_le j)
        (by simpa [getNumOperands] using hj) a b ha hb
    · intro h
      exact h.2.2.2.2

/-- C2: `isSameOperationAs` always returns, and returns true iff the opcodes
are equal, the operand counts are equal, the result types are equal (their
scalar types when the use-scalar-types flag is set), the operand types are
equal index by index under the same rule, and `hasSameSpecialState` holds with
`IgnoreAlignment` set exactly when the ignore-alignment flag is set.  The
operand values play no part: replacing the operands of either instruction by
operands of the same types does not change the result. -/
theorem isSameOperationAs_iff (A B : Instruction) (flags : Nat) :
    (A.isSameOperationAs B flags = some true ↔
      A.opcode = B.opcode ∧ A.getNumOperands = B.getNumOperands ∧
      (if flags &&& CompareUsingScalarTypes ≠ 0 then A.ty.getScalarType = B.ty.getScalarType
        else A.ty = B.ty) ∧
      (∀ (i : Nat) (a b : Operand), A.operands[i]? = some a → B.operands[i]? = some b →
        if flags &&& CompareUsingScalarTypes ≠ 0 then a.ty.getScalarType = b.ty.getScalarType
        else a.ty = b.ty) ∧
      A.hasSameSpecialState B (decide (flags &&& CompareIgnoringAlignment ≠ 0)) = some true) ∧
    (A.isSameOperationAs B flags = some true ∨ A.isSameOperationAs B flags = some false) ∧
    (∀ opsA opsB : List Operand,
      opsA.map Operand.ty = A.operands.map Operand.ty →
      opsB.map Operand.ty = B.operands.map Operand.ty →
      isSameOperationAs { A with operands := opsA } { B with operands := opsB } flags =
        A.isSameOperationAs B flags) := by
  have hu : ∀ a b : Ty, typesDiffer ((flags &&& CompareUsingScalarTypes) != 0) a b = false ↔
      (if flags &&& CompareUsingScalarTypes ≠ 0 then a.getScalarType = b.getScalarType
        else a = b) := by
    intro a b
    rw [typesDiffer_false_iff]
    simp
  have hi : ((flags &&& CompareIgnoringAlignment) != 0) =
      decide (flags &&& CompareIgnoringAlignment ≠ 0) := by
    by_cases h : flags &&& CompareIgnoringAlignment = 0 <;> simp [h, bne]
  have haux := isSameOperationAs_iff_aux A B flags
  refine ⟨?_, haux.2, ?_⟩
  · rw [haux.1, hu, hi]
    simp only [hu]
  · intro opsA opsB hA hB
    have haux' := isSameOperationAs_iff_aux { A with operands := opsA }
      { B with operands := opsB } flags
    have hss : hasSameSpecialState { A with operands := opsA } { B with operands := opsB }
        ((flags &&& CompareIgnoringAlignment) != 0) =
        A.hasSameSpecialState B ((flags &&& CompareIgnoringAlignment) != 0) := rfl
    have hlenA : opsA.length = A.operands.length := by
      have := congrArg List.length hA
      simpa using this
    have hlenB : opsB.length = B.operands.length := by
      have := congrArg List.length hB
      simpa using this
    have hty : ∀ (l1 l2 : List Operand) (j : Nat) (a : Operand),
        l1.map Operand.ty = l2.map Operand.ty → l1[j]? = some a →
        ∃ a', l2[j]? = some a' ∧ a'.ty = a.ty := by
      intro l1 l2 j a hm ha
      have h1 : (l1.map Operand.ty)[j]? = some a.ty := by
        rw [List.getElem?_map, ha]
        rfl
      rw [hm, List.getElem?_map] at h1
      cases h2 : l2[j]? with
      | none => rw [h2] at h1; exact absurd h1 (by simp)
      | some a' =>
        rw [h2] at h1
        simp only [Option.map_some', Option.some.injEq] at h1
        exact ⟨a', rfl, h1⟩
    have hequiv : (isSameOperationAs { A with operands := opsA } { B with operands := opsB }
        flags = some true) ↔ (A.isSameOperationAs B flags = some true) := by
      rw [haux'.1, haux.1, hss]
      simp only [getNumOperands, hlenA, hlenB]
      constructor
      · rintro ⟨h1, h2, h3, h4, h5⟩
        refine ⟨h1, h2, h3, ?_, h5⟩
        intro j a b ha hb
        obtain ⟨a', ha', hta⟩ := hty _ _ j a hA.symm ha
        obtain ⟨b', hb', htb⟩ := hty _ _ j b hB.symm hb
        have := h4 j a' b' ha' hb'
        rw [hta, htb] at this
        exact this
      · rintro ⟨h1, h2, h3, h4, h5⟩
        refine ⟨h1, h2, h3, ?_, h5⟩
        intro j a b ha hb
        obtain ⟨a', ha', hta⟩ := hty _ _ j a hA ha
        obtain ⟨b', hb', htb⟩ := hty _ _ j b hB hb
        have := h4 j a' b' ha' hb'
        rw [hta, htb] at this
        exact this
    rcases haux'.2 with h1 | h1 <;> rcases haux.2 with h2 | h2
    · rw [h1, h2]
    · rw [hequiv.mp h1] at h2
      exact absurd h2 (by simp)
    · rw [hequiv.mpr h2] at h1
      exact absurd h1 (by simp)
    · rw [h1, h2]

/-- C3: between two instructions of the same opcode `hasSameSpecialState`
returns; on allocas it is true iff the allocated types are equal and the
alignments are equal or `IgnoreAlignment` is set; on loads, and on stores, it
is true iff volatility, ordering and synchronization scope are equal and the
alignments are equal or `IgnoreAlignment` is set.  When the two instructions
differ in alignment only, the result is false exactly when `IgnoreAlignment`
is false. -/
theorem hasSameSpecialState_memory (I1 I2 : Instruction) (IgnoreAlignment : Bool)
    (h : I1.opcode = I2.opcode) :
    (I1.opcode = Opcode.Alloca →
      (I1.hasSameSpecialState I2 IgnoreAlignment = some true ↔
        I1.allocatedType = I2.allocatedType ∧
          (I1.align = I2.align ∨ IgnoreAlignment = true))) ∧
    (I1.opcode = Opcode.Load ∨ I1.opcode = Opcode.Store →
      (I1.hasSameSpecialState I2 IgnoreAlignment = some true ↔
        I1.isVolatile = I2.isVolatile ∧ I1.ordering = I2.ordering ∧
          I1.syncScopeID = I2.syncScopeID ∧
          (I1.align = I2.align ∨ IgnoreAlignment = true))) ∧
    (I1.hasSameSpecialState I2 IgnoreAlignment = some true ∨
      I1.hasSameSpecialState I2 IgnoreAlignment = some false) ∧
    (I1.opcode = Opcode.Alloca ∨ I1.opcode = Opcode.Load ∨ I1.opcode = Opcode.Store →
      I1.allocatedType = I2.allocatedType → I1.isVolatile = I2.isVolatile →
      I1.ordering = I2.ordering → I1.syncScopeID = I2.syncScopeID →
      I1.align ≠ I2.align →
      (I1.hasSameSpecialState I2 IgnoreAlignment = some false ↔ IgnoreAlignment = false)) := by
  have hne : ¬ I1.opcode ≠ I2.opcode := not_not.mpr h
  refine ⟨?_, ?_, hasSameSpecialState_total I1 I2 _ h, ?_⟩
  · intro hop
    unfold hasSameSpecialState
    rw [if_neg hne, hop]
    simp
  · intro hop
    unfold hasSameSpecialState
    rw [if_neg hne]
    rcases hop with hop | hop <;> rw [hop] <;> simp <;> tauto
  · intro hop ht hv ho hs ha
    unfold hasSameSpecialState
    rw [if_neg hne]
    rcases hop with hop | hop | hop <;> rw [hop] <;> simp [ht, hv, ho, hs, ha]

/-- Witness for C3: two loads that differ in alignment only. -/
theorem hasSameSpecialState_memory_witness :
    loadAlign4.opcode = loadAlign8.opcode ∧
    (loadAlign4.hasSameSpecialState loadAlign8 false = some false ↔ false = false) ∧
    (loadAlign4.hasSameSpecialState loadAlign8 true = some false ↔ true = false) :=
  ⟨rfl,
    (hasSameSpecialState_memory loadAlign4 loadAlign8 false rfl).2.2.2
      (Or.inr (Or.inl rfl)) rfl rfl rfl rfl (by decide),
    (hasSameSpecialState_memory loadAlign4 loadAlign8 true rfl).2.2.2
      (Or.inr (Or.inl rfl)) rfl rfl rfl rfl (by decide)⟩

/-- C4 fails as stated: each pair below is two calls of the same callee with
equal attribute list, calling convention and operand-bundle schema, whose
single arguments have the same type and differ in value; `isSameOperationAs`
is false for the pair that differs in the tail-call marker, for the pair that
differs in result type, and for the pair whose bundle operands differ in
type. -/
theorem call_same_operation_counterexample :
    (callPlain.opcode = Opcode.Call ∧ callTail.opcode = Opcode.Call ∧
      callPlain.operands = [⟨1, Ty.integer 32⟩] ++ [] ++ [⟨100, Ty.pointer 0⟩] ∧
      callTail.operands = [⟨2, Ty.integer 32⟩] ++ [] ++ [⟨100, Ty.pointer 0⟩] ∧
      callPlain.attributes = callTail.attributes ∧
      callPlain.callingConv = callTail.callingConv ∧
      callPlain.hasIdenticalOperandBundleSchema callTail = true ∧
      callPlain.isSameOperationAs callTail 0 = some false) ∧
    (callPlain.opcode = Opcode.Call ∧ callWide.opcode = Opcode.Call ∧
      callPlain.operands = [⟨1, Ty.integer 32⟩] ++ [] ++ [⟨100, Ty.pointer 0⟩] ∧
      callWide.operands = [⟨2, Ty.integer 32⟩] ++ [] ++ [⟨100, Ty.pointer 0⟩] ∧
      callPlain.attributes = callWide.attributes ∧
      callPlain.callingConv = callWide.callingConv ∧
      callPlain.hasIdenticalOperandBundleSchema callWide = true ∧
      callPlain.isSameOperationAs callWide 0 = some false) ∧
    (callBundle32.opcode = Opcode.Call ∧ callBundle64.opcode = Opcode.Call ∧
      callBundle32.operands =
        [⟨1, Ty.integer 32⟩] ++ [⟨5, Ty.integer 32⟩] ++ [⟨100, Ty.pointer 0⟩] ∧
      callBundle64.operands =
        [⟨2, Ty.integer 32⟩] ++ [⟨6, Ty.integer 64⟩] ++ [⟨100, Ty.pointer 0⟩] ∧
      callBundle32.attributes = callBundle64.attributes ∧
      callBundle32.callingConv = callBundle64.callingConv ∧
      callBundle32.hasIdenticalOperandBundleSchema callBundle64 = true ∧
      callBundle32.isSameOperationAs callBundle64 0 = some false) := by
  decide

theorem hasIdenticalOperandBundleSchema_iff (A B : Instruction) :
    A.hasIdenticalOperandBundleSchema B = true ↔ A.bundleOpInfos = B.bundleOpInfos := by
  unfold hasIdenticalOperandBundleSchema
  by_cases hl : A.bundleOpInfos.length = B.bundleOpInfos.length
  · rw [if_neg (not_not.mpr hl)]
    exact stdEqual_iff _ _ hl
  · rw [if_pos hl]
    constructor
    · intro h
      exact absurd h (by simp)
    · intro h
      rw [h] at hl
      exact absurd rfl hl

/-- C4 (amended): two calls of the same callee with the same result type, the
same tail-call marker, equal attribute list, calling convention and
operand-bundle schema, whose argument lists and bundle operand lists have
pairwise equal types, and whose argument lists differ in at least one value,
satisfy `isSameOperationAs` (flags 0) and do not satisfy `isIdenticalTo`.
The operand list of a call is its arguments, then its bundle operands, then
the callee. -/
theorem call_same_operation_not_identical (A B : Instruction)
    (argsA argsB bundleA bundleB : List Operand) (callee : Operand)
    (hA : A.opcode = Opcode.Call) (hB : B.opcode = Opcode.Call)
    (hopsA : A.operands = argsA ++ bundleA ++ [callee])
    (hopsB : B.operands = argsB ++ bundleB ++ [callee])
    (hty : A.ty = B.ty) (htail : A.isTailCall = B.isTailCall)
    (hattr : A.attributes = B.attributes) (hcc : A.callingConv = B.callingConv)
    (hschema : A.hasIdenticalOperandBundleSchema B = true)
    (hargs : argsA.map Operand.ty = argsB.map Operand.ty)
    (hbundle : bundleA.map Operand.ty = bundleB.map Operand.ty)
    (hdiff : argsA ≠ argsB) :
    A.isSameOperationAs B 0 = some true ∧ A.isIdenticalTo B = some false := by
  have hop : A.opcode = B.opcode := by rw [hA, hB]
  have hlenArgs : argsA.length = argsB.length := by
    have := congrArg List.length hargs
    simpa using this
  have hlenB : bundleA.length = bundleB.length := by
    have := congrArg List.length hbundle
    simpa using this
  have hn : A.getNumOperands = B.getNumOperands := by
    simp [getNumOperands, hopsA, hopsB, hlenArgs, hlenB]
  have htys : A.operands.map Operand.ty = B.operands.map Operand.ty := by
    simp [hopsA, hopsB, hargs, hbundle]
  have hss : ∀ ign, A.hasSameSpecialState B ign = some true := by
    intro ign
    unfold hasSameSpecialState
    rw [if_neg (not_not.mpr hop), hA]
    simp [htail, hcc, hattr, hschema]
  constructor
  · rw [(isSameOperationAs_iff_aux A B 0).1]
    refine ⟨hop, hn, ?_, ?_, hss _⟩
    · simp [typesDiffer, CompareUsingScalarTypes, hty]
    · intro j a b ha hb
      have h1 : (A.operands.map Operand.ty)[j]? = some a.ty := by
        rw [List.getElem?_map, ha]
        rfl
      have h2 : (B.operands.map Operand.ty)[j]? = some b.ty := by
        rw [List.getElem?_map, hb]
        rfl
      rw [htys, h2] at h1
      simp only [Option.some.injEq] at h1
      simp [typesDiffer, CompareUsingScalarTypes, h1]
  · have hwf : ∀ I : Instruction, I.opcode = Opcode.Call →
        (I.opcode = Opcode.PHI → I.blocks.length = I.operands.length) := by
      intro I hI hphi
      rw [hI] at hphi
      exact absurd hphi (by decide)
    have hiff := identical_characterisation A B (hwf A hA) (hwf B hB)
    have hnot : ¬ A.isIdenticalToWhenDefined B = some true := by
      intro hc
      have hpt := (hiff.1.mp hc).2.2.2.1
      have hlen : A.operands.length = B.operands.length := hn
      have heq : A.operands = B.operands := (list_eq_iff_getElem? _ _ hlen).mpr hpt
      rw [hopsA, hopsB, List.append_assoc, List.append_assoc] at heq
      exact hdiff (List.append_inj heq hlenArgs).1
    rcases hiff.2.2.2 with h1 | h1
    · exact absurd (hiff.2.1.mp h1).1 hnot
    · exact h1

/-- Witness for C4: `call i32 @f(i32 %x)` and `call i32 @f(i32 %y)`. -/
theorem call_same_operation_not_identical_witness :
    callPlain.isSameOperationAs callOther 0 = some true ∧
      callPlain.isIdenticalTo callOther = some false :=
  call_same_operation_not_identical callPlain callOther
    [⟨1, Ty.integer 32⟩] [⟨2, Ty.integer 32⟩] [] [] ⟨100, Ty.pointer 0⟩
    rfl rfl rfl rfl rfl rfl rfl rfl (by decide) rfl rfl (by decide)

theorem setMetadata_frame (I : Instruction) (k n : Nat) :
    I.setMetadata k n = withMetadataOf I (I.setMetadata k n) := by
  unfold setMetadata
  split
  · rfl
  · split <;> rfl

theorem copyMetadata_fold_frame (WL : List Nat) (mds : List (Nat × Nat)) :
    ∀ D : Instruction,
      mds.foldl (fun acc MD =>
          if WL.isEmpty || WL.contains MD.1 then acc.setMetadata MD.1 MD.2 else acc) D =
        withMetadataOf D (mds.foldl (fun acc MD =>
          if WL.isEmpty || WL.contains MD.1 then acc.setMetadata MD.1 MD.2 else acc) D) := by
  induction mds with
  | nil => intro D; rfl
  | cons md mds ih =>
    intro D
    simp only [List.foldl_cons]
    split
    · rw [ih (D.setMetadata md.1 md.2)]
      generalize List.foldl _ (D.setMetadata md.1 md.2) mds = R
      rw [setMetadata_frame D md.1 md.2]
      rfl
    · exact ih D

/-- The function `copyMetadata` changes the metadata attachments and the
debug location only. -/
theorem copyMetadata_frame (D SrcInst : Instruction) (WL : List Nat) :
    D.copyMetadata SrcInst WL = withMetadataOf D (D.copyMetadata SrcInst WL) := by
  unfold copyMetadata
  split
  · rfl
  · simp only []
    split
    · rw [copyMetadata_fold_frame WL _ D]
      rfl
    · exact copyMetadata_fold_frame WL _ D

theorem hasSameSpecialState_refl (I : Instruction) (ign : Bool) :
    I.hasSameSpecialState I ign = some true := by
  unfold hasSameSpecialState
  rw [if_neg (by simp)]
  split <;> simp [hasIdenticalOperandBundleSchema, stdEqual_refl]

theorem isIdenticalToWhenDefined_refl (I : Instruction) :
    I.isIdenticalToWhenDefined I = some true := by
  unfold isIdenticalToWhenDefined
  rw [if_neg (by simp)]
  split
  · exact hasSameSpecialState_refl I false
  · rw [if_neg (by simp [stdEqual_refl])]
    split
    · rw [stdEqual_refl]
    · exact hasSameSpecialState_refl I false

/-- The comparison predicates do not read the parent, the metadata or the
debug location. -/
theorem isIdenticalTo_detached (I : Instruction) (md : List (Nat × Nat)) (loc : Option Nat) :
    isIdenticalTo { I with Parent := none, metadata := md, DbgLoc := loc } I = some true := by
  have h : isIdenticalToWhenDefined { I with Parent := none, metadata := md, DbgLoc := loc } I =
      I.isIdenticalToWhenDefined I := rfl
  unfold isIdenticalTo
  rw [h, isIdenticalToWhenDefined_refl]
  simp

/-- C5: the result `C` of `I.clone()` satisfies `C.isIdenticalTo(I)`: it has
the opcode, result type, operand bindings and flag word of `I`, and it is
detached.  It holds for every opcode, so in particular for the opcodes with
no side-table state beyond flags, metadata and operands. -/
theorem clone_isIdenticalTo (I : Instruction) :
    I.clone.isIdenticalTo I = some true ∧
      I.clone.opcode = I.opcode ∧ I.clone.ty = I.ty ∧ I.clone.operands = I.operands ∧
      I.clone.SubclassOptionalData = I.SubclassOptionalData ∧ I.clone.Parent = none := by
  have hframe : I.clone =
      { I with Parent := none, metadata := I.clone.metadata, DbgLoc := I.clone.DbgLoc } :=
    copyMetadata_frame (I.cloneImpl.withFlags I.SubclassOptionalData) I []
  refine ⟨?_, ?_, ?_, ?_, ?_, ?_⟩
  · rw [hframe]
    exact isIdenticalTo_detached I _ _
  all_goals rw [hframe]

/-! ### Instances at concrete instructions -/

/-- Instance of C7 at `add nuw nsw`: both wrap flags are cleared. -/
theorem dropPoisonGeneratingFlags_resets_exactly_witness :
    OverflowingBinaryOperator.classof addWrapFlags.opcode = true ∧
      ∃ I', addWrapFlags.dropPoisonGeneratingFlags = some I' ∧
        I'.hasNoUnsignedWrap = some false ∧ I'.hasNoSignedWrap = some false := by
  obtain ⟨I', h1, _, h3, _⟩ := dropPoisonGeneratingFlags_resets_exactly addWrapFlags
  exact ⟨rfl, I', h1, (h3 rfl).1, (h3 rfl).2.1⟩

/-- Instance of C8 at `add nuw nsw` intersected with `add nsw`: nsw stays,
nuw is cleared. -/
theorem andIRFlags_intersects_witness :
    OverflowingBinaryOperator.classof addWrapFlags.opcode = true ∧
      (Value.inst addSignedWrap).isaOverflowingBinaryOperator = true ∧
      ∃ S', addWrapFlags.andIRFlags (Value.inst addSignedWrap) = some S' ∧
        S'.hasNoSignedWrap = some true ∧ S'.hasNoUnsignedWrap = some false := by
  obtain ⟨S', h1, _, h3, _⟩ := andIRFlags_intersects addWrapFlags (Value.inst addSignedWrap)
  exact ⟨rfl, rfl, S', h1, (h3 rfl rfl).1, (h3 rfl rfl).2.1⟩

/-- Instance of C10 (amended) at `add` receiving the flags of `add nuw nsw`
with the wrap flags included. -/
theorem copyIRFlags_copies_witness :
    OverflowingBinaryOperator.classof addPlain.opcode = true ∧
      (Value.inst addWrapFlags).isaOverflowingBinaryOperator = true ∧
      ∃ S', addPlain.copyIRFlags (Value.inst addWrapFlags) true = some S' ∧
        S'.hasNoSignedWrap = some true ∧ S'.hasNoUnsignedWrap = some true := by
  obtain ⟨S', h1, _, h3, _⟩ := copyIRFlags_copies addPlain (Value.inst addWrapFlags) true
  exact ⟨rfl, rfl, S', h1, (h3 rfl rfl rfl).1, (h3 rfl rfl rfl).2.1⟩

/-! ### Flag accessors on incapable opcodes -/

/-- C11: reading or writing a flag on an opcode without the capability fails
its precondition check and never returns: `hasNonNeg` / `setNonNeg` fail on
every instruction that is not a zext, every fast-math getter and setter fails
on every instruction that is not a floating-point math operator, the
wrap-flag accessors fail on every instruction that is not an overflowing
binary operator, and `isExact` / `setIsExact` fail on every instruction that
is not a possibly-exact operator; on a capable opcode each of them returns. -/
theorem flag_accessors_fail_iff_incapable (I : Instruction) :
    (I.opcode ≠ Opcode.ZExt → I.hasNonNeg = none ∧ ∀ b, I.setNonNeg b = none) ∧
    (I.opcode = Opcode.ZExt →
      I.hasNonNeg.isSome = true ∧ ∀ b, (I.setNonNeg b).isSome = true) ∧
    (I.isaFPMathOperator = false →
      I.isFast = none ∧
      I.hasAllowReassoc = none ∧
      I.hasNoNaNs = none ∧
      I.hasNoInfs = none ∧
      I.hasNoSignedZeros = none ∧
      I.hasAllowReciprocal = none ∧
      I.hasAllowContract = none ∧
      I.hasApproxFunc = none ∧
      I.getFastMathFlags = none ∧
      (∀ B, I.setFast B = none) ∧
      (∀ B, I.setHasAllowReassoc B = none) ∧
      (∀ B, I.setHasNoNaNs B = none) ∧
      (∀ B, I.setHasNoInfs B = none) ∧
      (∀ B, I.setHasNoSignedZeros B = none) ∧
      (∀ B, I.setHasAllowReciprocal B = none) ∧
      (∀ B, I.setHasAllowContract B = none) ∧
      (∀ B, I.setHasApproxFunc B = none) ∧
      (∀ FMF, I.setFastMathFlags FMF = none) ∧
      (∀ FMF, I.copyFastMathFlags FMF = none) ∧
      (∀ Src, I.copyFastMathFlagsOf Src = none)) ∧
    (I.isaFPMathOperator = true →
      I.isFast.isSome = true ∧
      I.hasAllowReassoc.isSome = true ∧
      I.hasNoNaNs.isSome = true ∧
      I.hasNoInfs.isSome = true ∧
      I.hasNoSignedZeros.isSome = true ∧
      I.hasAllowReciprocal.isSome = true ∧
      I.hasAllowContract.isSome = true ∧
      I.hasApproxFunc.isSome = true ∧
      I.getFastMathFlags.isSome = true ∧
      (∀ B, (I.setFast B).isSome = true) ∧
      (∀ B, (I.setHasAllowReassoc B).isSome = true) ∧
      (∀ B, (I.setHasNoNaNs B).isSome = true) ∧
      (∀ B, (I.setHasNoInfs B).isSome = true) ∧
      (∀ B, (I.setHasNoSignedZeros B).isSome = true) ∧
      (∀ B, (I.setHasAllowReciprocal B).isSome = true) ∧
      (∀ B, (I.setHasAllowContract B).isSome = true) ∧
      (∀ B, (I.setHasApproxFunc B).isSome = true) ∧
      (∀ FMF, (I.setFastMathFlags FMF).isSome = true) ∧
      (∀ FMF, (I.copyFastMathFlags FMF).isSome = true) ∧
      (∀ Src : Instruction, Src.isaFPMathOperator = true →
          (I.copyFastMathFlagsOf Src).isSome = true)) ∧
    (OverflowingBinaryOperator.classof I.opcode = false →
      I.hasNoUnsignedWrap = none ∧ I.hasNoSignedWrap = none ∧
      (∀ b, I.setHasNoUnsignedWrap b = none) ∧ (∀ b, I.setHasNoSignedWrap b = none)) ∧
    (OverflowingBinaryOperator.classof I.opcode = true →
      I.hasNoUnsignedWrap.isSome = true ∧ I.hasNoSignedWrap.isSome = true ∧
      (∀ b, (I.setHasNoUnsignedWrap b).isSome = true) ∧
      (∀ b, (I.setHasNoSignedWrap b).isSome = true)) ∧
    (PossiblyExactOperator.classof I.opcode = false →
      I.isExact = none ∧ ∀ b, I.setIsExact b = none) ∧
    (PossiblyExactOperator.classof I.opcode = true →
      I.isExact.isSome = true ∧ ∀ b, (I.setIsExact b).isSome = true) := by
  refine ⟨?_, ?_, ?_, ?_, ?_, ?_, ?_, ?_⟩
  · intro h
    have hc : PossiblyNonNegInst.classof I.opcode = false := by
      cases hop : I.opcode <;> first | rfl | exact absurd hop h
    simp [hasNonNeg, setNonNeg, hc]
  · intro h
    have hc : PossiblyNonNegInst.classof I.opcode = true := by rw [h]; rfl
    simp [hasNonNeg, setNonNeg, hc]
  · intro h
    simp [isFast, hasAllowReassoc, hasNoNaNs, hasNoInfs, hasNoSignedZeros, hasAllowReciprocal,
      hasAllowContract, hasApproxFunc, getFastMathFlags, setFast, setHasAllowReassoc,
      setHasNoNaNs, setHasNoInfs, setHasNoSignedZeros, setHasAllowReciprocal,
      setHasAllowContract, setHasApproxFunc, setFastMathFlags, copyFastMathFlags,
      copyFastMathFlagsOf, h]
  · intro h
    simp [isFast, hasAllowReassoc, hasNoNaNs, hasNoInfs, hasNoSignedZeros, hasAllowReciprocal,
      hasAllowContract, hasApproxFunc, getFastMathFlags, setFast, setHasAllowReassoc,
      setHasNoNaNs, setHasNoInfs, setHasNoSignedZeros, setHasAllowReciprocal,
      setHasAllowContract, setHasApproxFunc, setFastMathFlags, copyFastMathFlags,
      copyFastMathFlagsOf, h]
    intro Src hs
    simp [hs]
  · intro h
    simp [hasNoUnsignedWrap, hasNoSignedWrap, setHasNoUnsignedWrap, setHasNoSignedWrap, h]
  · intro h
    simp [hasNoUnsignedWrap, hasNoSignedWrap, setHasNoUnsignedWrap, setHasNoSignedWrap, h]
  · intro h
    simp [isExact, setIsExact, h]
  · intro h
    simp [isExact, setIsExact, h]

/-! ### Effect classifier -/

/-- C12: the table of `mayReadFromMemory` and `mayWriteToMemory`: both true
for fence, cmpxchg, atomicrmw, catchpad, catchret and va_arg; a load always
may read and may write iff it is not unordered, that is iff it is volatile or
its ordering is stronger than unordered; a store always may write and may
read iff it is not unordered; for call, invoke and callbr may-read is the
negation of only-writes-memory and may-write the negation of
only-reads-memory; both false for every other opcode. -/
theorem mayReadFromMemory_mayWriteToMemory_table (I : Instruction) :
    (I.opcode = Opcode.Fence ∨ I.opcode = Opcode.AtomicCmpXchg ∨ I.opcode = Opcode.AtomicRMW ∨
        I.opcode = Opcode.CatchPad ∨ I.opcode = Opcode.CatchRet ∨ I.opcode = Opcode.VAArg →
      I.mayReadFromMemory = true ∧ I.mayWriteToMemory = true) ∧
    (I.opcode = Opcode.Load →
      I.mayReadFromMemory = true ∧ I.mayWriteToMemory = !I.isUnordered ∧
      (I.mayWriteToMemory = true ↔
        I.isVolatile = true ∨
          (I.ordering ≠ AtomicOrdering.NotAtomic ∧ I.ordering ≠ AtomicOrdering.Unordered))) ∧
    (I.opcode = Opcode.Store →
      I.mayWriteToMemory = true ∧ I.mayReadFromMemory = !I.isUnordered ∧
      (I.mayReadFromMemory = true ↔
        I.isVolatile = true ∨
          (I.ordering ≠ AtomicOrdering.NotAtomic ∧ I.ordering ≠ AtomicOrdering.Unordered))) ∧
    (I.opcode = Opcode.Call ∨ I.opcode = Opcode.Invoke ∨ I.opcode = Opcode.CallBr →
      I.mayReadFromMemory = !I.onlyWritesMemory ∧ I.mayWriteToMemory = !I.onlyReadsMemory) ∧
    (I.opcode ≠ Opcode.Fence → I.opcode ≠ Opcode.AtomicCmpXchg → I.opcode ≠ Opcode.AtomicRMW →
      I.opcode ≠ Opcode.CatchPad → I.opcode ≠ Opcode.CatchRet → I.opcode ≠ Opcode.VAArg →
      I.opcode ≠ Opcode.Load → I.opcode ≠ Opcode.Store → I.opcode ≠ Opcode.Call →
      I.opcode ≠ Opcode.Invoke → I.opcode ≠ Opcode.CallBr →
      I.mayReadFromMemory = false ∧ I.mayWriteToMemory = false) := by
  have hun : (!I.isUnordered) = true ↔
      I.isVolatile = true ∨
        (I.ordering ≠ AtomicOrdering.NotAtomic ∧ I.ordering ≠ AtomicOrdering.Unordered) := by
    unfold isUnordered
    cases I.isVolatile <;> cases I.ordering <;> simp
  refine ⟨?_, ?_, ?_, ?_, ?_⟩
  · intro h
    rcases h with h | h | h | h | h | h <;> simp [mayReadFromMemory, mayWriteToMemory, h]
  · intro h
    refine ⟨by simp [mayReadFromMemory, h], by simp [mayWriteToMemory, h], ?_⟩
    rw [← hun]
    simp [mayWriteToMemory, h]
  · intro h
    refine ⟨by simp [mayWriteToMemory, h], by simp [mayReadFromMemory, h], ?_⟩
    rw [← hun]
    simp [mayReadFromMemory, h]
  · intro h
    rcases h with h | h | h <;> simp [mayReadFromMemory, mayWriteToMemory, h]
  · intro h1 h2 h3 h4 h5 h6 h7 h8 h9 h10 h11
    unfold mayReadFromMemory mayWriteToMemory
    cases hop : I.opcode <;> first | exact ⟨rfl, rfl⟩ | simp_all

/-- C13: `isAtomic` is true iff the opcode is cmpxchg, atomicrmw or fence,
or the opcode is load or store and the ordering is not not-atomic. -/
theorem isAtomic_iff (I : Instruction) :
    I.isAtomic = true ↔
      I.opcode = Opcode.AtomicCmpXchg ∨ I.opcode = Opcode.AtomicRMW ∨ I.opcode = Opcode.Fence ∨
      ((I.opcode = Opcode.Load ∨ I.opcode = Opcode.Store) ∧
        I.ordering ≠ AtomicOrdering.NotAtomic) := by
  unfold isAtomic
  cases hop : I.opcode <;> simp

/-- C14 fails as stated: a store whose ordering is unordered is atomic. -/
theorem store_unordered_isAtomic :
    storeUnordered.opcode = Opcode.Store ∧
      storeUnordered.ordering = AtomicOrdering.Unordered ∧
      storeUnordered.mayWriteToMemory = true ∧ storeUnordered.isAtomic = true := by
  decide

/-- C14 (amended): every store may write to memory; a store whose ordering
is unordered is atomic, as is a store whose ordering is monotonic; a store is
not atomic exactly when its ordering is not-atomic. -/
theorem store_mayWrite_isAtomic (I : Instruction) (h : I.opcode = Opcode.Store) :
    I.mayWriteToMemory = true ∧
      (I.ordering = AtomicOrdering.Unordered → I.isAtomic = true) ∧
      (I.ordering = AtomicOrdering.Monotonic → I.isAtomic = true) ∧
      (I.isAtomic = false ↔ I.ordering = AtomicOrdering.NotAtomic) := by
  refine ⟨by simp [mayWriteToMemory, h], ?_, ?_, ?_⟩
  · intro ho
    simp [isAtomic, h, ho]
  · intro ho
    simp [isAtomic, h, ho]
  · simp [isAtomic, h]

/-- Witness for C14 (amended): an unordered and a monotonic atomic store. -/
theorem store_mayWrite_isAtomic_witness :
    storeUnordered.opcode = Opcode.Store ∧ storeUnordered.isAtomic = true ∧
      storeMonotonic.isAtomic = true ∧ storeVolatile.isAtomic = false :=
  ⟨rfl, (store_mayWrite_isAtomic storeUnordered rfl).2.1 rfl,
    (store_mayWrite_isAtomic storeMonotonic rfl).2.2.1 rfl,
    (store_mayWrite_isAtomic storeVolatile rfl).2.2.2.mpr rfl⟩

/-- C15: `hasAtomicLoad` and `hasAtomicStore` fail their assertion on an
instruction that is not atomic; on an atomic instruction they return, the
first true exactly for atomicrmw, cmpxchg and load, the second true exactly
for atomicrmw, cmpxchg and store; so a fence has neither, an atomic load has
no atomic store and an atomic store has no atomic load. -/
theorem hasAtomicLoad_hasAtomicStore (I : Instruction) :
    (I.isAtomic = false → I.hasAtomicLoad = none ∧ I.hasAtomicStore = none) ∧
    (I.isAtomic = true →
      (I.hasAtomicLoad = some true ∨ I.hasAtomicLoad = some false) ∧
      (I.hasAtomicStore = some true ∨ I.hasAtomicStore = some false) ∧
      (I.hasAtomicLoad = some true ↔
        I.opcode = Opcode.AtomicRMW ∨ I.opcode = Opcode.AtomicCmpXchg ∨
          I.opcode = Opcode.Load) ∧
      (I.hasAtomicStore = some true ↔
        I.opcode = Opcode.AtomicRMW ∨ I.opcode = Opcode.AtomicCmpXchg ∨
          I.opcode = Opcode.Store) ∧
      (I.opcode = Opcode.Fence →
        I.hasAtomicLoad = some false ∧ I.hasAtomicStore = some false) ∧
      (I.opcode = Opcode.Load → I.hasAtomicStore = some false) ∧
      (I.opcode = Opcode.Store → I.hasAtomicLoad = some false)) := by
  constructor
  · intro h
    simp [hasAtomicLoad, hasAtomicStore, h]
  · intro h
    have hL : I.hasAtomicLoad = match I.opcode with
        | .AtomicCmpXchg | .AtomicRMW | .Load => some true
        | _ => some false := by
      simp [hasAtomicLoad, h]
    have hS : I.hasAtomicStore = match I.opcode with
        | .AtomicCmpXchg | .AtomicRMW | .Store => some true
        | _ => some false := by
      simp [hasAtomicStore, h]
    rw [hL, hS]
    refine ⟨?_, ?_, ?_, ?_, ?_, ?_, ?_⟩
    · cases I.opcode <;> simp
    · cases I.opcode <;> simp
    · cases I.opcode <;> simp
    · cases I.opcode <;> simp
    · intro hop
      rw [hop]
      exact ⟨rfl, rfl⟩
    · intro hop
      rw [hop]
    · intro hop
      rw [hop]

/-- The clause loop returns true iff no clause catches everything. -/
theorem canUnwindPastClauses_iff (cs : List LandingPadClause) :
    canUnwindPastClauses cs = true ↔ ∀ c ∈ cs, catchesEverything c = false := by
  induction cs with
  | nil => simp [canUnwindPastClauses]
  | cons c cs ih =>
    rw [List.forall_mem_cons]
    unfold canUnwindPastClauses
    by_cases h1 : (c.isCatch && c.isConstantPointerNull) = true
    · have hce : catchesEverything c = true := by
        unfold catchesEverything
        rw [h1]
        rfl
      rw [if_pos h1, hce]
      constructor
      · intro h
        exact absurd h (by decide)
      · intro h
        exact absurd h.1 (by decide)
    · by_cases h2 : (c.isFilter && c.ty.getArrayNumElements == 0) = true
      · have hce : catchesEverything c = true := by
          unfold catchesEverything
          rw [h2]
          exact Bool.or_true _
        rw [if_neg h1, if_pos h2, hce]
        constructor
        · intro h
          exact absurd h (by decide)
        · intro h
          exact absurd h.1 (by decide)
      · have h1' : (c.isCatch && c.isConstantPointerNull) = false := by simpa using h1
        have h2' : (c.isFilter && c.ty.getArrayNumElements == 0) = false := by simpa using h2
        have hce : catchesEverything c = false := by
          unfold catchesEverything
          rw [h1', h2']
          rfl
        rw [if_neg h1, if_neg h2, ih, hce]
        constructor
        · intro h
          exact ⟨rfl, h⟩
        · intro h
          exact h.2

/-- The invoke case of `mayThrow` for an unwind destination that starts with
a landing pad. -/
theorem mayThrow_invoke_landingPad (I : Instruction) (b : Bool)
    (hI : I.opcode = Opcode.Invoke)
    (hP : I.unwindDestFirstNonPHI.opcode = Opcode.LandingPad) :
    I.mayThrow b = canUnwindPastLandingPad I.unwindDestFirstNonPHI b := by
  simp [mayThrow, hI, hP]

/-- C16 fails as stated.  With a cleanup pad without clauses and
`IncludePhaseOneUnwind = false`, `mayThrow` is false although no clause
catches everything; with a cleanup pad that has a catch of the null pointer
and `IncludePhaseOneUnwind = true`, `mayThrow` is true although a clause
catches everything. -/
theorem mayThrow_cleanup_pad_counterexample :
    (invokeCleanupPad.opcode = Opcode.Invoke ∧
      invokeCleanupPad.unwindDestFirstNonPHI.opcode = Opcode.LandingPad ∧
      (∀ c ∈ invokeCleanupPad.unwindDestFirstNonPHI.clauses, catchesEverything c = false) ∧
      invokeCleanupPad.mayThrow false = false) ∧
    (invokeCleanupCatchAll.opcode = Opcode.Invoke ∧
      invokeCleanupCatchAll.unwindDestFirstNonPHI.opcode = Opcode.LandingPad ∧
      (∃ c ∈ invokeCleanupCatchAll.unwindDestFirstNonPHI.clauses, catchesEverything c = true) ∧
      invokeCleanupCatchAll.mayThrow true = true) := by
  decide

/-- C16 (amended): for an invoke whose unwind destination's first non-phi
instruction is a landing pad `LP`, `mayThrow(IncludePhaseOneUnwind)` is true
iff `LP` is a cleanup pad and `IncludePhaseOneUnwind` is true, or `LP` is not
a cleanup pad and none of its clauses catches everything. -/
theorem mayThrow_invoke_iff (I : Instruction) (IncludePhaseOneUnwind : Bool)
    (hI : I.opcode = Opcode.Invoke)
    (hP : I.unwindDestFirstNonPHI.opcode = Opcode.LandingPad) :
    I.mayThrow IncludePhaseOneUnwind = true ↔
      (I.unwindDestFirstNonPHI.isCleanup = true ∧ IncludePhaseOneUnwind = true) ∨
      (I.unwindDestFirstNonPHI.isCleanup = false ∧
        ∀ c ∈ I.unwindDestFirstNonPHI.clauses, catchesEverything c = false) := by
  rw [mayThrow_invoke_landingPad I _ hI hP]
  unfold canUnwindPastLandingPad
  cases hc : I.unwindDestFirstNonPHI.isCleanup
  · simp [canUnwindPastClauses_iff]
  · simp

/-- Witness for C16 (amended): a pad with a typed catch clause is passable,
a pad with a catch of the null pointer is not. -/
theorem mayThrow_invoke_iff_witness :
    invokeCatchTyped.opcode = Opcode.Invoke ∧
      invokeCatchTyped.unwindDestFirstNonPHI.opcode = Opcode.LandingPad ∧
      invokeCatchTyped.mayThrow false = true :=
  ⟨rfl, rfl, (mayThrow_invoke_iff invokeCatchTyped false rfl rfl).mpr
    (Or.inr ⟨rfl, by decide⟩)⟩

/-- C17: an invoke whose unwind destination's first non-phi instruction is a
landing pad with a catch of the null pointer among its clauses has
`mayThrow(false)` false, whatever the cleanup flag and the other clauses. -/
theorem mayThrow_false_of_catch_all (I : Instruction)
    (hI : I.opcode = Opcode.Invoke)
    (hP : I.unwindDestFirstNonPHI.opcode = Opcode.LandingPad)
    (hc : ∃ c ∈ I.unwindDestFirstNonPHI.clauses,
      c.isCatch = true ∧ c.isConstantPointerNull = true) :
    I.mayThrow false = false := by
  rw [mayThrow_invoke_landingPad I _ hI hP]
  unfold canUnwindPastLandingPad
  split
  · rfl
  · cases hr : canUnwindPastClauses I.unwindDestFirstNonPHI.clauses
    · rfl
    · exfalso
      obtain ⟨c, hmem, h1, h2⟩ := hc
      have := (canUnwindPastClauses_iff _).mp hr c hmem
      simp [catchesEverything, h1, h2] at this

/-- Witness for C17: pads with a catch of the null pointer, with and without
the cleanup flag. -/
theorem mayThrow_false_of_catch_all_witness :
    invokeCatchAll.mayThrow false = false ∧ invokeCleanupCatchAll.mayThrow false = false :=
  ⟨mayThrow_false_of_catch_all invokeCatchAll rfl rfl
      ⟨{ ty := Ty.pointer 0, isConstantPointerNull := true }, by decide, rfl, rfl⟩,
    mayThrow_false_of_catch_all invokeCleanupCatchAll rfl rfl
      ⟨{ ty := Ty.pointer 0, isConstantPointerNull := true }, by decide, rfl, rfl⟩⟩

/-- C18: `mayThrow` outside the landing-pad case: for a call it is the
negation of does-not-throw; for cleanupret and catchswitch it is
unwinds-to-caller; true for resume; `IncludePhaseOneUnwind` for a cleanuppad;
false for every other opcode that is not an invoke (so for callbr, landingpad,
load and store); and false for an invoke whose unwind destination's first
non-phi instruction is not a landing pad. -/
theorem mayThrow_table (I : Instruction) (IncludePhaseOneUnwind : Bool) :
    (I.opcode = Opcode.Call → I.mayThrow IncludePhaseOneUnwind = !I.doesNotThrow) ∧
    (I.opcode = Opcode.CleanupRet ∨ I.opcode = Opcode.CatchSwitch →
      I.mayThrow IncludePhaseOneUnwind = I.unwindsToCaller) ∧
    (I.opcode = Opcode.Resume → I.mayThrow IncludePhaseOneUnwind = true) ∧
    (I.opcode = Opcode.CleanupPad → I.mayThrow IncludePhaseOneUnwind = IncludePhaseOneUnwind) ∧
    (I.opcode ≠ Opcode.Call → I.opcode ≠ Opcode.CleanupRet → I.opcode ≠ Opcode.CatchSwitch →
      I.opcode ≠ Opcode.Resume → I.opcode ≠ Opcode.Invoke → I.opcode ≠ Opcode.CleanupPad →
      I.mayThrow IncludePhaseOneUnwind = false) ∧
    (I.opcode = Opcode.CallBr ∨ I.opcode = Opcode.LandingPad ∨ I.opcode = Opcode.Load ∨
        I.opcode = Opcode.Store → I.mayThrow IncludePhaseOneUnwind = false) ∧
    (I.opcode = Opcode.Invoke → I.unwindDestFirstNonPHI.opcode ≠ Opcode.LandingPad →
      I.mayThrow IncludePhaseOneUnwind = false) := by
  refine ⟨?_, ?_, ?_, ?_, ?_, ?_, ?_⟩
  · intro h
    simp [mayThrow, h]
  · intro h
    rcases h with h | h <;> simp [mayThrow, h]
  · intro h
    simp [mayThrow, h]
  · intro h
    simp [mayThrow, h]
  · intro h1 h2 h3 h4 h5 h6
    unfold mayThrow
    cases hop : I.opcode <;> first | rfl | simp_all
  · intro h
    rcases h with h | h | h | h <;> simp [mayThrow, h]
  · intro h hp
    simp [mayThrow, h, hp]

theorem isaCallBase_iff (I : Instruction) :
    I.isaCallBase = true ↔
      I.opcode = Opcode.Call ∨ I.opcode = Opcode.Invoke ∨ I.opcode = Opcode.CallBr := by
  unfold isaCallBase
  cases I.opcode <;> simp

/-- C19: `willReturn` is false iff the instruction is a volatile store, or
is a call, invoke or callbr without the will-return function attribute; so it
is true for a store that is not volatile, for every load (volatile or not)
and for every terminator that is not call-like. -/
theorem willReturn_false_iff (I : Instruction) :
    (I.willReturn = false ↔
      (I.opcode = Opcode.Store ∧ I.isVolatile = true) ∨
      ((I.opcode = Opcode.Call ∨ I.opcode = Opcode.Invoke ∨ I.opcode = Opcode.CallBr) ∧
        I.hasFnAttr Attribute.WillReturn = false)) ∧
    (I.opcode = Opcode.Store → I.isVolatile = false → I.willReturn = true) ∧
    (I.opcode = Opcode.Load → I.willReturn = true) ∧
    (I.isTerminator = true → I.isaCallBase = false → I.willReturn = true) := by
  refine ⟨?_, ?_, ?_, ?_⟩
  · unfold willReturn
    by_cases hs : I.opcode = Opcode.Store
    · simp [hs]
    · rw [if_neg hs]
      by_cases hc : I.isaCallBase = true
      · rw [if_pos hc]
        have := (isaCallBase_iff I).mp hc
        simp [hs, this]
      · rw [if_neg hc]
        have hn : ¬ (I.opcode = Opcode.Call ∨ I.opcode = Opcode.Invoke ∨
            I.opcode = Opcode.CallBr) := fun h => hc ((isaCallBase_iff I).mpr h)
        simp [hs, hn]
  · intro h hv
    simp [willReturn, h, hv]
  · intro h
    simp [willReturn, h, isaCallBase]
  · intro ht hc
    have hs : I.opcode ≠ Opcode.Store := by
      intro h
      simp [isTerminator, h] at ht
    simp [willReturn, hs, hc]

/-- C20: `mayHaveSideEffects` is `mayWriteToMemory` or `mayThrow(false)` or
not `willReturn`; `isSafeToRemove` is true iff the instruction is not a
terminator, not an exception-pad entry, and is not a call or has no side
effects; so every instruction that is not a call, a terminator or an
exception pad is reported safe to remove, a volatile store among them
although it has side effects. -/
theorem mayHaveSideEffects_isSafeToRemove (I : Instruction) :
    I.mayHaveSideEffects = (I.mayWriteToMemory || I.mayThrow false || !I.willReturn) ∧
    (I.isSafeToRemove = true ↔
      I.isTerminator = false ∧ I.isEHPad = false ∧
        (I.opcode ≠ Opcode.Call ∨ I.mayHaveSideEffects = false)) ∧
    (I.opcode ≠ Opcode.Call → I.isTerminator = false → I.isEHPad = false →
      I.isSafeToRemove = true) ∧
    (I.opcode = Opcode.Store → I.isVolatile = true →
      I.mayHaveSideEffects = true ∧ I.isSafeToRemove = true) := by
  have hiff : I.isSafeToRemove = true ↔
      I.isTerminator = false ∧ I.isEHPad = false ∧
        (I.opcode ≠ Opcode.Call ∨ I.mayHaveSideEffects = false) := by
    unfold isSafeToRemove
    simp only [Bool.and_eq_true, Bool.or_eq_true, Bool.not_eq_true', decide_eq_false_iff_not]
    tauto
  refine ⟨rfl, hiff, ?_, ?_⟩
  · intro h1 h2 h3
    exact hiff.mpr ⟨h2, h3, Or.inl h1⟩
  · intro h hv
    constructor
    · simp [mayHaveSideEffects, mayWriteToMemory, h]
    · apply hiff.mpr
      refine ⟨by simp [isTerminator, h], by simp [isEHPad, h], Or.inl ?_⟩
      rw [h]
      decide

/-- Instance of C20 at `store volatile`: it has side effects and is reported
safe to remove. -/
theorem mayHaveSideEffects_isSafeToRemove_witness :
    storeVolatile.opcode = Opcode.Store ∧ storeVolatile.isVolatile = true ∧
      storeVolatile.mayHaveSideEffects = true ∧ storeVolatile.isSafeToRemove = true :=
  ⟨rfl, rfl, (mayHaveSideEffects_isSafeToRemove storeVolatile).2.2.2 rfl rfl⟩

/-! ### Strictness order and equivalence laws -/

theorem typesDiffer_self (u : Bool) (a : Ty) : typesDiffer u a a = false := by
  cases u <;> simp [typesDiffer]

theorem typesDiffer_of_eq (u : Bool) (a b : Ty) (h : typesDiffer false a b = false) :
    typesDiffer u a b = false := by
  have e : a = b := by simpa [typesDiffer] using h
  rw [e]
  exact typesDiffer_self u b

theorem typesDiffer_symm (u : Bool) (a b : Ty) (h : typesDiffer u a b = false) :
    typesDiffer u b a = false := by
  cases u <;> simp_all [typesDiffer]

theorem typesDiffer_trans (u : Bool) (a b c : Ty) (h1 : typesDiffer u a b = false)
    (h2 : typesDiffer u b c = false) : typesDiffer u a c = false := by
  cases u <;> simp_all [typesDiffer]

theorem hasSameSpecialState_opcode (A B : Instruction) (ign : Bool)
    (h : A.hasSameSpecialState B ign = some true) : A.opcode = B.opcode := by
  by_contra hc
  simp [hasSameSpecialState, hc] at h

theorem hasSameSpecialState_mono (A B : Instruction) (ign : Bool)
    (h : A.hasSameSpecialState B false = some true) :
    A.hasSameSpecialState B ign = some true := by
  have hop := hasSameSpecialState_opcode A B false h
  unfold hasSameSpecialState at h ⊢
  rw [if_neg (not_not.mpr hop)] at h ⊢
  generalize A.opcode = op at h ⊢
  cases op <;> simp_all

theorem hasSameSpecialState_symm (A B : Instruction) (ign : Bool)
    (h : A.hasSameSpecialState B ign = some true) :
    B.hasSameSpecialState A ign = some true := by
  have hop := hasSameSpecialState_opcode A B ign h
  unfold hasSameSpecialState at h ⊢
  rw [if_neg (not_not.mpr hop)] at h
  rw [if_neg (not_not.mpr hop.symm), ← hop]
  clear hop
  generalize A.opcode = op at h ⊢
  cases ign <;> cases op <;> simp_all [hasIdenticalOperandBundleSchema_iff]

theorem hasSameSpecialState_trans (A B C : Instruction) (ign : Bool)
    (h1 : A.hasSameSpecialState B ign = some true)
    (h2 : B.hasSameSpecialState C ign = some true) :
    A.hasSameSpecialState C ign = some true := by
  have hop1 := hasSameSpecialState_opcode A B ign h1
  have hop2 := hasSameSpecialState_opcode B C ign h2
  unfold hasSameSpecialState at h1 h2 ⊢
  rw [if_neg (not_not.mpr hop1)] at h1
  rw [if_neg (not_not.mpr hop2), ← hop1] at h2
  rw [if_neg (not_not.mpr (hop1.trans hop2))]
  clear hop1 hop2
  generalize A.opcode = op at h1 h2 ⊢
  cases ign <;> cases op <;> simp_all [hasIdenticalOperandBundleSchema_iff]

/-- Facts read off a positive answer of `isIdenticalToWhenDefined`. -/
theorem isIdenticalToWhenDefined_fields (A B : Instruction)
    (h : A.isIdenticalToWhenDefined B = some true) :
    A.opcode = B.opcode ∧ A.operands = B.operands ∧ A.ty = B.ty ∧
      A.hasSameSpecialState B false = some true := by
  unfold isIdenticalToWhenDefined at h
  by_cases hc : A.opcode ≠ B.opcode ∨ A.getNumOperands ≠ B.getNumOperands ∨ A.ty ≠ B.ty
  · rw [if_pos hc] at h
    simp at h
  · rw [if_neg hc] at h
    have hop : A.opcode = B.opcode := by
      by_contra x
      exact hc (Or.inl x)
    have hn : A.operands.length = B.operands.length := by
      by_contra x
      exact hc (Or.inr (Or.inl x))
    have ht : A.ty = B.ty := by
      by_contra x
      exact hc (Or.inr (Or.inr x))
    by_cases h0 : A.getNumOperands = 0 ∧ B.getNumOperands = 0
    · rw [if_pos h0] at h
      have hops : A.operands = B.operands := by
        rw [List.length_eq_zero.mp h0.1, List.length_eq_zero.mp h0.2]
      exact ⟨hop, hops, ht, h⟩
    · rw [if_neg h0] at h
      by_cases hs : stdEqual A.operands B.operands = true
      · rw [if_neg (not_not.mpr hs)] at h
        have hops := (stdEqual_iff _ _ hn).mp hs
        by_cases hphi : A.opcode = Opcode.PHI
        · exact ⟨hop, hops, ht, hasSameSpecialState_phi A B false hphi (hop ▸ hphi)⟩
        · rw [if_neg hphi] at h
          exact ⟨hop, hops, ht, h⟩
      · rw [if_pos hs] at h
        simp at h

/-- C29: the three equivalence predicates are ordered by strictness.  A
positive answer of `isIdenticalTo` gives a positive answer of
`isIdenticalToWhenDefined`, which gives a positive answer of
`isSameOperationAs` for every flags value; and a positive answer of
`isSameOperationAs` with no flag gives a positive answer with any flags. -/
theorem equivalence_strictness_order (A B : Instruction) (flags : Nat) :
    (A.isIdenticalTo B = some true → A.isIdenticalToWhenDefined B = some true) ∧
    (A.isIdenticalToWhenDefined B = some true → A.isSameOperationAs B flags = some true) ∧
    (A.isSameOperationAs B 0 = some true → A.isSameOperationAs B flags = some true) := by
  refine ⟨?_, ?_, ?_⟩
  · intro h
    unfold isIdenticalTo at h
    cases hd : A.isIdenticalToWhenDefined B with
    | none => simp [hd] at h
    | some d =>
      simp [hd] at h
      rw [h.1]
  · intro h
    obtain ⟨hop, hops, ht, hs⟩ := isIdenticalToWhenDefined_fields A B h
    refine (isSameOperationAs_iff_aux A B flags).1.mpr ⟨hop, ?_, ?_, ?_, ?_⟩
    · unfold getNumOperands
      rw [hops]
    · rw [ht]
      exact typesDiffer_self _ _
    · intro j a b ha hb
      rw [hops, hb] at ha
      rw [Option.some.inj ha]
      exact typesDiffer_self _ _
    · exact hasSameSpecialState_mono A B _ hs
  · intro h
    have e1 : ((0 &&& CompareUsingScalarTypes) != 0) = false := by decide
    have e2 : ((0 &&& CompareIgnoringAlignment) != 0) = false := by decide
    obtain ⟨hop, hn, ht, hops, hs⟩ := (isSameOperationAs_iff_aux A B 0).1.mp h
    rw [e1] at ht hops
    rw [e2] at hs
    refine (isSameOperationAs_iff_aux A B flags).1.mpr ⟨hop, hn, ?_, ?_, ?_⟩
    · exact typesDiffer_of_eq _ _ _ ht
    · intro j a b ha hb
      exact typesDiffer_of_eq _ _ _ (hops j a b ha hb)
    · exact hasSameSpecialState_mono A B _ hs

theorem isIdenticalToWhenDefined_symm (A B : Instruction)
    (hA : A.opcode = Opcode.PHI → A.blocks.length = A.operands.length)
    (hB : B.opcode = Opcode.PHI → B.blocks.length = B.operands.length)
    (h : A.isIdenticalToWhenDefined B = some true) :
    B.isIdenticalToWhenDefined A = some true := by
  obtain ⟨hop, hn, ht, hops, hbl, hs⟩ := (identical_characterisation A B hA hB).1.mp h
  refine (identical_characterisation B A hB hA).1.mpr
    ⟨hop.symm, hn.symm, ht.symm, ?_, ?_, hasSameSpecialState_symm A B false hs⟩
  · intro i hi
    exact (hops i (by rw [hn]; exact hi)).symm
  · intro hphi
    exact (hbl (hop.trans hphi)).symm

theorem isIdenticalToWhenDefined_trans (A B C : Instruction)
    (hA : A.opcode = Opcode.PHI → A.blocks.length = A.operands.length)
    (hB : B.opcode = Opcode.PHI → B.blocks.length = B.operands.length)
    (hC : C.opcode = Opcode.PHI → C.blocks.length = C.operands.length)
    (h1 : A.isIdenticalToWhenDefined B = some true)
    (h2 : B.isIdenticalToWhenDefined C = some true) :
    A.isIdenticalToWhenDefined C = some true := by
  obtain ⟨hop, hn, ht, hops, hbl, hs⟩ := (identical_characterisation A B hA hB).1.mp h1
  obtain ⟨hop2, hn2, ht2, hops2, hbl2, hs2⟩ := (identical_characterisation B C hB hC).1.mp h2
  refine (identical_characterisation A C hA hC).1.mpr
    ⟨hop.trans hop2, hn.trans hn2, ht.trans ht2, ?_, ?_,
      hasSameSpecialState_trans A B C false hs hs2⟩
  · intro i hi
    exact (hops i hi).trans (hops2 i (by rw [← hn]; exact hi))
  · intro hphi
    exact (hbl hphi).trans (hbl2 (hop ▸ hphi))

theorem isSameOperationAs_symm (A B : Instruction) (flags : Nat)
    (h : A.isSameOperationAs B flags = some true) :
    B.isSameOperationAs A flags = some true := by
  obtain ⟨hop, hn, ht, hops, hs⟩ := (isSameOperationAs_iff_aux A B flags).1.mp h
  refine (isSameOperationAs_iff_aux B A flags).1.mpr
    ⟨hop.symm, hn.symm, typesDiffer_symm _ _ _ ht, ?_, hasSameSpecialState_symm A B _ hs⟩
  intro j b a hb ha
  exact typesDiffer_symm _ _ _ (hops j a b ha hb)

theorem isSameOperationAs_trans (A B C : Instruction) (flags : Nat)
    (h1 : A.isSameOperationAs B flags = some true)
    (h2 : B.isSameOperationAs C flags = some true) :
    A.isSameOperationAs C flags = some true := by
  obtain ⟨hop, hn, ht, hops, hs⟩ := (isSameOperationAs_iff_aux A B flags).1.mp h1
  obtain ⟨hop2, hn2, ht2, hops2, hs2⟩ := (isSameOperationAs_iff_aux B C flags).1.mp h2
  refine (isSameOperationAs_iff_aux A C flags).1.mpr
    ⟨hop.trans hop2, hn.trans hn2, typesDiffer_trans _ _ _ _ ht ht2, ?_,
      hasSameSpecialState_trans A B C _ hs hs2⟩
  intro j a c ha hc
  have hj : j < A.operands.length := by
    by_contra x
    rw [List.getElem?_eq_none (by omega)] at ha
    simp at ha
  have hjB : j < B.operands.length := by
    have : A.operands.length = B.operands.length := hn
    omega
  have hb : B.operands[j]? = some (B.operands[j]) := List.getElem?_eq_getElem hjB
  exact typesDiffer_trans _ _ _ _ (hops j a _ ha hb) (hops2 j _ c hb hc)

/-- C30: `isIdenticalTo`, `isIdenticalToWhenDefined` and `isSameOperationAs`
with fixed flags are reflexive, symmetric and transitive, and so is
`hasSameSpecialState` with a fixed alignment switch among instructions of one
opcode.  A phi node is taken with one incoming block per incoming value. -/
theorem equivalence_laws (A B C : Instruction) (flags : Nat) (ign : Bool)
    (hA : A.opcode = Opcode.PHI → A.blocks.length = A.operands.length)
    (hB : B.opcode = Opcode.PHI → B.blocks.length = B.operands.length)
    (hC : C.opcode = Opcode.PHI → C.blocks.length = C.operands.length) :
    (A.isIdenticalTo A = some true ∧ A.isIdenticalToWhenDefined A = some true ∧
      A.isSameOperationAs A flags = some true ∧ A.hasSameSpecialState A ign = some true) ∧
    ((A.isIdenticalTo B = some true → B.isIdenticalTo A = some true) ∧
      (A.isIdenticalToWhenDefined B = some true → B.isIdenticalToWhenDefined A = some true) ∧
      (A.isSameOperationAs B flags = some true → B.isSameOperationAs A flags = some true) ∧
      (A.opcode = B.opcode → A.hasSameSpecialState B ign = some true →
        B.hasSameSpecialState A ign = some true)) ∧
    ((A.isIdenticalTo B = some true → B.isIdenticalTo C = some true →
        A.isIdenticalTo C = some true) ∧
      (A.isIdenticalToWhenDefined B = some true → B.isIdenticalToWhenDefined C = some true →
        A.isIdenticalToWhenDefined C = some true) ∧
      (A.isSameOperationAs B flags = some true → B.isSameOperationAs C flags = some true →
        A.isSameOperationAs C flags = some true) ∧
      (A.opcode = B.opcode → B.opcode = C.opcode →
        A.hasSameSpecialState B ign = some true → B.hasSameSpecialState C ign = some true →
        A.hasSameSpecialState C ign = some true)) ∧
    (A.opcode = B.opcode →
      A.hasSameSpecialState B ign = some true ∨ A.hasSameSpecialState B ign = some false) := by
  have cAB := (identical_characterisation A B hA hB).2.1
  have cBA := (identical_characterisation B A hB hA).2.1
  have cBC := (identical_characterisation B C hB hC).2.1
  have cAC := (identical_characterisation A C hA hC).2.1
  have cAA := (identical_characterisation A A hA hA).2.1
  refine ⟨⟨?_, isIdenticalToWhenDefined_refl A, ?_, hasSameSpecialState_refl A ign⟩,
    ⟨?_, isIdenticalToWhenDefined_symm A B hA hB, isSameOperationAs_symm A B flags, ?_⟩,
    ⟨?_, isIdenticalToWhenDefined_trans A B C hA hB hC, isSameOperationAs_trans A B C flags, ?_⟩,
    hasSameSpecialState_total A B ign⟩
  · exact cAA.mpr ⟨isIdenticalToWhenDefined_refl A, rfl⟩
  · refine (isSameOperationAs_iff_aux A A flags).1.mpr
      ⟨rfl, rfl, typesDiffer_self _ _, ?_, hasSameSpecialState_refl A _⟩
    intro j a b ha hb
    rw [ha] at hb
    rw [Option.some.inj hb]
    exact typesDiffer_self _ _
  · intro h
    obtain ⟨h1, h2⟩ := cAB.mp h
    exact cBA.mpr ⟨isIdenticalToWhenDefined_symm A B hA hB h1, h2.symm⟩
  · intro _ h
    exact hasSameSpecialState_symm A B ign h
  · intro h h'
    obtain ⟨h1, h2⟩ := cAB.mp h
    obtain ⟨h3, h4⟩ := cBC.mp h'
    exact cAC.mpr ⟨isIdenticalToWhenDefined_trans A B C hA hB hC h1 h3, h2.trans h4⟩
  · intro _ _ h h'
    exact hasSameSpecialState_trans A B C ign h h'

/-- Instance of C30 at three phi nodes. -/
theorem equivalence_laws_witness :
    phiA.isIdenticalTo phiA = some true ∧ phiA.isIdenticalToWhenDefined phiA = some true ∧
      phiA.isSameOperationAs phiA 3 = some true ∧
      phiA.hasSameSpecialState phiA true = some true :=
  (equivalence_laws phiA phiB phiA 3 true (by decide) (by decide) (by decide)).1

/-! ### Successor replacement -/

theorem replaceSuccessorWith_loop (I : Instruction) (OldBB NewBB : Nat)
    (hT : I.isTerminator = true) (n : Nat) (hn : n ≤ I.successors.length) :
    ∃ l : List Nat, l.length = I.successors.length ∧
      (∀ i, l[i]? = if i < n then (I.successors[i]?).map (replacedSuccessor OldBB NewBB)
        else I.successors[i]?) ∧
      (List.range n).foldlM
        (fun (T : Instruction) (Idx : Nat) => do
          let S ← T.getSuccessor Idx
          (if S = OldBB then T.setSuccessor Idx NewBB else some T))
        I = some { I with successors := l } := by
  induction n with
  | zero =>
    exact ⟨I.successors, rfl, by simp, rfl⟩
  | succ n ih =>
    obtain ⟨l, hlen, hget, hfold⟩ := ih (by omega)
    have hnl : n < l.length := by omega
    have hTl : isTerminator { I with successors := l } = true := hT
    have hln : l[n]? = I.successors[n]? := by
      rw [hget n]
      simp
    have hIn : I.successors[n]? = some (I.successors[n]) := List.getElem?_eq_getElem (by omega)
    rw [List.range_succ, List.foldlM_append, hfold]
    by_cases hs : I.successors[n] = OldBB
    · refine ⟨l.set n NewBB, by simp [hlen], ?_, ?_⟩
      · intro i
        rw [List.getElem?_set]
        by_cases hi : n = i
        · subst hi
          simp [hnl, hIn, replacedSuccessor, hs]
        · rw [if_neg hi, hget i]
          by_cases hi2 : i < n
          · simp [hi2, Nat.lt_succ_of_lt hi2]
          · have : ¬ i < n + 1 := by omega
            simp [hi2, this]
      · simp [getSuccessor, setSuccessor, hTl, hln, hIn, hs, hnl]
    · refine ⟨l, hlen, ?_, ?_⟩
      · intro i
        rw [hget i]
        by_cases hi : i = n
        · subst hi
          simp [hIn, replacedSuccessor, hs]
        · by_cases hi2 : i < n
          · simp [hi2, Nat.lt_succ_of_lt hi2]
          · have : ¬ i < n + 1 := by omega
            simp [hi2, this]
      · simp [getSuccessor, hTl, hln, hIn, hs]

theorem replaceSuccessorWith_eq (T : Instruction) (OldBB NewBB : Nat)
    (hT : T.isTerminator = true) :
    T.replaceSuccessorWith OldBB NewBB =
      some { T with successors := T.successors.map (replacedSuccessor OldBB NewBB) } := by
  obtain ⟨l, hlen, hget, hfold⟩ :=
    replaceSuccessorWith_loop T OldBB NewBB hT T.successors.length (Nat.le_refl _)
  have hl : l = T.successors.map (replacedSuccessor OldBB NewBB) := by
    apply List.ext_getElem?
    intro i
    rw [hget i, List.getElem?_map]
    by_cases hi : i < T.successors.length
    · simp [hi]
    · simp [hi, List.getElem?_eq_none (Nat.le_of_not_lt hi)]
  unfold replaceSuccessorWith getNumSuccessors
  rw [if_pos hT]
  rw [hl] at hfold
  exact hfold

/-- C26: for a terminator `T`, `replaceSuccessorWith(old, new)` returns, keeps
the number of successors and everything but the successor slots, and slot `i`
holds `new` if it held `old` and its former block otherwise.  Hence with
`old ≠ new` no slot holds `old` afterwards, and when no slot held `old` the
terminator is unchanged. -/
theorem replaceSuccessorWith_spec (T : Instruction) (OldBB NewBB : Nat)
    (hT : T.isTerminator = true) :
    ∃ T1 : Instruction, T.replaceSuccessorWith OldBB NewBB = some T1 ∧
      T1 = { T with successors := T1.successors } ∧
      T1.getNumSuccessors = T.getNumSuccessors ∧
      (∀ i, T1.getSuccessor i =
        (T.getSuccessor i).map (fun s => if s = OldBB then NewBB else s)) ∧
      (OldBB ≠ NewBB → ∀ i, T1.getSuccessor i ≠ some OldBB) ∧
      ((∀ i, T.getSuccessor i ≠ some OldBB) → T1 = T) := by
  have hT1 : isTerminator
      { T with successors := T.successors.map (replacedSuccessor OldBB NewBB) } = true := hT
  have hget : ∀ i, getSuccessor
      { T with successors := T.successors.map (replacedSuccessor OldBB NewBB) } i =
      (T.getSuccessor i).map (fun s => if s = OldBB then NewBB else s) := by
    intro i
    unfold getSuccessor
    rw [if_pos hT1, if_pos hT]
    simp only [List.getElem?_map]
    rfl
  refine ⟨_, replaceSuccessorWith_eq T OldBB NewBB hT, rfl, ?_, hget, ?_, ?_⟩
  · unfold getNumSuccessors
    rw [if_pos hT1, if_pos hT]
    simp
  · intro hne i
    rw [hget i]
    cases hs : T.getSuccessor i with
    | none => simp
    | some s =>
      by_cases h : s = OldBB
      · simp [h]
        exact fun e => hne e.symm
      · simp [h]
  · intro hno
    have hmap : T.successors.map (replacedSuccessor OldBB NewBB) = T.successors := by
      apply List.ext_getElem?
      intro i
      rw [List.getElem?_map]
      cases hs : T.successors[i]? with
      | none => rfl
      | some s =>
        have : T.getSuccessor i = some s := by
          unfold getSuccessor
          rw [if_pos hT, hs]
        have hne : s ≠ OldBB := by
          intro e
          exact hno i (by rw [this, e])
        simp [replacedSuccessor, hne]
    rw [hmap]

/-- Instance of C26 at a switch with two slots pointing to block 1. -/
theorem replaceSuccessorWith_spec_witness :
    ∃ T1 : Instruction, switchTwice.replaceSuccessorWith 1 7 = some T1 ∧
      T1 = { switchTwice with successors := T1.successors } ∧
      T1.getNumSuccessors = switchTwice.getNumSuccessors ∧
      (∀ i, T1.getSuccessor i =
        (switchTwice.getSuccessor i).map (fun s => if s = 1 then 7 else s)) ∧
      ((1 : Nat) ≠ 7 → ∀ i, T1.getSuccessor i ≠ some 1) ∧
      ((∀ i, switchTwice.getSuccessor i ≠ some 1) → T1 = switchTwice) :=
  replaceSuccessorWith_spec switchTwice 1 7 (by decide)

/-! ### Copying metadata -/

theorem lookupKind_cons (e : Nat × Nat) (l : List (Nat × Nat)) (k : Nat) :
    lookupKind (e :: l) k = if e.1 = k then some e.2 else lookupKind l k := by
  unfold lookupKind
  by_cases h : e.1 = k
  · simp [List.find?_cons, h]
  · simp [List.find?_cons, h]

theorem lookupKind_none (l : List (Nat × Nat)) (k : Nat) (h : k ∉ l.map Prod.fst) :
    lookupKind l k = none := by
  induction l with
  | nil => rfl
  | cons e l ih =>
    rw [List.map_cons, List.mem_cons, not_or] at h
    rw [lookupKind_cons, if_neg (fun x => h.1 x.symm)]
    exact ih h.2

theorem lookupKind_none_of_any (l : List (Nat × Nat)) (k : Nat)
    (h : l.any (fun e => e.1 == k) = false) : lookupKind l k = none := by
  apply lookupKind_none
  intro hm
  obtain ⟨e, he, hek⟩ := List.mem_map.mp hm
  have : l.any (fun e => e.1 == k) = true := List.any_eq_true.mpr ⟨e, he, by simp [hek]⟩
  rw [h] at this
  exact absurd this (by simp)

theorem lookupKind_map_set (l : List (Nat × Nat)) (K N k : Nat)
    (h : l.any (fun e => e.1 == K) = true) :
    lookupKind (l.map (fun e => if e.1 = K then (K, N) else e)) k =
      if k = K then some N else lookupKind l k := by
  induction l with
  | nil => simp at h
  | cons e l ih =>
    rw [List.map_cons, lookupKind_cons, lookupKind_cons]
    by_cases h1 : e.1 = K
    · by_cases h2 : k = K
      · simp [h1, h2]
      · have h3 : ¬ K = k := fun x => h2 x.symm
        simp only [h1, if_true, h3, if_false, h2]
        by_cases h4 : l.any (fun e => e.1 == K) = true
        · rw [ih h4, if_neg h2]
        · have h5 : ∀ l2 : List (Nat × Nat), lookupKind
              (l2.map (fun e => if e.1 = K then (K, N) else e)) k = lookupKind l2 k := by
            intro l2
            induction l2 with
            | nil => rfl
            | cons e2 l2 ih2 =>
              rw [List.map_cons, lookupKind_cons, lookupKind_cons, ih2]
              by_cases h6 : e2.1 = K
              · simp [h6, h3]
              · simp [h6]
          exact h5 l
    · have h4 : l.any (fun e => e.1 == K) = true := by
        simpa [List.any_cons, h1] using h
      simp only [h1, if_false]
      rw [ih h4]
      by_cases h2 : k = K
      · have : ¬ e.1 = k := by rw [h2]; exact h1
        simp [h2, this, h1]
      · simp [h2]

theorem lookupKind_append_single (l : List (Nat × Nat)) (K N k : Nat)
    (h : lookupKind l K = none) :
    lookupKind (l ++ [(K, N)]) k = if k = K then some N else lookupKind l k := by
  induction l with
  | nil =>
    rw [List.nil_append, lookupKind_cons]
    by_cases h2 : k = K
    · simp [h2]
    · have h3 : ¬ K = k := fun x => h2 x.symm
      simp [h2, h3, lookupKind]
  | cons e l ih =>
    rw [lookupKind_cons] at h
    by_cases h1 : e.1 = K
    · rw [if_pos h1] at h
      simp at h
    · rw [if_neg h1] at h
      rw [List.cons_append, lookupKind_cons, lookupKind_cons, ih h]
      by_cases h2 : k = K
      · have : ¬ e.1 = k := by rw [h2]; exact h1
        simp [h2, this, h1]
      · simp [h2]

theorem setMetadata_getMetadata (I : Instruction) (K N k : Nat) (hK : K ≠ MD_dbg)
    (hk : k ≠ MD_dbg) :
    (I.setMetadata K N).getMetadata k = if k = K then some N else I.getMetadata k := by
  unfold setMetadata getMetadata
  rw [if_neg hK, if_neg hk]
  by_cases ha : I.metadata.any (fun e => e.1 == K) = true
  · rw [if_pos ha]
    simp only [if_neg hk]
    exact lookupKind_map_set I.metadata K N k ha
  · rw [if_neg ha]
    simp only [if_neg hk]
    exact lookupKind_append_single I.metadata K N k
      (lookupKind_none_of_any _ _ (Bool.eq_false_iff.mpr ha))

theorem setMetadata_DbgLoc (I : Instruction) (K N : Nat) (hK : K ≠ MD_dbg) :
    (I.setMetadata K N).DbgLoc = I.DbgLoc := by
  unfold setMetadata
  rw [if_neg hK]
  split <;> rfl

theorem copyMetadata_fold (WL : List Nat) (L : List (Nat × Nat)) :
    ∀ acc : Instruction, MD_dbg ∉ L.map Prod.fst → (L.map Prod.fst).Nodup →
      (L.foldl (fun acc MD =>
          if WL.isEmpty || WL.contains MD.1 then acc.setMetadata MD.1 MD.2 else acc) acc).DbgLoc =
        acc.DbgLoc ∧
      ∀ k, k ≠ MD_dbg →
        (L.foldl (fun acc MD =>
          if WL.isEmpty || WL.contains MD.1 then acc.setMetadata MD.1 MD.2 else acc)
          acc).getMetadata k =
        if (lookupKind L k).isSome = true ∧ (WL = [] ∨ k ∈ WL) then lookupKind L k
        else acc.getMetadata k := by
  induction L with
  | nil =>
    intro acc _ _
    exact ⟨rfl, fun k _ => by simp [lookupKind]⟩
  | cons e L ih =>
    intro acc hdbg hnd
    rw [List.map_cons, List.mem_cons, not_or] at hdbg
    rw [List.map_cons, List.nodup_cons] at hnd
    have he : e.1 ≠ MD_dbg := fun x => hdbg.1 x.symm
    obtain ⟨ih1, ih2⟩ := ih
      (if WL.isEmpty || WL.contains e.1 then acc.setMetadata e.1 e.2 else acc) hdbg.2 hnd.2
    rw [List.foldl_cons]
    constructor
    · rw [ih1]
      split
      · exact setMetadata_DbgLoc acc e.1 e.2 he
      · rfl
    · intro k hk
      rw [ih2 k hk, lookupKind_cons]
      by_cases hek : e.1 = k
      · have hn : lookupKind L k = none := lookupKind_none L k (hek ▸ hnd.1)
        rw [hn, if_pos hek]
        simp only [Option.isSome_none, Bool.false_eq_true, false_and, if_false,
          Option.isSome_some, true_and]
        by_cases hw : WL = [] ∨ k ∈ WL
        · have hw2 : (WL.isEmpty || WL.contains e.1) = true := by
            rw [hek]
            simpa [List.isEmpty_iff] using hw
          rw [if_pos hw2, if_pos hw, setMetadata_getMetadata acc e.1 e.2 k he hk,
            if_pos hek.symm]
        · have hw2 : ¬ (WL.isEmpty || WL.contains e.1) = true := by
            rw [hek]
            simpa [List.isEmpty_iff] using hw
          rw [if_neg hw2, if_neg hw]
      · rw [if_neg hek]
        have hacc : (if (WL.isEmpty || WL.contains e.1) = true then acc.setMetadata e.1 e.2
            else acc).getMetadata k = acc.getMetadata k := by
          split
          · rw [setMetadata_getMetadata acc e.1 e.2 k he hk, if_neg (fun x => hek x.symm)]
          · rfl
        rw [hacc]

/-- C27 fails as stated: the debug location of `D` can equal that of `S`
after the call although nothing was copied. A source without any metadata
makes `copyMetadata` return at once, and an allow-list without the
debug-location kind leaves the location alone; in both cases a destination
whose location already was that of the source still has it. -/
theorem copyMetadata_equal_locations_counterexample :
    (loadAlign4.hasMetadata = false ∧
      (loadAlign8.copyMetadata loadAlign4 []).DbgLoc = loadAlign4.DbgLoc ∧
      ¬ ((loadAlign8.copyMetadata loadAlign4 []).DbgLoc = loadAlign4.DbgLoc ↔
        loadAlign4.hasMetadata = true ∧ (([] : List Nat) = [] ∨ MD_dbg ∈ ([] : List Nat)))) ∧
    (loadWithRange.hasMetadata = true ∧
      ((loadAlign8.setDebugLoc (some 9)).copyMetadata loadWithRange [MD_range]).DbgLoc =
        loadWithRange.DbgLoc ∧
      ¬ (((loadAlign8.setDebugLoc (some 9)).copyMetadata loadWithRange [MD_range]).DbgLoc =
          loadWithRange.DbgLoc ↔
        loadWithRange.hasMetadata = true ∧ ([MD_range] = [] ∨ MD_dbg ∈ [MD_range]))) := by
  decide

/-- C27 (amended): `D.copyMetadata(S, WL)` for a source whose attachments have
pairwise different kinds, none of them the debug-location kind.  For a kind
`k` other than the debug location that `S` carries, the entry of `D` becomes
the entry of `S` when `WL` is empty or contains `k` and stays as it was
otherwise; a kind that `S` does not carry stays as it was; the debug location
of `D` becomes that of `S` when `S` has any metadata and `WL` is empty or
contains the debug-location kind, and stays as it was otherwise; so it equals
that of `S` after the call iff it already did before the call, or `S` has any
metadata and `WL` is empty or contains the debug-location kind; and when `S`
has no metadata and no debug location `D` is unchanged. -/
theorem copyMetadata_spec (D S : Instruction) (WL : List Nat)
    (hkeys : (S.metadata.map Prod.fst).Nodup) (hdbg : MD_dbg ∉ S.metadata.map Prod.fst) :
    (∀ k, k ≠ MD_dbg → (S.getMetadata k).isSome = true →
      (D.copyMetadata S WL).getMetadata k =
        if WL = [] ∨ k ∈ WL then S.getMetadata k else D.getMetadata k) ∧
    (∀ k, k ≠ MD_dbg → S.getMetadata k = none →
      (D.copyMetadata S WL).getMetadata k = D.getMetadata k) ∧
    ((D.copyMetadata S WL).DbgLoc =
      if S.hasMetadata = true ∧ (WL = [] ∨ MD_dbg ∈ WL) then S.DbgLoc else D.DbgLoc) ∧
    ((D.copyMetadata S WL).DbgLoc = S.DbgLoc ↔
      D.DbgLoc = S.DbgLoc ∨ (S.hasMetadata = true ∧ (WL = [] ∨ MD_dbg ∈ WL))) ∧
    (D.DbgLoc ≠ S.DbgLoc →
      ((D.copyMetadata S WL).DbgLoc = S.DbgLoc ↔
        S.hasMetadata = true ∧ (WL = [] ∨ MD_dbg ∈ WL))) ∧
    (S.hasMetadata = false → D.copyMetadata S WL = D) := by
  have hloc : (D.copyMetadata S WL).DbgLoc =
      if S.hasMetadata = true ∧ (WL = [] ∨ MD_dbg ∈ WL) then S.DbgLoc else D.DbgLoc := by
    unfold copyMetadata
    by_cases hM : S.hasMetadata = true
    · rw [hM]
      simp only [Bool.not_true, Bool.false_eq_true, if_false, true_and]
      by_cases hw : WL = [] ∨ MD_dbg ∈ WL
      · have hw2 : (WL.isEmpty || WL.contains MD_dbg) = true := by
          simpa [List.isEmpty_iff] using hw
        rw [if_pos hw2, if_pos hw]
        rfl
      · have hw2 : ¬ (WL.isEmpty || WL.contains MD_dbg) = true := by
          simpa [List.isEmpty_iff] using hw
        rw [if_neg hw2, if_neg hw]
        exact (copyMetadata_fold WL S.metadata D hdbg hkeys).1
    · have hM2 : S.hasMetadata = false := by simpa using hM
      rw [hM2]
      simp
  have hget : ∀ k, k ≠ MD_dbg → (D.copyMetadata S WL).getMetadata k =
      if (lookupKind S.metadata k).isSome = true ∧ (WL = [] ∨ k ∈ WL) then lookupKind S.metadata k
      else D.getMetadata k := by
    intro k hk
    unfold copyMetadata
    by_cases hM : S.hasMetadata = true
    · rw [hM]
      simp only [Bool.not_true, Bool.false_eq_true, if_false]
      have hf := (copyMetadata_fold WL S.metadata D hdbg hkeys).2 k hk
      split
      · have : ∀ (J : Instruction) (loc : Option Nat),
            (J.setDebugLoc loc).getMetadata k = J.getMetadata k := by
          intro J loc
          unfold setDebugLoc getMetadata
          rw [if_neg hk, if_neg hk]
        rw [this]
        exact hf
      · exact hf
    · have hM2 : S.hasMetadata = false := by simpa using hM
      have hempty : S.metadata = [] := by
        unfold hasMetadata at hM2
        simp only [Bool.or_eq_false_iff, Bool.not_eq_false_eq_eq_true, List.isEmpty_iff] at hM2
        exact hM2.2
      rw [hM2, hempty]
      simp [lookupKind]
  refine ⟨?_, ?_, hloc, ?_, ?_, ?_⟩
  · intro k hk hs
    have hS : S.getMetadata k = lookupKind S.metadata k := by
      unfold getMetadata
      rw [if_neg hk]
    rw [hget k hk, hS]
    rw [hS] at hs
    by_cases hw : WL = [] ∨ k ∈ WL
    · rw [if_pos ⟨hs, hw⟩, if_pos hw]
    · rw [if_neg (fun x => hw x.2), if_neg hw]
  · intro k hk hs
    have hS : S.getMetadata k = lookupKind S.metadata k := by
      unfold getMetadata
      rw [if_neg hk]
    rw [hget k hk]
    rw [hS] at hs
    rw [hs]
    simp
  · rw [hloc]
    by_cases hc : S.hasMetadata = true ∧ (WL = [] ∨ MD_dbg ∈ WL)
    · rw [if_pos hc]
      exact ⟨fun _ => Or.inr hc, fun _ => rfl⟩
    · rw [if_neg hc]
      exact ⟨fun h => Or.inl h, fun h => h.elim id (fun x => absurd x hc)⟩
  · intro hne
    rw [hloc]
    constructor
    · intro h
      by_contra hc
      rw [if_neg hc] at h
      exact hne h
    · intro h
      rw [if_pos h]
  · intro hM
    unfold copyMetadata
    rw [hM]
    rfl

/-- Instance of C27 (amended): copying from `loadWithRange` with the
allow-list holding only the range kind copies the range attachment and leaves
the debug location of the destination as it was, so the location differs from
the source's afterwards. -/
theorem copyMetadata_spec_witness :
    (loadWithRange.metadata.map Prod.fst).Nodup ∧
      MD_dbg ∉ loadWithRange.metadata.map Prod.fst ∧
      (loadAlign8.copyMetadata loadWithRange [MD_range]).getMetadata MD_range = some 100 ∧
      (loadAlign8.copyMetadata loadWithRange [MD_range]).DbgLoc = loadAlign8.DbgLoc ∧
      (loadAlign8.copyMetadata loadWithRange [MD_range]).DbgLoc ≠ loadWithRange.DbgLoc :=
  ⟨by decide, by decide,
    ((copyMetadata_spec loadAlign8 loadWithRange [MD_range] (by decide) (by decide)).1
      MD_range (by decide) (by decide)).trans (by decide),
    ((copyMetadata_spec loadAlign8 loadWithRange [MD_range] (by decide) (by decide)).2.2.1).trans
      (by decide),
    fun h => absurd
      (((copyMetadata_spec loadAlign8 loadWithRange [MD_range] (by decide) (by decide)).2.2.2.1).mp
        h) (by decide)⟩

/-! ### Dropping attributes and metadata that imply undefined behaviour -/

theorem lookupKind_filter (l : List (Nat × Nat)) (p : Nat → Bool) (k : Nat) :
    lookupKind (l.filter (fun e => p e.1)) k = if p k = true then lookupKind l k else none := by
  induction l with
  | nil =>
    simp [lookupKind]
  | cons e l ih =>
    by_cases hp : p e.1 = true
    · have hf : (e :: l).filter (fun e => p e.1) = e :: l.filter (fun e => p e.1) := by
        simp only [List.filter_cons, hp, if_true]
      rw [hf, lookupKind_cons, lookupKind_cons, ih]
      by_cases hek : e.1 = k
      · rw [if_pos hek, if_pos hek, if_pos (hek ▸ hp)]
      · rw [if_neg hek, if_neg hek]
    · have hf : (e :: l).filter (fun e => p e.1) = l.filter (fun e => p e.1) := by
        simp only [List.filter_cons, hp, Bool.false_eq_true, if_false]
      rw [hf, ih, lookupKind_cons]
      by_cases hek : e.1 = k
      · rw [if_pos hek, if_neg (hek ▸ hp)]
        simp [hek ▸ hp]
      · rw [if_neg hek]

theorem removeParamAttrs_fold (Mask : List Nat) (n : Nat) (I : Instruction) :
    ∃ P : List (List Nat),
      (List.range n).foldl (fun CB ArgNo => CB.removeParamAttrs ArgNo Mask) I =
        { I with attributes := { I.attributes with paramAttrs := P } } ∧
      ∀ i, P[i]? = if i < n then
          (I.attributes.paramAttrs[i]?).map (fun s => s.filter (fun a => !Mask.contains a))
        else I.attributes.paramAttrs[i]? := by
  induction n with
  | zero => exact ⟨I.attributes.paramAttrs, rfl, by simp⟩
  | succ n ih =>
    obtain ⟨P, hfold, hget⟩ := ih
    rw [List.range_succ, List.foldl_append, hfold]
    refine ⟨P.set n ((P.getD n []).filter (fun a => !Mask.contains a)), rfl, ?_⟩
    intro i
    rw [List.getElem?_set]
    by_cases hi : n = i
    · subst hi
      rw [if_pos rfl, if_pos (Nat.lt_succ_self _)]
      have hP := hget n
      rw [if_neg (Nat.lt_irrefl _)] at hP
      by_cases hn : n < P.length
      · rw [if_pos hn]
        have h1 : P[n]? = some (P[n]) := List.getElem?_eq_getElem hn
        rw [← hP, h1]
        simp [List.getD_eq_getElem?_getD, h1]
      · rw [if_neg hn]
        have h1 : P[n]? = none := List.getElem?_eq_none (Nat.le_of_not_lt hn)
        rw [← hP, h1]
        rfl
    · rw [if_neg hi, hget i]
      by_cases hi2 : i < n
      · rw [if_pos hi2, if_pos (Nat.lt_succ_of_lt hi2)]
      · have : ¬ i < n + 1 := by omega
        rw [if_neg hi2, if_neg this]

/-- C28: after `dropUBImplyingAttrsAndMetadata()` the attachments are those of
the kinds range, nonnull, align and annotation (and the assignment-tracking
debug attachment) that were attached before, in the same order; the entries of
those four kinds and the debug location read as before; every other non-debug
kind reads as absent; `hasPoisonGeneratingMetadata()` answers as before.  For a
call-like instruction no argument and no return value carries a UB-implying
attribute afterwards, and the attributes of any other instruction are
untouched. -/
theorem dropUBImplyingAttrsAndMetadata_spec (I : Instruction) :
    (I.dropUBImplyingAttrsAndMetadata.metadata = I.metadata.filter (fun e =>
        [ MD_annotation, MD_range, MD_nonnull, MD_align].contains e.1 || e.1 == MD_DIAssignID)) ∧
    (∀ k, k ∈ [MD_range, MD_nonnull, MD_align, MD_annotation] →
      I.dropUBImplyingAttrsAndMetadata.getMetadata k = I.getMetadata k) ∧
    I.dropUBImplyingAttrsAndMetadata.DbgLoc = I.DbgLoc ∧
    (∀ k, k ∉ [MD_range, MD_nonnull, MD_align, MD_annotation] → k ≠ MD_dbg →
      k ≠ MD_DIAssignID → I.dropUBImplyingAttrsAndMetadata.getMetadata k = none) ∧
    I.dropUBImplyingAttrsAndMetadata.hasPoisonGeneratingMetadata =
      I.hasPoisonGeneratingMetadata ∧
    (I.isaCallBase = true →
      (∀ ArgNo, ArgNo < I.arg_size →
        ∀ a, a ∈ I.dropUBImplyingAttrsAndMetadata.attributes.paramAttrs.getD ArgNo [] →
          a ∉ AttributeFuncs.getUBImplyingAttributes) ∧
      (∀ a, a ∈ I.dropUBImplyingAttrsAndMetadata.attributes.retAttrs →
        a ∉ AttributeFuncs.getUBImplyingAttributes)) ∧
    (I.isaCallBase = false →
      I.dropUBImplyingAttrsAndMetadata.attributes = I.attributes) := by
  have hI1call : ∀ K : List Nat, (I.dropUnknownNonDebugMetadata K).isaCallBase = I.isaCallBase :=
    fun _ => rfl
  have hI1args : ∀ K : List Nat, (I.dropUnknownNonDebugMetadata K).arg_size = I.arg_size :=
    fun _ => rfl
  obtain ⟨P, hfold, hP⟩ := removeParamAttrs_fold AttributeFuncs.getUBImplyingAttributes
    I.arg_size (I.dropUnknownNonDebugMetadata [ MD_annotation, MD_range, MD_nonnull, MD_align])
  have hmd : I.dropUBImplyingAttrsAndMetadata.metadata = I.metadata.filter (fun e =>
      [ MD_annotation, MD_range, MD_nonnull, MD_align].contains e.1 || e.1 == MD_DIAssignID) := by
    unfold dropUBImplyingAttrsAndMetadata dropUBImplyingAttrsAndUnknownMetadata
    simp only [hI1call, hI1args]
    split
    · rfl
    · split
      · rfl
      · rw [hfold]
        rfl
  have hloc : I.dropUBImplyingAttrsAndMetadata.DbgLoc = I.DbgLoc := by
    unfold dropUBImplyingAttrsAndMetadata dropUBImplyingAttrsAndUnknownMetadata
    simp only [hI1call, hI1args]
    split
    · rfl
    · split
      · rfl
      · rw [hfold]
        rfl
  have hget : ∀ k, k ≠ MD_dbg → I.dropUBImplyingAttrsAndMetadata.getMetadata k =
      if ([ MD_annotation, MD_range, MD_nonnull, MD_align].contains k || k == MD_DIAssignID) = true
      then I.getMetadata k else none := by
    intro k hk
    unfold getMetadata
    rw [if_neg hk, if_neg hk, hmd]
    exact lookupKind_filter I.metadata
      (fun k => [ MD_annotation, MD_range, MD_nonnull, MD_align].contains k || k == MD_DIAssignID) k
  have hkept : ∀ k, k ∈ [MD_range, MD_nonnull, MD_align, MD_annotation] →
      I.dropUBImplyingAttrsAndMetadata.getMetadata k = I.getMetadata k := by
    intro k hk
    have hk0 : k ≠ MD_dbg := by
      intro e
      rw [e] at hk
      revert hk
      decide
    have hc : ([ MD_annotation, MD_range, MD_nonnull, MD_align].contains k ||
        k == MD_DIAssignID) = true := by
      simp only [List.mem_cons, List.mem_singleton, List.not_mem_nil, or_false] at hk
      rcases hk with h | h | h | h <;> rw [h] <;> decide
    rw [hget k hk0, if_pos hc]
  refine ⟨hmd, hkept, hloc, ?_, ?_, ?_, ?_⟩
  · intro k hk hk0 hk1
    have hc : ¬ ([ MD_annotation, MD_range, MD_nonnull, MD_align].contains k ||
        k == MD_DIAssignID) = true := by
      simp only [List.mem_cons, List.mem_singleton, List.not_mem_nil, or_false, not_or] at hk
      simp [hk.1, hk.2.1, hk.2.2.1, hk.2.2.2, hk1]
    rw [hget k hk0, if_neg hc]
  · unfold hasPoisonGeneratingMetadata hasMetadataKind
    rw [hkept MD_range (by decide), hkept MD_nonnull (by decide), hkept MD_align (by decide)]
  · intro hcall
    unfold dropUBImplyingAttrsAndMetadata dropUBImplyingAttrsAndUnknownMetadata
    simp only [hI1call, hI1args, hcall, Bool.not_true, Bool.false_eq_true, if_false]
    by_cases hE : (I.dropUnknownNonDebugMetadata
        [ MD_annotation, MD_range, MD_nonnull, MD_align]).attributes.isEmpty = true
    · rw [if_pos hE]
      have hE2 : I.attributes.isEmpty = true := hE
      unfold AttributeList.isEmpty at hE2
      simp only [Bool.and_eq_true, List.isEmpty_iff, List.all_eq_true] at hE2
      constructor
      · intro ArgNo _ a ha
        exfalso
        have hA : (I.attributes.paramAttrs.getD ArgNo []) = [] := by
          rw [List.getD_eq_getElem?_getD]
          cases hq : I.attributes.paramAttrs[ArgNo]? with
          | none => rfl
          | some s =>
            have := hE2.2 s (List.getElem?_mem hq)
            simpa using this
        have ha2 : a ∈ I.attributes.paramAttrs.getD ArgNo [] := ha
        rw [hA] at ha2
        exact absurd ha2 (List.not_mem_nil a)
      · intro a ha
        exfalso
        have ha2 : a ∈ I.attributes.retAttrs := ha
        rw [hE2.1.2] at ha2
        exact absurd ha2 (List.not_mem_nil a)
    · rw [if_neg hE, hfold]
      constructor
      · intro ArgNo hArg a ha
        have ha2 : a ∈ P.getD ArgNo [] := ha
        rw [List.getD_eq_getElem?_getD, hP ArgNo, if_pos hArg] at ha2
        cases hq : (I.dropUnknownNonDebugMetadata
            [ MD_annotation, MD_range, MD_nonnull, MD_align]).attributes.paramAttrs[ArgNo]? with
        | none =>
          rw [hq] at ha2
          exact absurd ha2 (List.not_mem_nil a)
        | some s =>
          rw [hq] at ha2
          simp only [Option.map_some', Option.getD_some, List.mem_filter, Bool.not_eq_true',
            List.contains_eq_any_beq, List.any_eq_false, beq_iff_eq] at ha2
          intro hmem
          exact ha2.2 a hmem rfl
      · intro a ha
        have ha2 : a ∈ I.attributes.retAttrs.filter
            (fun a => !AttributeFuncs.getUBImplyingAttributes.contains a) := ha
        simp only [List.mem_filter, Bool.not_eq_true', List.contains_eq_any_beq,
          List.any_eq_false, beq_iff_eq] at ha2
        intro hmem
        exact ha2.2 a hmem rfl
  · intro hcall
    unfold dropUBImplyingAttrsAndMetadata dropUBImplyingAttrsAndUnknownMetadata
    simp only [hI1call, hcall, Bool.not_false, if_true]
    rfl


/-- Instance of C28 at a call with a `noundef` argument and a
`dereferenceable` return value: both attributes and the attachment of kind 29
are dropped, the range attachment stays. -/
theorem dropUBImplyingAttrsAndMetadata_call :
    callNoUndef.dropUBImplyingAttrsAndMetadata.metadata = [(MD_range, 100)] ∧
      callNoUndef.dropUBImplyingAttrsAndMetadata.attributes.paramAttrs = [[40]] ∧
      callNoUndef.dropUBImplyingAttrsAndMetadata.attributes.retAttrs = [] ∧
      callNoUndef.arg_size = 1 := by
  decide

/-! ### List membership engine: markers at positions -/

theorem length_modifyAt (f : Node → Node) :
    ∀ (i : Nat) (l : List Node), (modifyAt f i l).length = l.length
  | _, [] => by simp [modifyAt]
  | 0, _ :: _ => by simp [modifyAt]
  | i + 1, _ :: l => by simp [modifyAt, length_modifyAt f i l]

theorem getElem?_modifyAt (f : Node → Node) :
    ∀ (i j : Nat) (l : List Node),
      (modifyAt f i l)[j]? = if i = j then (l[j]?).map f else l[j]?
  | _, _, [] => by simp [modifyAt]
  | 0, 0, _ :: _ => by simp [modifyAt]
  | 0, j + 1, _ :: _ => by simp [modifyAt]
  | i + 1, 0, _ :: _ => by simp [modifyAt]
  | i + 1, j + 1, _ :: l => by simp [modifyAt, getElem?_modifyAt f i j l]

theorem map_modifyAt {β : Type} (g : Node → β) (f : Node → Node) (hf : ∀ N, g (f N) = g N) :
    ∀ (i : Nat) (l : List Node), (modifyAt f i l).map g = l.map g
  | _, [] => by simp [modifyAt]
  | 0, _ :: _ => by simp [modifyAt, hf]
  | i + 1, _ :: l => by simp [modifyAt, map_modifyAt g f hf i l]

theorem length_of_skeleton (B1 B2 : BasicBlock) (h : B1.skeleton = B2.skeleton) :
    B1.InstList.length = B2.InstList.length := by
  have := congrArg (fun s => s.1.length) h
  simpa [BasicBlock.skeleton] using this

theorem skeleton_setMarker (BB : BasicBlock) (i : Nat) (M : Option (List Nat)) :
    (BB.setMarker i M).skeleton = BB.skeleton := by
  unfold BasicBlock.setMarker BasicBlock.skeleton
  split
  · simp only []
    rw [map_modifyAt Node.skeleton (fun N => { N with DbgMarker := M }) (fun _ => rfl)]
  · rfl

theorem length_setMarker (BB : BasicBlock) (i : Nat) (M : Option (List Nat)) :
    (BB.setMarker i M).InstList.length = BB.InstList.length :=
  length_of_skeleton _ _ (skeleton_setMarker BB i M)

theorem getMarker_setMarker (BB : BasicBlock) (i j : Nat) (M : Option (List Nat)) :
    (BB.setMarker i M).getMarker j =
      if i = j ∨ (BB.InstList.length ≤ i ∧ BB.InstList.length ≤ j) then M
      else BB.getMarker j := by
  unfold BasicBlock.setMarker
  by_cases hi : i < BB.InstList.length
  · rw [if_pos hi]
    unfold BasicBlock.getMarker
    simp only [getElem?_modifyAt]
    by_cases hij : i = j
    · subst hij
      rw [if_pos rfl, if_pos (Or.inl rfl), List.getElem?_eq_getElem hi]
      rfl
    · rw [if_neg hij, if_neg (by omega)]
  · rw [if_neg hi]
    unfold BasicBlock.getMarker
    simp only []
    by_cases hj : j < BB.InstList.length
    · rw [List.getElem?_eq_getElem hj, if_neg (by omega)]
    · rw [List.getElem?_eq_none (by omega), if_pos (by omega)]

theorem getMarker_congr (BB : BasicBlock) (a b : Nat)
    (h : a = b ∨ (BB.InstList.length ≤ a ∧ BB.InstList.length ≤ b)) :
    BB.getMarker a = BB.getMarker b := by
  rcases h with h | h
  · rw [h]
  · unfold BasicBlock.getMarker
    rw [List.getElem?_eq_none h.1, List.getElem?_eq_none h.2]

theorem annotationsAt_congr (BB : BasicBlock) (a b : Nat)
    (h : a = b ∨ (BB.InstList.length ≤ a ∧ BB.InstList.length ≤ b)) :
    BB.annotationsAt a = BB.annotationsAt b := by
  unfold BasicBlock.annotationsAt
  rw [getMarker_congr BB a b h]

theorem skeleton_createMarker (BB : BasicBlock) (i : Nat) :
    (BB.createMarker i).skeleton = BB.skeleton := by
  unfold BasicBlock.createMarker
  split
  · rfl
  · exact skeleton_setMarker _ _ _

theorem annotationsAt_createMarker (BB : BasicBlock) (i j : Nat) :
    (BB.createMarker i).annotationsAt j = BB.annotationsAt j := by
  unfold BasicBlock.createMarker
  cases h : BB.getMarker i with
  | some v => rfl
  | none =>
    simp only []
    unfold BasicBlock.annotationsAt
    rw [getMarker_setMarker]
    split
    · rename_i hc
      have : BB.getMarker j = none := by
        rcases hc with hc | hc
        · rw [← hc, h]
        · unfold BasicBlock.getMarker at h ⊢
          rw [List.getElem?_eq_none hc.1] at h
          rw [List.getElem?_eq_none hc.2]
          exact h
      rw [this]
      rfl
    · rfl

theorem getMarker_createMarker_self (BB : BasicBlock) (i : Nat) :
    ((BB.createMarker i).getMarker i).isSome = true := by
  unfold BasicBlock.createMarker
  cases h : BB.getMarker i with
  | some v => simp [h]
  | none =>
    simp only []
    rw [getMarker_setMarker, if_pos (Or.inl rfl)]
    rfl

theorem skeleton_absorbDebugValues (BB : BasicBlock) (d s : Nat) (h : Bool) :
    (BB.absorbDebugValues d s h).skeleton = BB.skeleton := by
  unfold BasicBlock.absorbDebugValues
  simp only [skeleton_setMarker]

theorem annotationsAt_absorbDebugValues (BB : BasicBlock) (d s : Nat) (h : Bool) (j : Nat) :
    (BB.absorbDebugValues d s h).annotationsAt j =
      if d = j ∨ (BB.InstList.length ≤ d ∧ BB.InstList.length ≤ j) then
        (if h then BB.annotationsAt s ++ BB.annotationsAt d
         else BB.annotationsAt d ++ BB.annotationsAt s)
      else if s = j ∨ (BB.InstList.length ≤ s ∧ BB.InstList.length ≤ j) then []
      else BB.annotationsAt j := by
  unfold BasicBlock.absorbDebugValues BasicBlock.annotationsAt
  simp only [getMarker_setMarker, length_setMarker]
  split
  · cases h <;> rfl
  · split <;> rfl

theorem skeleton_removeMarker (BB : BasicBlock) (i : Nat) :
    (BB.removeMarker i).skeleton = BB.skeleton := by
  unfold BasicBlock.removeMarker
  split
  · exact skeleton_setMarker _ _ _
  · rw [skeleton_setMarker, skeleton_absorbDebugValues]

theorem length_absorbDebugValues (BB : BasicBlock) (d s : Nat) (h : Bool) :
    (BB.absorbDebugValues d s h).InstList.length = BB.InstList.length :=
  length_of_skeleton _ _ (skeleton_absorbDebugValues BB d s h)

/-- The annotations after `removeMarker`: those of the owner stay behind in
front of the annotations at the next position. -/
theorem annotationsAt_removeMarker (BB : BasicBlock) (i j : Nat)
    (hi : i < BB.InstList.length) :
    (BB.removeMarker i).annotationsAt j =
      if i = j then []
      else if i + 1 = j ∨ (BB.InstList.length ≤ i + 1 ∧ BB.InstList.length ≤ j) then
        BB.annotationsAt i ++ BB.annotationsAt (i + 1)
      else BB.annotationsAt j := by
  unfold BasicBlock.removeMarker
  by_cases he : (BB.annotationsAt i).isEmpty = true
  · have he2 : ((BB.getMarker i).getD []).isEmpty = true := he
    rw [if_pos he2]
    have he3 : BB.annotationsAt i = [] := List.isEmpty_iff.mp he
    unfold BasicBlock.annotationsAt at he3 ⊢
    rw [getMarker_setMarker, he3]
    by_cases hij : i = j
    · rw [if_pos (Or.inl hij), if_pos hij]
      rfl
    · rw [if_neg (by omega), if_neg hij]
      split
      · rename_i hc
        rw [List.nil_append]
        exact (annotationsAt_congr BB (i + 1) j hc).symm
      · rfl
  · have he2 : ¬ ((BB.getMarker i).getD []).isEmpty = true := he
    rw [if_neg he2]
    have key := annotationsAt_absorbDebugValues BB (i + 1) i true j
    unfold BasicBlock.getNextMarker
    unfold BasicBlock.annotationsAt at key ⊢
    rw [getMarker_setMarker, length_absorbDebugValues]
    by_cases hij : i = j
    · rw [if_pos (Or.inl hij), if_pos hij]
      rfl
    · rw [if_neg (by omega), if_neg hij, key]
      split
      · rfl
      · rw [if_neg (by omega)]

theorem getMarker_removeMarker_self (BB : BasicBlock) (i : Nat) :
    (BB.removeMarker i).getMarker i = none := by
  unfold BasicBlock.removeMarker
  split <;> rw [getMarker_setMarker, if_pos (Or.inl rfl)]

theorem skeleton_handleMarkerRemoval (BB : BasicBlock) (i : Nat) :
    (handleMarkerRemoval BB i).skeleton = BB.skeleton := by
  unfold handleMarkerRemoval
  split
  · rfl
  · exact skeleton_removeMarker _ _

/-- In a container of the new debug format `handleMarkerRemoval` leaves the
annotations of the node behind, in front of those at the next position. -/
theorem annotationsAt_handleMarkerRemoval (BB : BasicBlock) (i j : Nat)
    (hi : i < BB.InstList.length) (hfmt : BB.IsNewDbgInfoFormat = true) :
    (handleMarkerRemoval BB i).annotationsAt j =
      if i = j then []
      else if i + 1 = j ∨ (BB.InstList.length ≤ i + 1 ∧ BB.InstList.length ≤ j) then
        BB.annotationsAt i ++ BB.annotationsAt (i + 1)
      else BB.annotationsAt j := by
  unfold handleMarkerRemoval
  by_cases hm : (BB.getMarker i).isNone = true
  · rw [if_pos (by simp [hm])]
    have h0 : BB.annotationsAt i = [] := by
      unfold BasicBlock.annotationsAt
      rw [Option.isNone_iff_eq_none.mp hm]
      rfl
    by_cases hij : i = j
    · rw [if_pos hij, ← hij, h0]
    · rw [if_neg hij, h0]
      split
      · rename_i hc
        rcases hc with hc | hc
        · rw [hc]
          rfl
        · unfold BasicBlock.annotationsAt BasicBlock.getMarker
          rw [List.getElem?_eq_none hc.1, List.getElem?_eq_none hc.2]
          rfl
      · rfl
  · rw [if_neg (by simp [hfmt, hm])]
    exact annotationsAt_removeMarker BB i j hi

theorem getMarker_handleMarkerRemoval_self (BB : BasicBlock) (i : Nat)
    (hfmt : BB.IsNewDbgInfoFormat = true) :
    (handleMarkerRemoval BB i).getMarker i = none := by
  unfold handleMarkerRemoval
  by_cases hm : (BB.getMarker i).isNone = true
  · rw [if_pos (by simp [hm])]
    exact Option.isNone_iff_eq_none.mp hm
  · rw [if_neg (by simp [hfmt, hm])]
    exact getMarker_removeMarker_self BB i

theorem annotationsAt_absorbDebugValues_valid (BB : BasicBlock) (d s : Nat) (h : Bool) (j : Nat)
    (hd : d ≤ BB.InstList.length) (hs : s ≤ BB.InstList.length) (hj : j ≤ BB.InstList.length) :
    (BB.absorbDebugValues d s h).annotationsAt j =
      if d = j then
        (if h then BB.annotationsAt s ++ BB.annotationsAt d
         else BB.annotationsAt d ++ BB.annotationsAt s)
      else if s = j then []
      else BB.annotationsAt j := by
  rw [annotationsAt_absorbDebugValues]
  by_cases h1 : d = j
  · rw [if_pos (Or.inl h1), if_pos h1]
  · rw [if_neg (by omega), if_neg h1]
    by_cases h2 : s = j
    · rw [if_pos (Or.inl h2), if_pos h2]
    · rw [if_neg (by omega), if_neg h2]

theorem annotationsAt_handleMarkerRemoval_valid (BB : BasicBlock) (i j : Nat)
    (hi : i < BB.InstList.length) (hj : j ≤ BB.InstList.length)
    (hfmt : BB.IsNewDbgInfoFormat = true) :
    (handleMarkerRemoval BB i).annotationsAt j =
      if i = j then []
      else if i + 1 = j then BB.annotationsAt i ++ BB.annotationsAt (i + 1)
      else BB.annotationsAt j := by
  rw [annotationsAt_handleMarkerRemoval BB i j hi hfmt]
  by_cases h1 : i = j
  · rw [if_pos h1, if_pos h1]
  · rw [if_neg h1, if_neg h1]
    by_cases h2 : i + 1 = j
    · rw [if_pos (Or.inl h2), if_pos h2]
    · rw [if_neg (by omega), if_neg h2]

/-! ### List membership engine: insertion and removal -/

theorem getElem?_insert (l : List Node) (p : Nat) (N : Node) (j : Nat) (hp : p ≤ l.length) :
    (l.take p ++ N :: l.drop p)[j]? =
      if j < p then l[j]? else if j = p then some N else l[j - 1]? := by
  have hlen : (l.take p).length = p := by
    rw [List.length_take]
    omega
  by_cases h1 : j < p
  · rw [if_pos h1, List.getElem?_append_left (by omega), List.getElem?_take_of_lt h1]
  · rw [if_neg h1, List.getElem?_append_right (by omega), hlen]
    by_cases h2 : j = p
    · rw [if_pos h2, h2]
      simp
    · rw [if_neg h2]
      have : j - p = (j - p - 1) + 1 := by omega
      rw [this, List.getElem?_cons_succ, List.getElem?_drop]
      congr 1
      omega

theorem getElem?_remove (l : List Node) (i j : Nat) :
    (l.take i ++ l.drop (i + 1))[j]? = if j < i then l[j]? else l[j + 1]? := by
  by_cases hi : i ≤ l.length
  · have hlen : (l.take i).length = i := by
      rw [List.length_take]
      omega
    by_cases h1 : j < i
    · rw [if_pos h1, List.getElem?_append_left (by omega), List.getElem?_take_of_lt h1]
    · rw [if_neg h1, List.getElem?_append_right (by omega), hlen, List.getElem?_drop]
      congr 1
      omega
  · have h1 : l.take i = l := List.take_of_length_le (by omega)
    have h2 : l.drop (i + 1) = [] := List.drop_of_length_le (by omega)
    rw [h1, h2, List.append_nil]
    by_cases h3 : j < i
    · rw [if_pos h3]
    · rw [if_neg h3, List.getElem?_eq_none (by omega), List.getElem?_eq_none (by omega)]

theorem length_insert (BB : BasicBlock) (p : Nat) (N : Node) (hp : p ≤ BB.InstList.length) :
    (BB.insert p N).InstList.length = BB.InstList.length + 1 := by
  unfold BasicBlock.insert
  simp only [List.length_append, List.length_take, List.length_cons, List.length_drop]
  omega

theorem getMarker_insert (BB : BasicBlock) (p : Nat) (N : Node) (j : Nat)
    (hp : p ≤ BB.InstList.length) :
    (BB.insert p N).getMarker j =
      if j < p then BB.getMarker j else if j = p then N.DbgMarker else BB.getMarker (j - 1) := by
  unfold BasicBlock.insert BasicBlock.getMarker
  simp only [getElem?_insert BB.InstList p N j hp]
  by_cases h1 : j < p
  · simp only [if_pos h1]
  · simp only [if_neg h1]
    by_cases h2 : j = p
    · simp only [if_pos h2]
    · simp only [if_neg h2]

theorem annotationsAt_insert (BB : BasicBlock) (p : Nat) (N : Node) (j : Nat)
    (hp : p ≤ BB.InstList.length) :
    (BB.insert p N).annotationsAt j =
      if j < p then BB.annotationsAt j else if j = p then N.DbgMarker.getD []
      else BB.annotationsAt (j - 1) := by
  unfold BasicBlock.annotationsAt
  rw [getMarker_insert BB p N j hp]
  split
  · rfl
  · split <;> rfl

theorem getMarker_remove (BB : BasicBlock) (i j : Nat) :
    (BB.remove i).getMarker j = if j < i then BB.getMarker j else BB.getMarker (j + 1) := by
  unfold BasicBlock.remove BasicBlock.getMarker
  simp only [getElem?_remove BB.InstList i j]
  by_cases h : j < i
  · simp only [if_pos h]
  · simp only [if_neg h]

theorem annotationsAt_remove (BB : BasicBlock) (i j : Nat) :
    (BB.remove i).annotationsAt j =
      if j < i then BB.annotationsAt j else BB.annotationsAt (j + 1) := by
  unfold BasicBlock.annotationsAt
  rw [getMarker_remove]
  split <;> rfl

theorem take_drop_insert {α : Type} (l : List α) (p : Nat) (x : α) (hp : p ≤ l.length) :
    (l.take p ++ x :: l.drop p).take p ++ (l.take p ++ x :: l.drop p).drop (p + 1) = l := by
  have hlen : (l.take p).length = p := by
    rw [List.length_take]
    omega
  have h1 : (l.take p ++ x :: l.drop p).take p = l.take p := by
    rw [List.take_append_of_le_length (by omega), List.take_of_length_le (by omega)]
  have h2 : (l.take p ++ x :: l.drop p).drop (p + 1) = l.drop p := by
    have : p + 1 = (l.take p).length + 1 := by omega
    rw [this, List.drop_append]
    rfl
  rw [h1, h2, List.take_append_drop]

/-- The node a marker belongs to. -/
theorem getMarker_of_getElem? (BB : BasicBlock) (i : Nat) (N : Node)
    (h : BB.InstList[i]? = some N) : BB.getMarker i = N.DbgMarker := by
  unfold BasicBlock.getMarker
  rw [h]

theorem getElem?_map_skeleton (B1 B2 : BasicBlock) (h : B1.skeleton = B2.skeleton) (i : Nat) :
    (B1.InstList[i]?).map Node.skeleton = (B2.InstList[i]?).map Node.skeleton := by
  have h1 : B1.InstList.map Node.skeleton = B2.InstList.map Node.skeleton :=
    congrArg (fun s => s.1) h
  rw [← List.getElem?_map, ← List.getElem?_map, h1]

/-! ### List membership engine: the trailing flush -/

theorem flushes_of_skeleton (B1 B2 : BasicBlock) (h : B1.skeleton = B2.skeleton) :
    B1.flushes = B2.flushes := by
  have h1 : B1.InstList.map Node.skeleton = B2.InstList.map Node.skeleton :=
    congrArg (fun s => s.1) h
  have h2 : B1.IsNewDbgInfoFormat = B2.IsNewDbgInfoFormat := congrArg (fun s => s.2.2) h
  have h3 : ∀ l : List Node, l.getLast?.map Node.isTerminator =
      ((l.map Node.skeleton).getLast?).map (fun s => s.2.1) := by
    intro l
    rw [List.getLast?_map, Option.map_map]
    rfl
  unfold BasicBlock.flushes
  rw [h2, h3, h3, h1]

theorem skeleton_flushTerminatorDbgValues (BB : BasicBlock) :
    BB.flushTerminatorDbgValues.skeleton = BB.skeleton := by
  unfold BasicBlock.flushTerminatorDbgValues
  split
  · rfl
  · split
    · rfl
    · split
      · rfl
      · split
        · rfl
        · exact skeleton_absorbDebugValues BB _ _ false

theorem annotationsAt_clearTrailing (B : BasicBlock) (j : Nat) :
    BasicBlock.annotationsAt { B with TrailingDPValues := none } j =
      if j < B.InstList.length then B.annotationsAt j else [] := by
  unfold BasicBlock.annotationsAt BasicBlock.getMarker
  by_cases h : j < B.InstList.length
  · simp only [List.getElem?_eq_getElem h, if_pos h]
  · simp only [List.getElem?_eq_none (Nat.le_of_not_lt h), if_neg h]
    rfl

theorem annotationsAt_flushTerminatorDbgValues (BB : BasicBlock) (j : Nat)
    (hj : j ≤ BB.InstList.length) :
    BB.flushTerminatorDbgValues.annotationsAt j =
      if BB.flushes = true then
        (if j + 1 = BB.InstList.length then
          BB.annotationsAt j ++ BB.annotationsAt BB.InstList.length
         else if j = BB.InstList.length then []
         else BB.annotationsAt j)
      else BB.annotationsAt j := by
  unfold BasicBlock.flushTerminatorDbgValues BasicBlock.flushes
  cases hfmt : BB.IsNewDbgInfoFormat with
  | false => simp
  | true =>
    simp only [Bool.not_true, Bool.false_eq_true, if_false, Bool.true_and]
    cases hlast : BB.InstList.getLast? with
    | none => simp
    | some Term =>
      have hne : BB.InstList ≠ [] := by
        intro e
        rw [e] at hlast
        simp at hlast
      have hpos : 0 < BB.InstList.length := List.length_pos.mpr hne
      cases hterm : Term.isTerminator with
      | false => simp [hterm]
      | true =>
        simp only [hterm, Bool.not_true, Bool.false_eq_true, if_false, Option.map_some',
          beq_self_eq_true, if_true]
        cases htr : BB.TrailingDPValues with
        | none =>
          simp only []
          have h0 : BB.annotationsAt BB.InstList.length = [] := by
            unfold BasicBlock.annotationsAt BasicBlock.getMarker
            rw [List.getElem?_eq_none (Nat.le_refl _), htr]
            rfl
          rw [h0, List.append_nil]
          split
          · rfl
          · split
            · rename_i h2
              rw [h2, h0]
            · rfl
        | some T =>
          simp only []
          have key := annotationsAt_absorbDebugValues_valid BB (BB.InstList.length - 1)
            BB.InstList.length false j (by omega) (Nat.le_refl _) hj
          simp only [Bool.false_eq_true, if_false] at key
          rw [annotationsAt_clearTrailing, length_absorbDebugValues, key]
          by_cases h1 : j + 1 = BB.InstList.length
          · have h2 : BB.InstList.length - 1 = j := by omega
            rw [if_pos h1, if_pos (by omega), if_pos h2, h2]
          · rw [if_neg h1]
            by_cases h2 : j = BB.InstList.length
            · rw [if_pos h2, if_neg (by omega)]
            · rw [if_neg h2, if_pos (by omega), if_neg (by omega), if_neg (by omega)]

/-! ### Insertion followed by removal -/

theorem insertBefore_eq (this : Node) (BB : BasicBlock) (InsertPos : InstListIterator)
    (hm : this.DbgMarker = none) (hp : InsertPos.Pos ≤ BB.InstList.length) :
    insertBefore this BB InsertPos =
      some (if BB.IsNewDbgInfoFormat = true then
        (if this.isTerminator = true then (placed this BB InsertPos).flushTerminatorDbgValues
         else placed this BB InsertPos)
      else BB.insert InsertPos.Pos this) := by
  have h1 : ¬ BB.InstList.length < InsertPos.Pos := by omega
  have h2 : (BB.insert InsertPos.Pos this).IsNewDbgInfoFormat = BB.IsNewDbgInfoFormat := rfl
  unfold insertBefore placed
  rw [hm]
  simp only [Option.isSome_none, Bool.false_eq_true, if_false, h1, h2]
  cases BB.IsNewDbgInfoFormat <;> simp

theorem skeleton_placed (this : Node) (BB : BasicBlock) (InsertPos : InstListIterator) :
    (placed this BB InsertPos).skeleton = (BB.insert InsertPos.Pos this).skeleton := by
  unfold placed
  simp only []
  split
  · rw [skeleton_absorbDebugValues, skeleton_createMarker]
  · rw [skeleton_createMarker]

theorem annotationsAt_placed (this : Node) (BB : BasicBlock) (InsertPos : InstListIterator)
    (hm : this.DbgMarker = none) (hp : InsertPos.Pos ≤ BB.InstList.length) (x : Nat)
    (hx : x ≤ BB.InstList.length + 1) :
    (placed this BB InsertPos).annotationsAt x =
      if x < InsertPos.Pos then BB.annotationsAt x
      else if x = InsertPos.Pos then
        (if InsertPos.HeadBit = true then [] else BB.annotationsAt InsertPos.Pos)
      else if x = InsertPos.Pos + 1 then
        (if InsertPos.HeadBit = true then BB.annotationsAt InsertPos.Pos else [])
      else BB.annotationsAt (x - 1) := by
  have hlen : ((BB.insert InsertPos.Pos this).createMarker InsertPos.Pos).InstList.length =
      BB.InstList.length + 1 := by
    rw [length_of_skeleton _ _ (skeleton_createMarker _ _), length_insert BB _ _ hp]
  have hC : ∀ y, ((BB.insert InsertPos.Pos this).createMarker InsertPos.Pos).annotationsAt y =
      if y < InsertPos.Pos then BB.annotationsAt y
      else if y = InsertPos.Pos then [] else BB.annotationsAt (y - 1) := by
    intro y
    rw [annotationsAt_createMarker, annotationsAt_insert BB _ _ _ hp, hm]
    rfl
  unfold placed
  simp only []
  cases hh : InsertPos.HeadBit with
  | true =>
    simp only [Bool.not_true, Bool.false_eq_true, if_false, if_true]
    rw [hC x]
    split_ifs <;> first | rfl | omega | contradiction | (subst_vars; rfl)
  | false =>
    simp only [Bool.not_false, if_true, Bool.false_eq_true, if_false]
    rw [annotationsAt_absorbDebugValues_valid _ _ _ _ _ (by omega) (by omega) (by omega)]
    rw [hC x, hC InsertPos.Pos, hC (InsertPos.Pos + 1)]
    simp only [Nat.lt_irrefl, if_false, if_true, Nat.add_sub_cancel, List.nil_append]
    split_ifs <;> first | rfl | omega | contradiction

theorem getLast?_insert (l : List Node) (p : Nat) (N : Node) (hp : p ≤ l.length) :
    (l.take p ++ N :: l.drop p).getLast? = if p = l.length then some N else l.getLast? := by
  by_cases h : p = l.length
  · rw [if_pos h, List.drop_of_length_le (by omega)]
    simp
  · rw [if_neg h]
    have hne : l.drop p ≠ [] := by
      intro e
      have := congrArg List.length e
      simp at this
      omega
    have h1 : (l.take p ++ N :: l.drop p).getLast? = (l.drop p).getLast? := by
      rw [List.getLast?_append, List.getLast?_cons]
      cases hd : (l.drop p).getLast? with
      | none =>
        exact absurd (List.getLast?_eq_none_iff.mp hd) hne
      | some v => simp
    have h2 : l.getLast? = (l.drop p).getLast? := by
      conv_lhs => rw [← List.take_append_drop p l]
      rw [List.getLast?_append]
      cases hd : (l.drop p).getLast? with
      | none =>
        exact absurd (List.getLast?_eq_none_iff.mp hd) hne
      | some v => simp
    rw [h1, h2]

theorem flushes_insert (BB : BasicBlock) (p : Nat) (N : Node) (hp : p ≤ BB.InstList.length) :
    (BB.insert p N).flushes =
      (BB.IsNewDbgInfoFormat &&
        (if p = BB.InstList.length then N.isTerminator
         else (BB.InstList.getLast?.map Node.isTerminator == some true))) := by
  unfold BasicBlock.flushes BasicBlock.insert
  simp only [getLast?_insert BB.InstList p N hp]
  by_cases h : p = BB.InstList.length
  · simp only [if_pos h, Option.map_some']
    cases N.isTerminator <;> rfl
  · simp only [if_neg h]

/-- The annotations after `removeFromParent` in the new debug format: those of
the removed node are found at its old position, in front of the annotations
that were at the next position. -/
theorem annotationsAt_removed (B : BasicBlock) (p j : Nat) (hp : p < B.InstList.length)
    (hj : j + 1 ≤ B.InstList.length) (hfmt : B.IsNewDbgInfoFormat = true) :
    ((handleMarkerRemoval B p).remove p).annotationsAt j =
      if j < p then B.annotationsAt j
      else if j = p then B.annotationsAt p ++ B.annotationsAt (p + 1)
      else B.annotationsAt (j + 1) := by
  rw [annotationsAt_remove]
  by_cases h1 : j < p
  · rw [if_pos h1, if_pos h1, annotationsAt_handleMarkerRemoval_valid B p j hp (by omega) hfmt,
      if_neg (by omega), if_neg (by omega)]
  · rw [if_neg h1, if_neg h1,
      annotationsAt_handleMarkerRemoval_valid B p (j + 1) hp (by omega) hfmt, if_neg (by omega)]
    by_cases h2 : j = p
    · rw [if_pos (by omega), if_pos h2]
    · rw [if_neg (by omega), if_neg h2]

theorem removeFromParent_eq (B : BasicBlock) (p : Nat) (hp : p < B.InstList.length) :
    ∃ N : Node, (handleMarkerRemoval B p).InstList[p]? = some N ∧
      removeFromParent B p = some ((handleMarkerRemoval B p).remove p, N) ∧
      some N.skeleton = (B.InstList[p]?).map Node.skeleton ∧
      (B.IsNewDbgInfoFormat = true → N.DbgMarker = none) ∧
      (B.IsNewDbgInfoFormat = false → B.InstList[p]? = some N) := by
  have hsk := skeleton_handleMarkerRemoval B p
  have hlen := length_of_skeleton _ _ hsk
  have hp2 : p < (handleMarkerRemoval B p).InstList.length := by omega
  refine ⟨(handleMarkerRemoval B p).InstList[p], List.getElem?_eq_getElem hp2, ?_, ?_, ?_, ?_⟩
  · unfold removeFromParent
    simp only [List.getElem?_eq_getElem hp2]
    rfl
  · rw [← getElem?_map_skeleton _ _ hsk p, List.getElem?_eq_getElem hp2]
    rfl
  · intro hfmt
    rw [← getMarker_of_getElem? _ p _ (List.getElem?_eq_getElem hp2)]
    exact getMarker_handleMarkerRemoval_self B p hfmt
  · intro hfmt
    have : handleMarkerRemoval B p = B := by
      unfold handleMarkerRemoval
      rw [hfmt]
      rfl
    simp only [this]
    exact List.getElem?_eq_getElem hp

/-- The container of `insertBefore` in the new debug format. -/
theorem insertBefore_flush_cases (this : Node) (BB : BasicBlock) (InsertPos : InstListIterator)
    (hm : this.DbgMarker = none) (hp : InsertPos.Pos ≤ BB.InstList.length)
    (hflush : this.isTerminator = false ∨ InsertPos.Pos = BB.InstList.length ∨
      BB.InstList.getLast?.map Node.isTerminator ≠ some true ∨
      BB.annotationsAt BB.InstList.length = [])
    (B3 : BasicBlock)
    (hB3 : B3 = if this.isTerminator = true then
      (placed this BB InsertPos).flushTerminatorDbgValues else placed this BB InsertPos) :
    (∀ x, x < InsertPos.Pos → B3.annotationsAt x = (placed this BB InsertPos).annotationsAt x) ∧
    (B3.annotationsAt InsertPos.Pos ++ B3.annotationsAt (InsertPos.Pos + 1) =
      (placed this BB InsertPos).annotationsAt InsertPos.Pos ++
        (placed this BB InsertPos).annotationsAt (InsertPos.Pos + 1)) ∧
    (∀ x, InsertPos.Pos + 1 < x → x ≤ BB.InstList.length + 1 →
      B3.annotationsAt x = (placed this BB InsertPos).annotationsAt x) := by
  have hlenP : (placed this BB InsertPos).InstList.length = BB.InstList.length + 1 := by
    rw [length_of_skeleton _ _ (skeleton_placed this BB InsertPos), length_insert BB _ _ hp]
  by_cases hterm : this.isTerminator = true
  swap
  · rw [if_neg hterm] at hB3
    subst hB3
    exact ⟨fun _ _ => rfl, rfl, fun _ _ _ => rfl⟩
  rw [if_pos hterm] at hB3
  have hF : ∀ x, x ≤ BB.InstList.length + 1 → B3.annotationsAt x =
      if (placed this BB InsertPos).flushes = true then
        (if x + 1 = BB.InstList.length + 1 then
          (placed this BB InsertPos).annotationsAt x ++
            (placed this BB InsertPos).annotationsAt (BB.InstList.length + 1)
         else if x = BB.InstList.length + 1 then []
         else (placed this BB InsertPos).annotationsAt x)
      else (placed this BB InsertPos).annotationsAt x := by
    intro x hx
    rw [hB3, annotationsAt_flushTerminatorDbgValues _ x (by omega), hlenP]
  by_cases hfl : (placed this BB InsertPos).flushes = true
  swap
  · refine ⟨fun x hx => ?_, ?_, fun x _ hx => ?_⟩
    · rw [hF x (by omega), if_neg hfl]
    · rw [hF _ (by omega), hF _ (by omega), if_neg hfl, if_neg hfl]
    · rw [hF x hx, if_neg hfl]
  have hfl2 := hfl
  rw [flushes_of_skeleton _ _ (skeleton_placed this BB InsertPos),
    flushes_insert BB _ _ hp] at hfl2
  by_cases hpl : InsertPos.Pos = BB.InstList.length
  · refine ⟨fun x hx => ?_, ?_, fun x hx1 hx2 => ?_⟩
    · rw [hF x (by omega), if_pos hfl, if_neg (by omega), if_neg (by omega)]
    · rw [hF _ (by omega), hF _ (by omega), if_pos hfl, if_pos hfl, if_pos (by omega),
        if_neg (by omega), if_pos (by omega), hpl, List.append_nil]
    · omega
  · have hlast : BB.InstList.getLast?.map Node.isTerminator = some true := by
      rw [if_neg hpl] at hfl2
      simp only [Bool.and_eq_true, beq_iff_eq] at hfl2
      exact hfl2.2
    have htrail : BB.annotationsAt BB.InstList.length = [] := by
      rcases hflush with h | h | h | h
      · rw [hterm] at h
        exact absurd h (by simp)
      · exact absurd h hpl
      · exact absurd hlast h
      · exact h
    have hPn : (placed this BB InsertPos).annotationsAt (BB.InstList.length + 1) = [] := by
      rw [annotationsAt_placed this BB InsertPos hm hp _ (Nat.le_refl _), if_neg (by omega),
        if_neg (by omega), if_neg (by omega)]
      exact htrail
    have hall : ∀ x, x ≤ BB.InstList.length + 1 →
        B3.annotationsAt x = (placed this BB InsertPos).annotationsAt x := by
      intro x hx
      rw [hF x hx, if_pos hfl, hPn]
      by_cases h1 : x + 1 = BB.InstList.length + 1
      · rw [if_pos h1, List.append_nil]
      · rw [if_neg h1]
        by_cases h2 : x = BB.InstList.length + 1
        · rw [if_pos h2, h2, hPn]
        · rw [if_neg h2]
    refine ⟨fun x hx => hall x (by omega), ?_, fun x _ hx => hall x hx⟩
    rw [hall _ (by omega), hall _ (by omega)]

/-- C23, as amended: in any container, at any valid position (head bit set or
clear), inserting a detached node without a debug marker and then calling
`removeFromParent()` on it restores the membership state, provided the
insertion does not flush trailing annotations onto another node: the node is
not a terminator, or it is put at the end, or the container does not end with
a terminator, or nothing trails the container.  The sequence (addresses,
terminator flags, tokens) is the same, the node is detached again without a
marker, every position of the container, the trailing one included, holds the
annotations it held before, and the order-valid bit is clear. -/
theorem insertBefore_removeFromParent_roundtrip (this : Node) (BB : BasicBlock)
    (InsertPos : InstListIterator)
    (hm : this.DbgMarker = none) (hp : InsertPos.Pos ≤ BB.InstList.length)
    (hflush : this.isTerminator = false ∨ InsertPos.Pos = BB.InstList.length ∨
      BB.InstList.getLast?.map Node.isTerminator ≠ some true ∨
      BB.annotationsAt BB.InstList.length = []) :
    ∃ (BB1 BB2 : BasicBlock) (N : Node),
      insertBefore this BB InsertPos = some BB1 ∧
      insertInto (NodeRef.detached this) BB InsertPos = some (BB1, InsertPos.Pos) ∧
      removeFromParent BB1 InsertPos.Pos = some (BB2, N) ∧
      BB2.InstList.map Node.skeleton = BB.InstList.map Node.skeleton ∧
      N.skeleton = this.skeleton ∧ N.DbgMarker = none ∧
      (∀ j, BB2.annotationsAt j = BB.annotationsAt j) ∧
      BB2.InstrOrderValid = false ∧ BB2.IsNewDbgInfoFormat = BB.IsNewDbgInfoFormat := by
  have hins := insertBefore_eq this BB InsertPos hm hp
  have hinto : ∀ BB1, insertBefore this BB InsertPos = some BB1 →
      insertInto (NodeRef.detached this) BB InsertPos = some (BB1, InsertPos.Pos) := by
    intro BB1 h
    unfold insertInto
    simp only []
    rw [if_neg (by omega), h]
    rfl
  have hskI : ∀ B : BasicBlock, B.skeleton = (BB.insert InsertPos.Pos this).skeleton →
      (((handleMarkerRemoval B InsertPos.Pos).remove InsertPos.Pos).InstList.map Node.skeleton =
        BB.InstList.map Node.skeleton) ∧
      (B.InstList[InsertPos.Pos]?).map Node.skeleton = some this.skeleton ∧
      ((handleMarkerRemoval B InsertPos.Pos).remove InsertPos.Pos).InstrOrderValid = false ∧
      ((handleMarkerRemoval B InsertPos.Pos).remove InsertPos.Pos).IsNewDbgInfoFormat =
        BB.IsNewDbgInfoFormat ∧
      B.InstList.length = BB.InstList.length + 1 ∧
      B.IsNewDbgInfoFormat = BB.IsNewDbgInfoFormat := by
    intro B hB
    have hH := (skeleton_handleMarkerRemoval B InsertPos.Pos).trans hB
    have hl : (handleMarkerRemoval B InsertPos.Pos).InstList.map Node.skeleton =
        (BB.InstList.map Node.skeleton).take InsertPos.Pos ++
          this.skeleton :: (BB.InstList.map Node.skeleton).drop InsertPos.Pos := by
      have := congrArg (fun s => s.1) hH
      simp only [BasicBlock.skeleton, BasicBlock.insert, List.map_append, List.map_cons,
        List.map_take, List.map_drop] at this
      exact this
    refine ⟨?_, ?_, rfl, ?_, ?_, ?_⟩
    · unfold BasicBlock.remove
      simp only [List.map_append, List.map_take, List.map_drop]
      rw [hl]
      exact take_drop_insert _ _ _ (by simpa using hp)
    · rw [getElem?_map_skeleton _ _ hB InsertPos.Pos]
      unfold BasicBlock.insert
      simp only [getElem?_insert BB.InstList InsertPos.Pos this InsertPos.Pos hp]
      simp
    · exact congrArg (fun s => s.2.2) hH
    · rw [length_of_skeleton _ _ hB, length_insert BB _ _ hp]
    · exact congrArg (fun s => s.2.2) hB
  cases hfmt : BB.IsNewDbgInfoFormat with
  | false =>
    rw [hfmt] at hins
    simp only [Bool.false_eq_true, if_false] at hins
    obtain ⟨h1, h2, h3, h4, h5, h6⟩ := hskI (BB.insert InsertPos.Pos this) rfl
    obtain ⟨N, hN, hrem, hNsk, _, hNold⟩ :=
      removeFromParent_eq (BB.insert InsertPos.Pos this) InsertPos.Pos (by omega)
    have hN2 : (BB.insert InsertPos.Pos this).InstList[InsertPos.Pos]? = some N := hNold hfmt
    have hNthis : N = this := by
      unfold BasicBlock.insert at hN2
      simp only [getElem?_insert BB.InstList InsertPos.Pos this InsertPos.Pos hp] at hN2
      simp at hN2
      exact hN2.symm
    have hid : handleMarkerRemoval (BB.insert InsertPos.Pos this) InsertPos.Pos =
        BB.insert InsertPos.Pos this := by
      unfold handleMarkerRemoval
      have : (BB.insert InsertPos.Pos this).IsNewDbgInfoFormat = false := hfmt
      rw [this]
      rfl
    refine ⟨_, _, N, hins, hinto _ hins, hrem, h1, ?_, ?_, ?_, h3, ?_⟩
    · rw [hNthis]
    · rw [hNthis]
      exact hm
    · intro j
      rw [hid]
      have hl : ((BB.insert InsertPos.Pos this).remove InsertPos.Pos).InstList = BB.InstList :=
        take_drop_insert _ _ _ hp
      unfold BasicBlock.annotationsAt BasicBlock.getMarker
      rw [hl]
      rfl
    · rw [h4, hfmt]
  | true =>
    rw [hfmt] at hins
    simp only [if_true] at hins
    obtain ⟨B3, hB3⟩ : ∃ B3 : BasicBlock, B3 = if this.isTerminator = true then
        (placed this BB InsertPos).flushTerminatorDbgValues else placed this BB InsertPos :=
      ⟨_, rfl⟩
    rw [← hB3] at hins
    obtain ⟨hi, hii, hiii⟩ := insertBefore_flush_cases this BB InsertPos hm hp hflush B3 hB3
    have hskB3 : B3.skeleton = (BB.insert InsertPos.Pos this).skeleton := by
      rw [hB3]
      split
      · rw [skeleton_flushTerminatorDbgValues, skeleton_placed]
      · rw [skeleton_placed]
    obtain ⟨h1, h2, h3, h4, h5, h6⟩ := hskI B3 hskB3
    have hfmt3 : B3.IsNewDbgInfoFormat = true := h6.trans hfmt
    obtain ⟨N, hN, hrem, hNsk, hNnew, _⟩ := removeFromParent_eq B3 InsertPos.Pos (by omega)
    have hPp : (placed this BB InsertPos).annotationsAt InsertPos.Pos =
        if InsertPos.HeadBit = true then [] else BB.annotationsAt InsertPos.Pos := by
      rw [annotationsAt_placed this BB InsertPos hm hp InsertPos.Pos (by omega)]
      simp
    have hPp1 : (placed this BB InsertPos).annotationsAt (InsertPos.Pos + 1) =
        if InsertPos.HeadBit = true then BB.annotationsAt InsertPos.Pos else [] := by
      rw [annotationsAt_placed this BB InsertPos hm hp (InsertPos.Pos + 1) (by omega)]
      simp
    have hval : ∀ j, j ≤ BB.InstList.length →
        ((handleMarkerRemoval B3 InsertPos.Pos).remove InsertPos.Pos).annotationsAt j =
          BB.annotationsAt j := by
      intro j hj
      rw [annotationsAt_removed B3 InsertPos.Pos j (by omega) (by omega) hfmt3]
      by_cases hj1 : j < InsertPos.Pos
      · rw [if_pos hj1, hi j hj1, annotationsAt_placed this BB InsertPos hm hp j (by omega),
          if_pos hj1]
      · rw [if_neg hj1]
        by_cases hj2 : j = InsertPos.Pos
        · rw [if_pos hj2, hii, hPp, hPp1, hj2]
          cases InsertPos.HeadBit <;> simp
        · rw [if_neg hj2, hiii (j + 1) (by omega) (by omega),
            annotationsAt_placed this BB InsertPos hm hp _ (by omega), if_neg (by omega),
            if_neg (by omega), if_neg (by omega)]
          rfl
    refine ⟨B3, _, N, hins, hinto _ hins, hrem, h1, ?_, hNnew hfmt3, ?_, h3, ?_⟩
    · rw [h2] at hNsk
      exact Option.some.inj hNsk
    · intro j
      by_cases hj : j ≤ BB.InstList.length
      · exact hval j hj
      · have hlen2 : ((handleMarkerRemoval B3 InsertPos.Pos).remove
            InsertPos.Pos).InstList.length = BB.InstList.length := by
          have := congrArg List.length h1
          simpa using this
        rw [annotationsAt_congr _ j BB.InstList.length (Or.inr ⟨by omega, by omega⟩),
          annotationsAt_congr BB j BB.InstList.length (Or.inr ⟨by omega, by omega⟩)]
        exact hval _ (Nat.le_refl _)
    · rw [h4, hfmt]

/-! ### Order oracle -/

theorem length_renumberFrom : ∀ (k : Nat) (l : List Node), (renumberFrom k l).length = l.length
  | _, [] => rfl
  | k, _ :: l => by simp [renumberFrom, length_renumberFrom (k + 1) l]

theorem map_Order_renumberFrom :
    ∀ (k : Nat) (l : List Node), (renumberFrom k l).map Node.Order = List.range' k l.length
  | _, [] => rfl
  | k, _ :: l => by simp [renumberFrom, map_Order_renumberFrom (k + 1) l, List.range'_succ]

theorem map_id_renumberFrom :
    ∀ (k : Nat) (l : List Node),
      (renumberFrom k l).map (fun N => (N.id, N.isTerminator, N.DbgMarker)) =
        l.map (fun N => (N.id, N.isTerminator, N.DbgMarker))
  | _, [] => rfl
  | k, _ :: l => by simp [renumberFrom, map_id_renumberFrom (k + 1) l]

theorem pairwise_renumberInstructions (BB : BasicBlock) :
    List.Pairwise (fun a b => a < b) (BB.renumberInstructions.InstList.map Node.Order) := by
  unfold BasicBlock.renumberInstructions
  simp only [map_Order_renumberFrom]
  exact List.pairwise_lt_range' 0 BB.InstList.length

/-- With strictly increasing tokens the comparison of two tokens is the
comparison of the two positions. -/
theorem order_lt_iff (l : List Node) (h : List.Pairwise (fun a b => a < b) (l.map Node.Order))
    (a b : Nat) (N O : Node) (ha : l[a]? = some N) (hb : l[b]? = some O) :
    N.Order < O.Order ↔ a < b := by
  have hal : a < l.length := by
    by_contra x
    rw [List.getElem?_eq_none (by omega)] at ha
    simp at ha
  have hbl : b < l.length := by
    by_contra x
    rw [List.getElem?_eq_none (by omega)] at hb
    simp at hb
  rw [List.getElem?_eq_getElem hal] at ha
  rw [List.getElem?_eq_getElem hbl] at hb
  have hN : N = l[a] := (Option.some.inj ha).symm
  have hO : O = l[b] := (Option.some.inj hb).symm
  rw [List.pairwise_iff_getElem] at h
  have key : ∀ i j (hi : i < l.length) (hj : j < l.length), i < j →
      (l[i]).Order < (l[j]).Order := by
    intro i j hi hj hij
    have := h i j (by simpa using hi) (by simpa using hj) hij
    simpa using this
  constructor
  · intro hlt
    by_contra hc
    rcases Nat.lt_or_ge b a with h1 | h1
    · have := key b a hbl hal h1
      rw [hN, hO] at hlt
      omega
    · have : a = b := by omega
      subst this
      rw [hN, hO] at hlt
      omega
  · intro hab
    rw [hN, hO]
    exact key a b hal hbl hab

theorem orderInvariant_of_invalid (BB : BasicBlock) (h : BB.InstrOrderValid = false) :
    BB.OrderInvariant := by
  intro hv
  rw [h] at hv
  exact absurd hv (by simp)

theorem orderInvariant_of_skeleton (B1 B2 : BasicBlock) (h : B1.skeleton = B2.skeleton)
    (h2 : B2.OrderInvariant) : B1.OrderInvariant := by
  have hl : B1.InstList.map Node.skeleton = B2.InstList.map Node.skeleton :=
    congrArg (fun s => s.1) h
  have hv : B1.InstrOrderValid = B2.InstrOrderValid := congrArg (fun s => s.2.1) h
  have ho : B1.InstList.map Node.Order = B2.InstList.map Node.Order := by
    have := congrArg (List.map (fun s : Nat × Bool × Nat => s.2.2)) hl
    simpa [List.map_map, Function.comp_def, Node.skeleton] using this
  intro hv1
  rw [ho]
  exact h2 (hv ▸ hv1)

theorem insertBefore_skeleton (this : Node) (BB BB1 : BasicBlock) (It : InstListIterator)
    (h : insertBefore this BB It = some BB1) :
    BB1.skeleton = (BB.insert It.Pos this).skeleton := by
  have hm : this.DbgMarker = none := by
    cases hd : this.DbgMarker with
    | none => rfl
    | some v =>
      unfold insertBefore at h
      rw [hd] at h
      simp at h
  have hp : It.Pos ≤ BB.InstList.length := by
    by_contra x
    unfold insertBefore at h
    rw [hm] at h
    simp only [Option.isSome_none, Bool.false_eq_true, if_false] at h
    rw [if_pos (by omega)] at h
    simp at h
  rw [insertBefore_eq this BB It hm hp] at h
  have h2 := Option.some.inj h
  rw [← h2]
  split
  · split
    · rw [skeleton_flushTerminatorDbgValues, skeleton_placed]
    · rw [skeleton_placed]
  · rfl

theorem insertAfter_skeleton (this : Node) (BB BB1 : BasicBlock) (p : Nat)
    (h : insertAfter this BB p = some BB1) :
    BB1.skeleton = (BB.insert (p + 1) this).skeleton := by
  unfold insertAfter at h
  split at h
  · simp at h
  · have h2 := Option.some.inj h
    rw [← h2]
    split
    · rw [skeleton_createMarker]
    · rfl

theorem orderInvariant_of_insert_skeleton (B BB : BasicBlock) (p : Nat) (N : Node)
    (h : B.skeleton = (BB.insert p N).skeleton) : B.OrderInvariant :=
  orderInvariant_of_skeleton _ _ h (orderInvariant_of_invalid _ rfl)

theorem spliceWithin_cases (BB S : BasicBlock) (I this : Nat)
    (h : spliceWithin BB I this = some S) : S = BB ∨ S.InstrOrderValid = false := by
  unfold spliceWithin at h
  split at h
  · exact Or.inl (Option.some.inj h).symm
  · cases hN : BB.InstList[this]? with
    | none => simp [hN] at h
    | some N =>
      simp only [hN, Option.bind_eq_bind, Option.some_bind, Option.some.injEq] at h
      right
      rw [← h]
      rfl

theorem skeleton_settled (B : BasicBlock) (New : Nat) (hd Preserve term : Bool) :
    (settled B New hd Preserve term).skeleton = B.skeleton := by
  unfold settled
  simp only []
  split
  · rw [skeleton_flushTerminatorDbgValues]
    split
    · split
      · rw [skeleton_absorbDebugValues, skeleton_createMarker]
      · rw [skeleton_createMarker]
    · rfl
  · split
    · split
      · rw [skeleton_absorbDebugValues, skeleton_createMarker]
      · rw [skeleton_createMarker]
    · rfl

/-- The stages of a successful move inside one container. -/
theorem moveBeforeImplWithin_some (BB BB1 : BasicBlock) (this : Nat) (I : InstListIterator)
    (Preserve : Bool) (h : moveBeforeImplWithin BB this I Preserve = some BB1) :
    ∃ (N : Node) (S : BasicBlock), BB.InstList[this]? = some N ∧
      I.Pos ≤ BB.InstList.length ∧
      spliceWithin
        (if BB.IsNewDbgInfoFormat && N.DbgMarker.isSome && !Preserve then
          (if I.Pos ≠ this then handleMarkerRemoval BB this else BB)
         else BB) I.Pos this = some S ∧
      BB1 = settled S (splicedIndex I.Pos this) I.HeadBit Preserve N.isTerminator := by
  unfold moveBeforeImplWithin at h
  rw [Option.bind_eq_bind] at h
  obtain ⟨N, hN, h2⟩ := Option.bind_eq_some.mp h
  dsimp only at h2
  by_cases hlen : BB.InstList.length < I.Pos
  · rw [if_pos hlen] at h2
    exact absurd h2 (by simp)
  · rw [if_neg hlen, Option.bind_eq_bind] at h2
    obtain ⟨S, hS, h3⟩ := Option.bind_eq_some.mp h2
    exact ⟨N, S, hN, by omega, hS, (Option.some.inj h3).symm⟩

/-- The stages of a successful move into another container. -/
theorem moveBeforeImpl_some (X X1 BB BB1 : BasicBlock) (this : Nat) (I : InstListIterator)
    (Preserve : Bool) (h : moveBeforeImpl X this BB I Preserve = some (X1, BB1)) :
    ∃ (N N1 : Node), X.InstList[this]? = some N ∧ I.Pos ≤ BB.InstList.length ∧
      (if BB.IsNewDbgInfoFormat && N.DbgMarker.isSome && !Preserve then
        handleMarkerRemoval X this else X).InstList[this]? = some N1 ∧
      X1 = (if BB.IsNewDbgInfoFormat && N.DbgMarker.isSome && !Preserve then
        handleMarkerRemoval X this else X).remove this ∧
      BB1 = settled (BB.insert I.Pos N1) I.Pos I.HeadBit Preserve N.isTerminator := by
  unfold moveBeforeImpl at h
  rw [Option.bind_eq_bind] at h
  obtain ⟨N, hN, h2⟩ := Option.bind_eq_some.mp h
  dsimp only at h2
  by_cases hlen : BB.InstList.length < I.Pos
  · rw [if_pos hlen] at h2
    exact absurd h2 (by simp)
  · rw [if_neg hlen] at h2
    obtain ⟨N1, hN1, h3⟩ := Option.bind_eq_some.mp h2
    have h4 := Option.some.inj h3
    exact ⟨N, N1, hN, by omega, hN1, (congrArg Prod.fst h4).symm, (congrArg Prod.snd h4).symm⟩

theorem moveBeforeImplWithin_orderInvariant (BB BB1 : BasicBlock) (this : Nat)
    (I : InstListIterator) (Preserve : Bool) (hinv : BB.OrderInvariant)
    (h : moveBeforeImplWithin BB this I Preserve = some BB1) : BB1.OrderInvariant := by
  obtain ⟨N, S, hN, hI, hS, hB1⟩ := moveBeforeImplWithin_some BB BB1 this I Preserve h
  have hsrc : (if BB.IsNewDbgInfoFormat && N.DbgMarker.isSome && !Preserve then
      (if I.Pos ≠ this then handleMarkerRemoval BB this else BB)
     else BB).skeleton = BB.skeleton := by
    split
    · split
      · exact skeleton_handleMarkerRemoval BB this
      · rfl
    · rfl
  have hSinv : S.OrderInvariant := by
    rcases spliceWithin_cases _ S _ _ hS with e | e
    · rw [e]
      exact orderInvariant_of_skeleton _ _ hsrc hinv
    · exact orderInvariant_of_invalid _ e
  rw [hB1]
  exact orderInvariant_of_skeleton _ _ (skeleton_settled _ _ _ _ _) hSinv

theorem moveBeforeImpl_orderInvariant (X X1 BB BB1 : BasicBlock) (this : Nat)
    (I : InstListIterator) (Preserve : Bool)
    (h : moveBeforeImpl X this BB I Preserve = some (X1, BB1)) :
    X1.OrderInvariant ∧ BB1.OrderInvariant := by
  obtain ⟨N, N1, hN, hI, hN1, hX1, hB1⟩ := moveBeforeImpl_some X X1 BB BB1 this I Preserve h
  constructor
  · rw [hX1]
    exact orderInvariant_of_invalid _ rfl
  · rw [hB1]
    exact orderInvariant_of_insert_skeleton _ _ _ _ (skeleton_settled _ _ _ _ _)

theorem comesBeforeIn_eq (BB : BasicBlock) (a b : Nat) (r : Bool) (BB1 : BasicBlock)
    (h : comesBeforeIn BB a b = some (r, BB1)) :
    BB1 = (if BB.InstrOrderValid = true then BB else BB.renumberInstructions) := by
  unfold comesBeforeIn at h
  simp only [Option.bind_eq_bind, Option.bind_eq_some, Option.some.injEq, Prod.mk.injEq] at h
  obtain ⟨N, _, O, _, _, h3⟩ := h
  rw [← h3]
  unfold BasicBlock.isInstrOrderValid
  cases BB.InstrOrderValid <;> rfl

/-- Every reachable state of a container satisfies the order invariant. -/
theorem orderInvariant_of_reachable (BB : BasicBlock) (h : BB.Reachable) :
    BB.OrderInvariant := by
  induction h with
  | empty valid fmt =>
    intro _
    exact List.Pairwise.nil
  | insertBefore BB BB1 this It _ hop _ =>
    exact orderInvariant_of_insert_skeleton _ _ _ _ (insertBefore_skeleton this BB BB1 It hop)
  | insertInto BB BB1 this It r _ hop _ =>
    unfold insertInto at hop
    cases this with
    | member P i => simp at hop
    | detached N =>
      simp only [] at hop
      split at hop
      · simp at hop
      · cases hi : insertBefore N BB It with
        | none => simp [hi] at hop
        | some B =>
          simp only [hi, Option.map_some', Option.some.injEq, Prod.mk.injEq] at hop
          rw [← hop.1]
          exact orderInvariant_of_insert_skeleton _ _ _ _ (insertBefore_skeleton N BB B It hi)
  | insertAfter BB BB1 this p _ hop _ =>
    exact orderInvariant_of_insert_skeleton _ _ _ _ (insertAfter_skeleton this BB BB1 p hop)
  | removeFromParent BB BB1 this N _ hop _ =>
    unfold removeFromParent at hop
    simp only [Option.bind_eq_bind, Option.bind_eq_some, Option.some.injEq,
      Prod.mk.injEq] at hop
    obtain ⟨_, _, h1, _⟩ := hop
    rw [← h1]
    exact orderInvariant_of_invalid _ rfl
  | moveWithin BB BB1 this I Preserve _ hop ih =>
    exact moveBeforeImplWithin_orderInvariant BB BB1 this I Preserve ih hop
  | moveOut BB BB1 Y Y1 this I Preserve _ hop _ =>
    exact (moveBeforeImpl_orderInvariant BB BB1 Y Y1 this I Preserve hop).1
  | moveIn BB BB1 X X1 this I Preserve _ hop _ =>
    exact (moveBeforeImpl_orderInvariant X X1 BB BB1 this I Preserve hop).2
  | comesBefore BB BB1 a b r _ hop ih =>
    rw [comesBeforeIn_eq BB a b r BB1 hop]
    split
    · exact ih
    · intro _
      exact pairwise_renumberInstructions BB

/-- The answer of an order query in a container that satisfies the order
invariant. -/
theorem comesBeforeIn_spec (BB : BasicBlock) (hinv : BB.OrderInvariant) (a b : Nat)
    (ha : a < BB.InstList.length) (hb : b < BB.InstList.length) :
    ∃ BB1 : BasicBlock, comesBeforeIn BB a b = some (decide (a < b), BB1) ∧
      BB1 = (if BB.InstrOrderValid = true then BB else BB.renumberInstructions) ∧
      BB1.InstrOrderValid = true ∧
      List.Pairwise (fun x y => x < y) (BB1.InstList.map Node.Order) ∧
      BB1.InstList.map (fun N => (N.id, N.isTerminator, N.DbgMarker)) =
        BB.InstList.map (fun N => (N.id, N.isTerminator, N.DbgMarker)) ∧
      BB1.InstList.length = BB.InstList.length := by
  have key : ∀ B1 : BasicBlock, B1.InstList.length = BB.InstList.length →
      List.Pairwise (fun x y => x < y) (B1.InstList.map Node.Order) →
      (do
        let N ← B1.InstList[a]?
        let O ← B1.InstList[b]?
        some (decide (N.Order < O.Order), B1)) = some (decide (a < b), B1) := by
    intro B1 hl hp
    have ha1 : a < B1.InstList.length := by omega
    have hb1 : b < B1.InstList.length := by omega
    have e1 : B1.InstList[a]? = some (B1.InstList[a]) := List.getElem?_eq_getElem ha1
    have e2 : B1.InstList[b]? = some (B1.InstList[b]) := List.getElem?_eq_getElem hb1
    rw [e1, e2]
    have := order_lt_iff B1.InstList hp a b _ _ e1 e2
    simp only [Option.bind_eq_bind, Option.some_bind, Option.some.injEq, Prod.mk.injEq, and_true]
    exact decide_eq_decide.mpr this
  cases hv : BB.InstrOrderValid with
  | true =>
    refine ⟨BB, ?_, by simp, hv, hinv hv, rfl, rfl⟩
    unfold comesBeforeIn BasicBlock.isInstrOrderValid
    rw [hv]
    exact key BB rfl (hinv hv)
  | false =>
    have hl : BB.renumberInstructions.InstList.length = BB.InstList.length :=
      length_renumberFrom 0 BB.InstList
    refine ⟨BB.renumberInstructions, ?_, by simp, rfl, pairwise_renumberInstructions BB,
      map_id_renumberFrom 0 BB.InstList, hl⟩
    unfold comesBeforeIn BasicBlock.isInstrOrderValid
    rw [hv]
    exact key BB.renumberInstructions hl (pairwise_renumberInstructions BB)

/-- C21: in every reachable state of a container, order-valid or not, and for
every two nodes `a` and `b` of it, `a.comesBefore(b)` returns whether `a`
occurs strictly earlier than `b` in the sequence; afterwards the container is
order-valid, its position tokens are strictly increasing along the sequence,
and the sequence is the same.  The query `b.comesBefore(a)` that follows
returns whether `b` occurs strictly earlier, so exactly one of
`a.comesBefore(b)`, `b.comesBefore(a)` and `a == b` holds. -/
theorem comesBefore_consistent (Blocks : Nat → BasicBlock) (P a b : Nat)
    (hR : (Blocks P).Reachable) (ha : a < (Blocks P).InstList.length)
    (hb : b < (Blocks P).InstList.length) :
    ∃ (BB1 BB2 : BasicBlock) (r1 r2 : Bool),
      comesBefore Blocks (NodeRef.member P a) (NodeRef.member P b) = some (r1, BB1) ∧
      comesBefore (fun _ => BB1) (NodeRef.member P b) (NodeRef.member P a) = some (r2, BB2) ∧
      (r1 = true ↔ a < b) ∧ (r2 = true ↔ b < a) ∧
      ((r1 = true ∧ r2 = false ∧ a ≠ b) ∨ (r1 = false ∧ r2 = true ∧ a ≠ b) ∨
        (r1 = false ∧ r2 = false ∧ a = b)) ∧
      BB1.InstrOrderValid = true ∧
      List.Pairwise (fun x y => x < y) (BB1.InstList.map Node.Order) ∧
      BB1.InstList.map (fun N => (N.id, N.isTerminator, N.DbgMarker)) =
        (Blocks P).InstList.map (fun N => (N.id, N.isTerminator, N.DbgMarker)) ∧
      BB1.Reachable ∧ BB2 = BB1 := by
  obtain ⟨BB1, h1, _, hv1, hp1, hs1, hl1⟩ :=
    comesBeforeIn_spec (Blocks P) (orderInvariant_of_reachable _ hR) a b ha hb
  have hR1 : BB1.Reachable := BasicBlock.Reachable.comesBefore _ _ a b _ hR h1
  obtain ⟨BB2, h2, hBB2, _, _, _, _⟩ :=
    comesBeforeIn_spec BB1 (orderInvariant_of_reachable _ hR1) b a (by omega) (by omega)
  rw [hv1, if_pos rfl] at hBB2
  refine ⟨BB1, BB2, decide (a < b), decide (b < a), ?_, ?_, by simp, by simp, ?_, hv1, hp1, hs1,
    hR1, hBB2⟩
  · unfold comesBefore NodeRef.getParent
    simp only [ne_eq, not_true_eq_false, if_false]
    exact h1
  · unfold comesBefore NodeRef.getParent
    simp only [ne_eq, not_true_eq_false, if_false]
    exact h2
  · simp only [decide_eq_true_eq, decide_eq_false_iff_not]
    omega

/-- C22: `comesBefore(other)` fails its precondition check exactly when this
node or the other one is detached or the two belong to different containers;
two members of one container always get a boolean answer.  A member handle
designates a node of its container. -/
theorem comesBefore_fails_iff (Blocks : Nat → BasicBlock) (this Other : NodeRef)
    (hthis : ∀ P i, this = NodeRef.member P i → i < (Blocks P).InstList.length)
    (hOther : ∀ P i, Other = NodeRef.member P i → i < (Blocks P).InstList.length) :
    (comesBefore Blocks this Other = none ↔
      this.getParent = none ∨ Other.getParent = none ∨ this.getParent ≠ Other.getParent) ∧
    (this.getParent ≠ none → this.getParent = Other.getParent →
      ∃ (r : Bool) (BB1 : BasicBlock), comesBefore Blocks this Other = some (r, BB1)) := by
  have htotal : ∀ (BB : BasicBlock) (a b : Nat), a < BB.InstList.length →
      b < BB.InstList.length → ∃ (r : Bool) (BB1 : BasicBlock),
        comesBeforeIn BB a b = some (r, BB1) := by
    intro BB a b ha hb
    have hl : (if !BB.isInstrOrderValid then BB.renumberInstructions else BB).InstList.length =
        BB.InstList.length := by
      split
      · exact length_renumberFrom 0 BB.InstList
      · rfl
    unfold comesBeforeIn
    simp only [Option.bind_eq_bind]
    rw [List.getElem?_eq_getElem (by omega), List.getElem?_eq_getElem (by omega)]
    exact ⟨_, _, rfl⟩
  cases this with
  | detached N =>
    refine ⟨⟨fun _ => Or.inl rfl, fun _ => rfl⟩, fun h => absurd rfl h⟩
  | member P i =>
    cases Other with
    | detached M =>
      refine ⟨⟨fun _ => Or.inr (Or.inl rfl), fun _ => rfl⟩, fun _ h => ?_⟩
      simp [NodeRef.getParent] at h
    | member Q j =>
      by_cases hPQ : P = Q
      · subst hPQ
        obtain ⟨r, BB1, hr⟩ := htotal (Blocks P) i j (hthis P i rfl) (hOther P j rfl)
        have hc : comesBefore Blocks (NodeRef.member P i) (NodeRef.member P j) =
            some (r, BB1) := by
          unfold comesBefore NodeRef.getParent
          simp only [ne_eq, not_true_eq_false, if_false]
          exact hr
        refine ⟨⟨fun h => ?_, fun h => ?_⟩, fun _ _ => ⟨r, BB1, hc⟩⟩
        · rw [hc] at h
          exact absurd h (by simp)
        · simp [NodeRef.getParent] at h
      · have hc : comesBefore Blocks (NodeRef.member P i) (NodeRef.member Q j) = none := by
          unfold comesBefore NodeRef.getParent
          simp only [ne_eq, hPQ, not_false_eq_true, if_true]
        refine ⟨⟨fun _ => Or.inr (Or.inr ?_), fun _ => hc⟩, fun _ h => ?_⟩
        · simp [NodeRef.getParent, hPQ]
        · simp [NodeRef.getParent, hPQ] at h

/-! ### Moving a node and its debug annotations -/

/-- Instance of C21: the second node of a container built by two insertions
does not come before the first. -/
theorem comesBefore_consistent_witness :
    ∃ (BB1 BB2 : BasicBlock) (r1 r2 : Bool),
      comesBefore (fun _ => blockTwo) (NodeRef.member 0 1) (NodeRef.member 0 0) =
        some (r1, BB1) ∧
      comesBefore (fun _ => BB1) (NodeRef.member 0 0) (NodeRef.member 0 1) = some (r2, BB2) ∧
      (r1 = true ↔ 1 < 0) ∧ (r2 = true ↔ 0 < 1) ∧
      ((r1 = true ∧ r2 = false ∧ 1 ≠ 0) ∨ (r1 = false ∧ r2 = true ∧ 1 ≠ 0) ∨
        (r1 = false ∧ r2 = false ∧ 1 = 0)) ∧
      BB1.InstrOrderValid = true ∧
      List.Pairwise (fun x y => x < y) (BB1.InstList.map Node.Order) ∧
      BB1.InstList.map (fun N => (N.id, N.isTerminator, N.DbgMarker)) =
        blockTwo.InstList.map (fun N => (N.id, N.isTerminator, N.DbgMarker)) ∧
      BB1.Reachable ∧ BB2 = BB1 :=
  comesBefore_consistent (fun _ => blockTwo) 0 1 0
    (BasicBlock.Reachable.insertBefore blockOne blockTwo detachedTerminator
      { Pos := 1, HeadBit := false }
      (BasicBlock.Reachable.insertBefore blockEmpty blockOne detachedNode
        { Pos := 0, HeadBit := true } (BasicBlock.Reachable.empty false true) (by decide))
      (by decide))
    (by decide) (by decide)

/-- Instance of C22: a member of a container and a detached node. -/
theorem comesBefore_fails_iff_witness :
    comesBefore (fun _ => blockABT) (NodeRef.member 0 0) (NodeRef.detached detachedNode) =
        none ↔
      (NodeRef.member 0 0).getParent = none ∨ (NodeRef.detached detachedNode).getParent = none ∨
        (NodeRef.member 0 0).getParent ≠ (NodeRef.detached detachedNode).getParent :=
  (comesBefore_fails_iff (fun _ => blockABT) (NodeRef.member 0 0)
    (NodeRef.detached detachedNode)
    (fun P i h => by
      cases h
      decide)
    (fun P i h => by cases h)).1

/-- The counterexample to C23: a terminator is inserted in front of the
terminator of a container with a trailing annotation and removed again; the
trailing annotation 77 has moved onto the terminator of the container. -/
theorem roundtrip_flush_counterexample :
    ∃ (BB1 BB2 : BasicBlock) (N : Node),
      insertBefore detachedTerminator blockTrailing { Pos := 1, HeadBit := true } = some BB1 ∧
      removeFromParent BB1 1 = some (BB2, N) ∧
      blockTrailing.annotationsAt 1 = [30] ∧ blockTrailing.annotationsAt 2 = [77] ∧
      BB2.annotationsAt 1 = [30, 77] ∧ BB2.annotationsAt 2 = [] :=
  ⟨_, _, _, rfl, rfl, rfl, rfl, rfl, rfl⟩

/-- Instance of C23 as amended: a node is inserted in front of the second node
of `blockABT`, behind its annotations, and removed again. -/
theorem insertBefore_removeFromParent_roundtrip_witness :
    ∃ (BB1 BB2 : BasicBlock) (N : Node),
      insertBefore detachedNode blockABT { Pos := 1, HeadBit := false } = some BB1 ∧
      insertInto (NodeRef.detached detachedNode) blockABT { Pos := 1, HeadBit := false } =
        some (BB1, 1) ∧
      removeFromParent BB1 1 = some (BB2, N) ∧
      BB2.InstList.map Node.skeleton = blockABT.InstList.map Node.skeleton ∧
      N.skeleton = detachedNode.skeleton ∧ N.DbgMarker = none ∧
      (∀ j, BB2.annotationsAt j = blockABT.annotationsAt j) ∧
      BB2.InstrOrderValid = false ∧ BB2.IsNewDbgInfoFormat = blockABT.IsNewDbgInfoFormat :=
  insertBefore_removeFromParent_roundtrip detachedNode blockABT { Pos := 1, HeadBit := false }
    rfl (by decide) (Or.inl rfl)

/-- With two terminators in a container the flush can take the annotations a
moved terminator left behind: the last node of `[T, T2]` is moved to the front
without preserving its debug range, its annotation 40 first trails the
container and is then flushed onto `T`. -/
theorem moveBefore_second_terminator_example :
    moveBeforeWithin
        { InstList := [nodeT, { id := 4, isTerminator := true, Order := 3,
                                DbgMarker := some [40] }],
          InstrOrderValid := false, IsNewDbgInfoFormat := true, TrailingDPValues := none }
        1 0 =
      some { InstList := [{ id := 4, isTerminator := true, Order := 3,
                            DbgMarker := some [30] },
                          { id := 3, isTerminator := true, Order := 2,
                            DbgMarker := some [40] }],
             InstrOrderValid := false, IsNewDbgInfoFormat := true,
             TrailingDPValues := none } := by
  decide

/-- The failing input of C25: `insertAfter` puts a terminator behind the only
node of a container with a trailing annotation.  The annotation still trails
the container, past the terminator; `insertBefore` at the end of the same
container moves it in front of the terminator. -/
theorem insertAfter_terminator_keeps_trailing :
    insertAfter detachedTerminator blockOpen 0 =
        some { InstList := [nodeA, { detachedTerminator with DbgMarker := some [] }],
               InstrOrderValid := false, IsNewDbgInfoFormat := true,
               TrailingDPValues := some [77] } ∧
      insertBefore detachedTerminator blockOpen { Pos := 1, HeadBit := true } =
        some { InstList := [nodeA, { detachedTerminator with DbgMarker := some [77] }],
               InstrOrderValid := false, IsNewDbgInfoFormat := true,
               TrailingDPValues := none } := by
  decide

/-! ### The trailing flush on insertion -/

/-- `insertAfter` never touches the trailing annotations. -/
theorem insertAfter_TrailingDPValues (this : Node) (BB BB1 : BasicBlock) (p : Nat)
    (h : insertAfter this BB p = some BB1) :
    BB1.annotationsAt BB1.InstList.length = BB.annotationsAt BB.InstList.length := by
  have hp : p < BB.InstList.length := by
    by_contra x
    unfold insertAfter at h
    rw [if_pos (by omega)] at h
    exact absurd h (by simp)
  have hsk := insertAfter_skeleton this BB BB1 p h
  have hlen : BB1.InstList.length = BB.InstList.length + 1 := by
    rw [length_of_skeleton _ _ hsk, length_insert BB _ _ (by omega)]
  unfold insertAfter at h
  rw [if_neg (by omega)] at h
  have h2 := Option.some.inj h
  rw [hlen, ← h2]
  have key : (BB.insert (p + 1) this).annotationsAt (BB.InstList.length + 1) =
      BB.annotationsAt BB.InstList.length := by
    rw [annotationsAt_insert BB _ _ _ (by omega), if_neg (by omega), if_neg (by omega)]
    rfl
  split
  · rw [annotationsAt_createMarker]
    exact key
  · exact key

/-- In the new debug format `insertBefore` of a terminator ends with the
trailing flush. -/
theorem insertBefore_terminator_flushed (this : Node) (BB BB1 : BasicBlock)
    (It : InstListIterator) (hterm : this.isTerminator = true)
    (hfmt : BB.IsNewDbgInfoFormat = true) (h : insertBefore this BB It = some BB1) :
    BB1 = (placed this BB It).flushTerminatorDbgValues := by
  have hm : this.DbgMarker = none := by
    cases hd : this.DbgMarker with
    | none => rfl
    | some v =>
      unfold insertBefore at h
      rw [hd] at h
      simp at h
  have hp : It.Pos ≤ BB.InstList.length := by
    by_contra x
    unfold insertBefore at h
    rw [hm] at h
    simp only [Option.isSome_none, Bool.false_eq_true, if_false] at h
    rw [if_pos (by omega)] at h
    simp at h
  rw [insertBefore_eq this BB It hm hp, if_pos hfmt, if_pos hterm] at h
  exact (Option.some.inj h).symm

/-! ### Atomicity against memory effects -/

/-- C31: the atomicity and the memory-effect classification agree. On an
atomic instruction `hasAtomicLoad` and `hasAtomicStore` both return, an atomic
load implies `mayReadFromMemory` and an atomic store implies
`mayWriteToMemory`; and a load or store that is atomic with an ordering other
than unordered (so stronger than unordered), or that is volatile, may both
read from and write to memory. -/
theorem atomicity_memory_effects_agree (I : Instruction) :
    (I.isAtomic = true →
      ∃ l s, I.hasAtomicLoad = some l ∧ I.hasAtomicStore = some s ∧
        (l = true → I.mayReadFromMemory = true) ∧
        (s = true → I.mayWriteToMemory = true)) ∧
    (I.opcode = Opcode.Load ∨ I.opcode = Opcode.Store →
      (I.isAtomic = true ∧ I.ordering ≠ AtomicOrdering.Unordered) ∨ I.isVolatile = true →
      I.mayReadFromMemory = true ∧ I.mayWriteToMemory = true) := by
  constructor
  · intro h
    have hL : I.hasAtomicLoad = match I.opcode with
        | .AtomicCmpXchg | .AtomicRMW | .Load => some true
        | _ => some false := by
      simp [hasAtomicLoad, h]
    have hS : I.hasAtomicStore = match I.opcode with
        | .AtomicCmpXchg | .AtomicRMW | .Store => some true
        | _ => some false := by
      simp [hasAtomicStore, h]
    rw [hL, hS]
    unfold mayReadFromMemory mayWriteToMemory
    cases hop : I.opcode <;> exact ⟨_, _, rfl, rfl, by simp, by simp⟩
  · intro hop hc
    have hun : I.isUnordered = false := by
      unfold isUnordered
      rcases hc with ⟨ha, ho⟩ | hv
      · have hna : I.ordering ≠ AtomicOrdering.NotAtomic := by
          rcases hop with hop | hop <;> simpa [isAtomic, hop] using ha
        simp [hna, ho]
      · simp [hv]
    rcases hop with hop | hop <;> simp [mayReadFromMemory, mayWriteToMemory, hop, hun]

/-- A monotonic atomic store has an atomic store, no atomic load, and may both
read from and write to memory; a volatile store that is not atomic may both
read and write as well. -/
theorem storeMonotonic_atomic_effects :
    storeMonotonic.isAtomic = true ∧ storeMonotonic.hasAtomicStore = some true ∧
      storeMonotonic.hasAtomicLoad = some false ∧
      storeMonotonic.mayReadFromMemory = true ∧ storeMonotonic.mayWriteToMemory = true ∧
      storeVolatile.isAtomic = false ∧
      storeVolatile.mayReadFromMemory = true ∧ storeVolatile.mayWriteToMemory = true := by
  decide

end llvm
